import Mathlib

/-!
MysqlBeat: row translation and delta engine.

A shallow embedding of `beater/mysqlbeat.go`.

Modelling conventions.

* A Go `string` is a `List Char` (`Str`).  The library functions
  `strings.HasSuffix` and `strings.Replace` work on sub-sequences, and on
  valid UTF-8 text a byte sub-sequence match is a code point sub-sequence
  match.
* `int64` is `Int`; the subtraction that the code performs in `int64` is
  `sub64`, which wraps modulo `2^64`.
* `float64` is `F64`, IEEE 754 binary64: finite numbers `(-1)^neg * m * 2^e`,
  the two infinities and NaN.  Conversion from `int64`, addition, subtraction
  and division round to nearest, ties to even, as the hardware does; a
  division by zero gives an infinity or NaN.  The conversion `int64(x)` of a
  number outside the range of `int64`, which Go leaves to the implementation,
  gives the smallest `int64`, as on amd64.
* `time.Time` is an `Int` count of nanoseconds; `time.Duration` is an `int64`
  count of nanoseconds and `Time.Sub` saturates at its bounds.
* `common.MapStr` (a Go `map[string]interface{}`) is an association list with
  at most one entry per key that `MapStr.set` keeps in place.
* `strconv.ParseFloat` belongs to the Go library and computes a binary
  floating point number; it is taken as a parameter `pf` everywhere.
-/

namespace MysqlBeat

/-! ## Go strings -/

/-- Go string. -/
abbrev Str := List Char

/-- Go `strings.HasSuffix(s, suffix)`:
`len(s) >= len(suffix) && s[len(s)-len(suffix):] == suffix`. -/
def strings_HasSuffix (s suffix : Str) : Bool :=
  decide (suffix.length ≤ s.length) && (s.drop (s.length - suffix.length) == suffix)

/-- Go `strings.Replace(s, old, new, 1)`: the first occurrence of `old` in `s`
is replaced by `new`; with an empty `old` the text `new` is put in front.
The last argument `1` of the source is fixed here. -/
def strings_Replace (s old new : Str) : Str :=
  if old.isPrefixOf s then new ++ s.drop old.length
  else
    match s with
    | [] => []
    | c :: cs => c :: strings_Replace cs old new

/-! ## Go `float64` -/

/-- A `float64`, IEEE 754 binary64: the finite number `(-1)^neg * m * 2^e`, an
infinity, or NaN.  The numbers of binary64 are the finite ones with
`m < 2^53` and `-1074 ≤ e ≤ 971`; the operations below return them with
`2^52 ≤ m` wherever `e > -1074`, so that equal numbers of the same sign are
equal terms.  Both zeros are there (`m = 0`).  The payload and the sign of a
NaN are not kept: no operation of this program reads them. -/
inductive F64 where
  | fin (neg : Bool) (m : Nat) (e : Int)
  | inf (neg : Bool)
  | nan
  deriving DecidableEq

/-- The float64 `+0`. -/
def F64.zero : F64 := .fin false 0 (-1074)

/-- The float64 `0.5`, the constant `.5` of the source. -/
def F64.half : F64 := .fin false 4503599627370496 (-53)

/-- The number of binary digits of a number below 256. -/
def F64.bitsSmall (n : Nat) : Nat :=
  if n = 0 then 0 else if n < 2 then 1 else if n < 4 then 2 else if n < 8 then 3
  else if n < 16 then 4 else if n < 32 then 5 else if n < 64 then 6 else if n < 128 then 7
  else 8

/-- The number of binary digits of `n`, eight at a time, in at most `fuel`
steps. -/
def F64.bitsAux : Nat → Nat → Nat
  | 0, _ => 0
  | fuel + 1, n => if n < 256 then F64.bitsSmall n else F64.bitsAux fuel (n / 256) + 8

/-- The number of binary digits of `n`: the least `b` with `n < 2^b`. -/
def F64.bits (n : Nat) : Nat := F64.bitsAux (n + 1) n

/-- The exponent of the binary64 grid at the positive number `num / den`:
`floor(log2(num / den)) - 52`, and `-1074` in the subnormal range.  With
`l = bits num - bits den` the number lies between `2^(l-1)` and `2^(l+1)`, and
`reached` tells whether it is at least `2^l`. -/
def F64.gridExp (num den : Nat) : Int :=
  let l : Int := (F64.bits num : Int) - (F64.bits den : Int)
  let reached : Bool :=
    if 0 ≤ l then decide (den * 2 ^ l.toNat ≤ num) else decide (den ≤ num * 2 ^ (-l).toNat)
  let lg : Int := if reached then l else l - 1
  max (lg - 52) (-1074)

/-- The integer nearest to `n1 / d1` (`d1 > 0`), ties to the even one: the
quotient `q` is the number rounded down and the remainder `r` decides the
rounding. -/
def F64.nearest (n1 d1 : Nat) : Nat :=
  let q := n1 / d1
  let r := n1 % d1
  let up : Bool := decide (d1 < 2 * r) || (decide (2 * r = d1) && decide (q % 2 = 1))
  if up then q + 1 else q

/-- The float64 nearest to the number `(-1)^neg * num / den` (`den > 0`), ties
to the even mantissa: the rounding of every binary64 operation.  The number
is divided by the grid step `2^e` and rounded to the nearest integer, the
mantissa; a mantissa that reaches `2^53` moves to the next exponent, and past
the largest finite number the result is an infinity. -/
def F64.round (neg : Bool) (num den : Nat) : F64 :=
  if num = 0 then .fin neg 0 (-1074)
  else
    let e := F64.gridExp num den
    let m := F64.nearest (if e < 0 then num * 2 ^ (-e).toNat else num)
      (if e < 0 then den else den * 2 ^ e.toNat)
    let m2 := if m = 2 ^ 53 then 2 ^ 52 else m
    let e2 := if m = 2 ^ 53 then e + 1 else e
    if e2 > 971 then .inf neg else .fin neg m2 e2

/-- Go conversion `float64(n)` of an `int64`. -/
def F64.ofInt (n : Int) : F64 := F64.round (decide (n < 0)) n.natAbs 1

/-- The finite number `(-1)^neg * m * 2^e` counted in units of `2^c`, for
`c ≤ e`. -/
def F64.scaled (neg : Bool) (m : Nat) (e c : Int) : Int :=
  if m = 0 then 0
  else if neg then -((m * 2 ^ (e - c).toNat : Nat) : Int) else ((m * 2 ^ (e - c).toNat : Nat) : Int)

/-- A common unit `2^c` for two finite numbers: the smaller exponent, that of
a zero apart. -/
def F64.common (mx : Nat) (ex : Int) (my : Nat) (ey : Int) : Int :=
  if mx = 0 then ey else if my = 0 then ex else min ex ey

/-- Go `x < y` on `float64`; false when an operand is NaN. -/
def F64.lt : F64 → F64 → Bool
  | .nan, _ => false
  | _, .nan => false
  | .inf nx, .inf ny => nx && !ny
  | .inf nx, .fin _ _ _ => nx
  | .fin _ _ _, .inf ny => !ny
  | .fin nx mx ex, .fin ny my ey =>
    decide (F64.scaled nx mx ex (F64.common mx ex my ey)
      < F64.scaled ny my ey (F64.common mx ex my ey))

/-- Go `x <= y` on `float64`; false when an operand is NaN. -/
def F64.le : F64 → F64 → Bool
  | .nan, _ => false
  | _, .nan => false
  | .inf nx, .inf ny => nx || !ny
  | .inf nx, .fin _ _ _ => nx
  | .fin _ _ _, .inf ny => !ny
  | .fin nx mx ex, .fin ny my ey =>
    decide (F64.scaled nx mx ex (F64.common mx ex my ey)
      ≤ F64.scaled ny my ey (F64.common mx ex my ey))

/-- Go `-x` on `float64`. -/
def F64.neg : F64 → F64
  | .fin neg m e => .fin (!neg) m e
  | .inf neg => .inf (!neg)
  | .nan => .nan

/-- Go `x + y` on `float64`: the exact sum, rounded.  A sum of zeros is `-0`
only when both are; an exact sum `0` of other numbers is `+0`; a zero added
to another number leaves it as it is. -/
def F64.add : F64 → F64 → F64
  | .nan, _ => .nan
  | _, .nan => .nan
  | .inf nx, .inf ny => if nx = ny then .inf nx else .nan
  | .inf nx, .fin _ _ _ => .inf nx
  | .fin _ _ _, .inf ny => .inf ny
  | .fin nx mx ex, .fin ny my ey =>
    if mx = 0 ∧ my = 0 then .fin (nx && ny) 0 (-1074)
    else if mx = 0 then .fin ny my ey
    else if my = 0 then .fin nx mx ex
    else
      let c := min ex ey
      let s := F64.scaled nx mx ex c + F64.scaled ny my ey c
      if s = 0 then .fin false 0 (-1074)
      else if 0 ≤ c then F64.round (decide (s < 0)) (s.natAbs * 2 ^ c.toNat) 1
      else F64.round (decide (s < 0)) s.natAbs (2 ^ (-c).toNat)

/-- Go `x - y` on `float64`. -/
def F64.sub (x y : F64) : F64 := F64.add x (F64.neg y)

/-- Go `x / y` on `float64`: the exact quotient, rounded; a number divided by
zero is an infinity, and `0 / 0` and `inf / inf` are NaN. -/
def F64.div : F64 → F64 → F64
  | .nan, _ => .nan
  | _, .nan => .nan
  | .inf _, .inf _ => .nan
  | .inf nx, .fin ny _ _ => .inf (xor nx ny)
  | .fin nx _ _, .inf ny => .fin (xor nx ny) 0 (-1074)
  | .fin nx mx ex, .fin ny my ey =>
    if my = 0 then (if mx = 0 then .nan else .inf (xor nx ny))
    else if ey ≤ ex then F64.round (xor nx ny) (mx * 2 ^ (ex - ey).toNat) my
    else F64.round (xor nx ny) mx (my * 2 ^ (ey - ex).toNat)

/-- The rational number that a finite float64 stands for; `0` for an
infinity and for NaN.  It is used in statements only. -/
def F64.toRat : F64 → ℚ
  | .fin neg m e => (if neg then -1 else 1) * (m : ℚ) * (2 : ℚ) ^ e
  | _ => 0

/-! ## Values and maps -/

/-- Dynamic values held in a `common.MapStr` (Go `interface{}`): the
dynamic types that this program stores. -/
inductive Value where
  | str (s : Str)
  | int (n : Int)
  | float (x : F64)
  | time (t : Int)
  deriving DecidableEq

/-- Go `common.MapStr`. -/
abbrev MapStr := List (Str × Value)

/-- Map read `m[k]`; `none` when the key is absent. -/
def MapStr.get : MapStr → Str → Option Value
  | [], _ => none
  | (k1, v1) :: rest, k => if k1 = k then some v1 else MapStr.get rest k

/-- Map write `m[k] = v`. -/
def MapStr.set : MapStr → Str → Value → MapStr
  | [], k, v => [(k, v)]
  | (k1, v1) :: rest, k, v =>
    if k1 = k then (k, v) :: rest else (k1, v1) :: MapStr.set rest k v

/-- Go `len(m)`. -/
def MapStr.len (m : MapStr) : Nat := m.length

/-! ## Numbers -/

/-- Result of an `int64` operation whose mathematical value is `x`:
two's complement wrap-around into `[-2^63, 2^63)`. -/
def wrap64 (x : Int) : Int := (x + 2 ^ 63) % 2 ^ 64 - 2 ^ 63

/-- Go `a - b` on `int64`. -/
def sub64 (a b : Int) : Int := wrap64 (a - b)

/-- Go conversion `int64(x)` of a `float64`: the fraction is discarded.  For
a number outside the range of `int64`, an infinity or NaN, the Go
specification leaves the result to the implementation; the result here is
that of amd64, the smallest `int64`. -/
def int64_ofFloat : F64 → Int
  | .fin neg m e =>
    let a : Nat := if 0 ≤ e then m * 2 ^ e.toNat else m / 2 ^ (-e).toNat
    let v : Int := if neg then -(a : Int) else a
    if -9223372036854775808 ≤ v ∧ v < 9223372036854775808 then v else -9223372036854775808
  | _ => -9223372036854775808

/-- Go `math.Modf(f)`: integer part (rounded toward zero) and fractional
part, both with the sign of `f`; the fractional part of an infinity is NaN.
Both parts are exact; they are given with the exponent at hand, not with
the mantissa brought to 53 digits, which no comparison or conversion sees. -/
def math_Modf : F64 → F64 × F64
  | .fin neg m e =>
    if 0 ≤ e then (.fin neg m e, .fin neg 0 (-1074))
    else (.fin neg (m / 2 ^ (-e).toNat) 0, .fin neg (m % 2 ^ (-e).toNat) e)
  | .inf neg => (.inf neg, .nan)
  | .nan => (.nan, .nan)

/-- Go `math.Floor(x)`: the greatest integer at most `x`, as a float64; it
is exact, and given like the parts of `math_Modf` with the exponent at hand.
Infinities and NaN are returned as they are, and a zero keeps its sign. -/
def math_Floor : F64 → F64
  | .fin neg m e =>
    if 0 ≤ e then .fin neg m e
    else if neg ∧ m % 2 ^ (-e).toNat ≠ 0 then .fin true (m / 2 ^ (-e).toNat + 1) 0
    else .fin neg (m / 2 ^ (-e).toNat) 0
  | x => x

/-- Go `math.Ceil(x)`, which the library computes as `-Floor(-x)`. -/
def math_Ceil (x : F64) : F64 := F64.neg (math_Floor (F64.neg x))

/-- Source `roundF2I`: a rounded int64 from a float64. -/
def roundF2I (val : F64) (roundOn : F64) : Int :=
  let digit := val
  let div := (math_Modf digit).2
  let round := if F64.le roundOn div then math_Ceil digit else math_Floor digit
  int64_ofFloat round

/-- Go `t.Sub(u)`, a `time.Duration` in nanoseconds: the difference, or the
largest or smallest duration when the difference does not fit in `int64`. -/
def time_Sub (t u : Int) : Int :=
  max (-9223372036854775808) (min 9223372036854775807 (t - u))

/-- Go `d.Seconds()`, which the library computes as
`float64(d / Second) + float64(d % Second) / 1e9`, the integer division
rounding toward zero. -/
def Duration_Seconds (d : Int) : F64 :=
  let sec := Int.tdiv d 1000000000
  let nsec := Int.tmod d 1000000000
  F64.add (F64.ofInt sec) (F64.div (F64.ofInt nsec) (F64.ofInt 1000000000))

/-! ## Go `strconv.ParseInt(s, 0, 64)` -/

/-- Digit value of a byte in `strconv.ParseUint`: `c - '0'` for a decimal
digit and `lower(c) - 'a' + 10` for a letter, where `lower(c) = c | 0x20`;
`none` is the syntax error of any other byte. -/
def digitVal (c : Char) : Option Nat :=
  if '0' ≤ c ∧ c ≤ '9' then some (c.toNat - '0'.toNat)
  else if 'a' ≤ c ∧ c ≤ 'z' then some (c.toNat - 'a'.toNat + 10)
  else if 'A' ≤ c ∧ c ≤ 'Z' then some (c.toNat - 'A'.toNat + 10)
  else none

/-- Base selection of `strconv.ParseUint` for `base == 0`: `0b`, `0o`, `0x`
(any case, at least three bytes in all) select 2, 8, 16; another leading `0`
selects 8; otherwise 10.  Returns the base and the remaining digits. -/
def basePrefix (s : Str) : Nat × Str :=
  match s with
  | c0 :: rest =>
    if c0 = '0' then
      match rest with
      | c1 :: c2 :: rest2 =>
        if c1 = 'b' ∨ c1 = 'B' then (2, c2 :: rest2)
        else if c1 = 'o' ∨ c1 = 'O' then (8, c2 :: rest2)
        else if c1 = 'x' ∨ c1 = 'X' then (16, c2 :: rest2)
        else (8, rest)
      | _ => (8, rest)
    else (10, s)
  | [] => (10, s)

/-- Digit loop of `strconv.ParseUint` with `bitSize = 64` and `base0`:
`none` is a syntax error or a range error (the two are both an error of
`ParseInt`). -/
def digitLoop (base : Nat) : Str → Nat → Option Nat
  | [], n => some n
  | c :: cs, n =>
    if c = '_' then digitLoop base cs n
    else
      match digitVal c with
      | none => none
      | some d =>
        if d ≥ base then none
        else if n ≥ (2 ^ 64 - 1) / base + 1 then none
        else if n * base + d > 2 ^ 64 - 1 then none
        else digitLoop base cs (n * base + d)

/-- Scan of `strconv.underscoreOK` from position `i`: `saw` is the class of
the last byte seen (`'^'` beginning, `'0'` digit, `'_'` underscore, `'!'`
other). -/
def underscoreScan (hex : Bool) : Str → Char → Bool
  | [], saw => saw != '_'
  | c :: cs, saw =>
    if ('0' ≤ c ∧ c ≤ '9') ∨ (hex = true ∧ (('a' ≤ c ∧ c ≤ 'f') ∨ ('A' ≤ c ∧ c ≤ 'F'))) then
      underscoreScan hex cs '0'
    else if c = '_' then
      if saw ≠ '0' then false else underscoreScan hex cs '_'
    else if saw = '_' then false
    else underscoreScan hex cs '!'

/-- Go `strconv.underscoreOK(s)`: underscores only between digits, or
between the base prefix and a digit. -/
def underscoreOK (s : Str) : Bool :=
  let s1 := match s with
    | c :: rest => if c = '-' ∨ c = '+' then rest else s
    | [] => s
  match s1 with
  | c0 :: c1 :: rest =>
    if c0 = '0' ∧ (c1 = 'b' ∨ c1 = 'B' ∨ c1 = 'o' ∨ c1 = 'O' ∨ c1 = 'x' ∨ c1 = 'X') then
      underscoreScan (decide (c1 = 'x' ∨ c1 = 'X')) rest '0'
    else underscoreScan false s1 '^'
  | _ => underscoreScan false s1 '^'

/-- Go `strconv.ParseUint(s, 0, 64)`; `none` when it returns an error. -/
def strconv_ParseUint (s : Str) : Option Nat :=
  if s = [] then none
  else
    let bs := basePrefix s
    match digitLoop bs.1 bs.2 0 with
    | none => none
    | some n => if s.contains '_' && !underscoreOK s then none else some n

/-- Go `strconv.ParseInt(s, 0, 64)`; `none` when it returns an error
(syntax or range), `some n` with `-2^63 ≤ n < 2^63` otherwise. -/
def strconv_ParseInt (s : Str) : Option Int :=
  match s with
  | [] => none
  | c :: rest =>
    let neg : Bool := decide (c = '-')
    let s1 := if c = '+' ∨ c = '-' then rest else s
    match strconv_ParseUint s1 with
    | none => none
    | some un =>
      if !neg && decide (un ≥ 2 ^ 63) then none
      else if neg && decide (un > 2 ^ 63) then none
      else some (if neg then -(un : Int) else (un : Int))

/-! ## The beater -/

deriving instance DecidableEq for Except

/-- Source constants `columnTypeString`, `columnTypeInt`, `columnTypeFloat`. -/
inductive ColumnType where
  | columnTypeString
  | columnTypeInt
  | columnTypeFloat
  deriving DecidableEq

def defaultDeltaWildcard : Str := "__DELTA".toList
def defaultDeltaKeyWildcard : Str := "__DELTAKEY".toList
def queryTypeSingleRow : Str := "single-row".toList
def queryTypeMultipleRows : Str := "multiple-rows".toList
def queryTypeTwoColumns : Str := "two-columns".toList
def queryTypeSlaveDelay : Str := "show-slave-delay".toList
def queryTypeResumeMultipleRows : Str := "resume-multiple-rows".toList
def columnNameSlaveDelay : Str := "Seconds_Behind_Master".toList

/-- Source `Mysqlbeat`: the fields that row translation reads and writes. -/
structure Mysqlbeat where
  deltaWildcard : Str
  deltaKeyWildcard : Str
  oldValues : MapStr
  oldValuesAge : MapStr
  deriving DecidableEq

/-- The two parse attempts made on every column value (source lines 675-688
and 421-434): `strColType`, `nColValue`, `fColValue`.  `pf` is
`strconv.ParseFloat(_, 64)`, `none` when it returns an error.  A value that
failed to parse is never read afterwards and is given as `0`. -/
def parseColumn (pf : Str → Option F64) (strColValue : Str) : ColumnType × Int × F64 :=
  let strColType := ColumnType.columnTypeString
  let r1 := strconv_ParseInt strColValue
  let strColType := if r1.isSome then ColumnType.columnTypeInt else strColType
  let r2 := pf strColValue
  let strColType :=
    if r2.isSome then
      if strColType = ColumnType.columnTypeString then ColumnType.columnTypeFloat else strColType
    else strColType
  (strColType, r1.getD 0, r2.getD F64.zero)

/-- The value stored for a column according to its type (the three-way
`if strColType == ...` chain of the source). -/
def typedValue (strColType : ColumnType) (strColValue : Str) (nColValue : Int) (fColValue : F64) :
    Value :=
  match strColType with
  | .columnTypeString => .str strColValue
  | .columnTypeInt => .int nColValue
  | .columnTypeFloat => .float fColValue

/-- Go type assertion `v.(int64)` with the result flag dropped: the zero
value when the dynamic type differs or the key is absent. -/
def assertInt64 : Option Value → Int
  | some (.int n) => n
  | _ => 0

/-- Go type assertion `v.(float64)` with the result flag dropped. -/
def assertFloat64 : Option Value → F64
  | some (.float x) => x
  | _ => F64.zero

/-- The delta block shared, text for text, by `generateEventFromRow` (source
lines 709-771) and `appendRowToEvent` (lines 438-500, with `strColName` as
the key): first observation, or rate against the stored record. -/
def observeDelta (bt : Mysqlbeat) (event : MapStr) (strKey strEventColName strColValue : Str)
    (strColType : ColumnType) (nColValue : Int) (fColValue : F64) (rowAge : Int) :
    MapStr × Mysqlbeat :=
  match bt.oldValues.get strKey with
  | none =>
    -- Save the current value in the oldValues array
    (event, { bt with
      oldValuesAge := bt.oldValuesAge.set strKey (.time rowAge)
      oldValues := bt.oldValues.set strKey (typedValue strColType strColValue nColValue fColValue) })
  | some _ =>
    match bt.oldValuesAge.get strKey with
    | some (.time dtOldAge) =>
      let delta := time_Sub rowAge dtOldAge
      match strColType with
      | .columnTypeInt =>
        let oldVal := assertInt64 (bt.oldValues.get strKey)
        let calcVal : Int :=
          if nColValue > oldVal then
            -- Calculate the delta, and round the calculated result back to an int64
            roundF2I (F64.div (F64.ofInt (sub64 nColValue oldVal)) (Duration_Seconds delta))
              F64.half
          else 0
        (event.set strEventColName (.int calcVal), { bt with
          oldValues := bt.oldValues.set strKey (.int nColValue)
          oldValuesAge := bt.oldValuesAge.set strKey (.time rowAge) })
      | .columnTypeFloat =>
        let oldVal := assertFloat64 (bt.oldValues.get strKey)
        let calcVal : F64 :=
          if F64.lt oldVal fColValue then
            F64.div (F64.sub fColValue oldVal) (Duration_Seconds delta)
          else F64.zero
        (event.set strEventColName (.float calcVal), { bt with
          oldValues := bt.oldValues.set strKey (.float fColValue)
          oldValuesAge := bt.oldValuesAge.set strKey (.time rowAge) })
      | .columnTypeString => (event.set strEventColName (.str strColValue), bt)
    | _ => (event, bt)

/-- Loop of source `getKeyFromRow` over the columns paired with the values:
the key built so far and `keyFound`. -/
def getKeyLoop (bt : Mysqlbeat) : List (Str × Str) → Str × Bool → Str × Bool
  | [], acc => acc
  | (column, col) :: rest, (strKey, keyFound) =>
    if strings_HasSuffix column bt.deltaKeyWildcard then
      getKeyLoop bt rest (strKey ++ col, true)
    else getKeyLoop bt rest (strKey, keyFound)

/-- The error text of `getKeyFromRow`. -/
def keyError : String := "query type multiple-rows requires at least one delta key column"

/-- Source `getKeyFromRow`: a unique key from row. -/
def getKeyFromRow (bt : Mysqlbeat) (values : List Str) (columns : List Str) : Except String Str :=
  let r := getKeyLoop bt (columns.zip values) ([], false)
  if !r.2 then .error keyError else .ok r.1

/-- The output field name of a column in `generateEventFromRow` (source lines
665-673). -/
def eventColName (bt : Mysqlbeat) (strColName : Str) : Str :=
  if strings_HasSuffix strColName bt.deltaKeyWildcard then
    strings_Replace strColName bt.deltaKeyWildcard []
  else if strings_HasSuffix strColName bt.deltaWildcard then
    strings_Replace strColName bt.deltaWildcard "_PERSECOND".toList
  else strColName

/-- The unique row key of a delta column (source lines 693-707): the column
name for `single-row`, the row key followed by the column name otherwise. -/
def deltaKey (bt : Mysqlbeat) (values columns : List Str) (queryType strColName : Str) :
    Except String Str :=
  if queryType = queryTypeSingleRow then .ok strColName
  else
    match getKeyFromRow bt values columns with
    | .error e => .error e
    | .ok strKey => .ok (strKey ++ strColName)

/-- Body of the column loop of `generateEventFromRow` (source lines 654-782)
for the column `strColName` with value `strColValue`: the event and the
beater afterwards, or the error that the function returns at once. -/
def columnStep (pf : Str → Option F64) (values columns : List Str) (queryType : Str)
    (rowAge : Int) (bt : Mysqlbeat) (event : MapStr) (strColName strColValue : Str) :
    Except String MapStr × Mysqlbeat :=
  if queryType = queryTypeSlaveDelay ∧ strColName ≠ columnNameSlaveDelay then (.ok event, bt)
  else
    let strEventColName := eventColName bt strColName
    let p := parseColumn pf strColValue
    if (queryType = queryTypeSingleRow ∨ queryType = queryTypeMultipleRows) ∧
        strings_HasSuffix strColName bt.deltaWildcard = true then
      match deltaKey bt values columns queryType strColName with
      | .error e => (.error e, bt)
      | .ok strKey =>
        let r := observeDelta bt event strKey strEventColName strColValue p.1 p.2.1 p.2.2 rowAge
        (.ok r.1, r.2)
    else
      (.ok (event.set strEventColName (typedValue p.1 strColValue p.2.1 p.2.2)), bt)

/-- Column loop of `generateEventFromRow`, over the columns paired with the
values; it stops at the first error. -/
def columnLoop (pf : Str → Option F64) (values columns : List Str) (queryType : Str)
    (rowAge : Int) : List (Str × Str) → Mysqlbeat → MapStr → Except String MapStr × Mysqlbeat
  | [], bt, event => (.ok event, bt)
  | (strColName, strColValue) :: rest, bt, event =>
    match columnStep pf values columns queryType rowAge bt event strColName strColValue with
    | (.error e, bt1) => (.error e, bt1)
    | (.ok event1, bt1) => columnLoop pf values columns queryType rowAge rest bt1 event1

/-- Source `generateEventFromRow`: a new event from the row data.  `row` is
the outcome of `row.Scan`, one text per column.  The result is the returned
pair (`none` is the nil event) and the beater with its delta state. -/
def generateEventFromRow (pf : Str → Option F64) (bt : Mysqlbeat) (row : Except String (List Str))
    (columns : List Str) (queryType : Str) (rowAge : Int) :
    Except String (Option MapStr) × Mysqlbeat :=
  let event : MapStr := [("@timestamp".toList, .time rowAge), ("type".toList, .str queryType)]
  match row with
  | .error e => (.error e, bt)
  | .ok values =>
    match columnLoop pf values columns queryType rowAge (columns.zip values) bt event with
    | (.error e, bt1) => (.error e, bt1)
    | (.ok event1, bt1) => (.ok (if event1.len = 2 then none else some event1), bt1)

/-- Source `appendRowToEvent`: appends the current row data to the two-column
event.  `row` is the outcome of `row.Scan`, one text per column; the source
uses its `columns` argument only for the number of texts to scan.  The outer
`none` is the run-time panic of `values[0]` or `values[1]` on a row of fewer
than two columns. -/
def appendRowToEvent (pf : Str → Option F64) (bt : Mysqlbeat) (event : MapStr)
    (row : Except String (List Str)) (rowAge : Int) :
    Option (Except String MapStr × Mysqlbeat) :=
  match row with
  | .error e => some (.error e, bt)
  | .ok (strColName :: strColValue :: _) =>
    let strEventColName := strings_Replace strColName bt.deltaWildcard "_PERSECOND".toList
    let p := parseColumn pf strColValue
    if strings_HasSuffix strColName bt.deltaWildcard then
      let r := observeDelta bt event strColName strEventColName strColValue p.1 p.2.1 p.2.2 rowAge
      some (.ok r.1, r.2)
    else
      some (.ok (event.set strEventColName (typedValue p.1 strColValue p.2.1 p.2.2)), bt)
  | .ok _ => none

/-- The typed value of a column text: `typedValue` on the outcome of
`parseColumn`. -/
def inferredValue (pf : Str → Option F64) (strColValue : Str) : Value :=
  typedValue (parseColumn pf strColValue).1 strColValue (parseColumn pf strColValue).2.1
    (parseColumn pf strColValue).2.2

/-- The column loop of `generateEventFromRow` when no column goes through
the delta block and none is skipped: every typed value is put in the event
under the output field name. -/
def plainLoop (pf : Str → Option F64) (bt : Mysqlbeat) : List (Str × Str) → MapStr → MapStr
  | [], event => event
  | (strColName, strColValue) :: rest, event =>
    plainLoop pf bt rest (event.set (eventColName bt strColName) (inferredValue pf strColValue))

/-- Two events with the same keys in the same places and the same values,
the value under `"type"` apart. -/
def sameButType (e1 e2 : MapStr) : Prop :=
  List.Forall₂ (fun a b => a.1 = b.1 ∧ (a.1 ≠ "type".toList → a.2 = b.2)) e1 e2

/-- Two returned events with the same metric fields: both nil, or both
present and equal on every field other than the type tag. -/
def sameMetricFields : Option MapStr → Option MapStr → Prop
  | some e1, some e2 => ∀ k, k ≠ "type".toList → e1.get k = e2.get k
  | none, none => True
  | _, _ => False

/-! ## The resume file -/

/-- The line feed `'\n'`. -/
def chNewline : Char := Char.ofNat 10
/-- The double quote. -/
def chQuote : Char := Char.ofNat 34
/-- The backslash. -/
def chBackslash : Char := Char.ofNat 92
/-- The opening brace. -/
def chLBrace : Char := Char.ofNat 123
/-- The closing brace. -/
def chRBrace : Char := Char.ofNat 125

/-- Source `ResumeIndex`. -/
structure ResumeIndex where
  Index : Str
  Value : Str
  deriving DecidableEq

/-- The functions of the Go library that the resume subsystem calls and that
are not modelled here, as parameters.
`Unmarshal` is `json.Unmarshal` into a `ResumeIndex` (`none` when it returns
an error), `Marshal` is `json.Marshal` of a `ResumeIndex` (which cannot fail
on a struct of two strings), `IsNameRune r` is
`unicode.IsLetter(r) || unicode.IsDigit(r) || r == '_'`, `FormatFloat` and
`FormatTime` are the `%v` formats of a `float64` and of a `common.Time`. -/
structure GoLib where
  Unmarshal : Str → Option ResumeIndex
  Marshal : ResumeIndex → Str
  IsNameRune : Char → Bool
  FormatFloat : F64 → Str
  FormatTime : Int → Str

/-- The successive results of `reader.ReadString('\n')` on a file: the
complete lines, each with its `'\n'`, and the text after the last `'\n'`,
which comes with the end-of-file error. -/
def splitLines : Str → List Str × Str
  | [] => ([], [])
  | c :: cs =>
    let r := splitLines cs
    if c = chNewline then ([c] :: r.1, r.2)
    else
      match r.1 with
      | [] => ([], c :: r.2)
      | l :: ls => ((c :: l) :: ls, r.2)

/-- Loop of source `readResumeIndex` over the lines read without error: the
value sent on the channel.  Running out of lines is the read error. -/
def readLoop (lib : GoLib) (index : Str) : List Str → Str
  | [] => []
  | inputString :: rest =>
    match lib.Unmarshal inputString with
    | none => []
    | some m => if m.Index = index then m.Value else readLoop lib index rest

/-- Source `readResumeIndex`: the value sent on `reCh`.  `file` is the
content of the resume file, `none` when it cannot be opened. -/
def readResumeIndex (lib : GoLib) (file : Option Str) (index : Str) : Str :=
  match file with
  | none => []
  | some content => readLoop lib index (splitLines content).1

/-- First loop of source `writeToResumeFile`: every non-empty result of
`ReadString`, the unterminated last line included. -/
def readContents (file : Option Str) : List Str :=
  match file with
  | none => []
  | some content =>
    let r := splitLines content
    if r.2 = [] then r.1 else r.1 ++ [r.2]

/-- Second loop of source `writeToResumeFile` (lines 601-617) from position
`i` on: the entries of `contents` afterwards and the flag `find`. -/
def updateLoop (lib : GoLib) (resumeIndex : ResumeIndex) : List Str → Bool → List Str × Bool
  | [], find => ([], find)
  | c :: rest, find =>
    match lib.Unmarshal c with
    | none =>
      let r := updateLoop lib resumeIndex rest find
      (c :: r.1, r.2)
    | some m =>
      let hit : Bool := decide (m.Index = resumeIndex.Index)
      let m1 : ResumeIndex := if hit then { m with Value := resumeIndex.Value } else m
      let r := updateLoop lib resumeIndex rest (find || hit)
      (lib.Marshal m1 :: r.1, r.2)

/-- The slice `contents` of source `writeToResumeFile` when it is written
out (line 622). -/
def rewrittenEntries (lib : GoLib) (file : Option Str) (resumeIndex : ResumeIndex) : List Str :=
  let r := updateLoop lib resumeIndex (readContents file) false
  if !r.2 then r.1 ++ [lib.Marshal resumeIndex] else r.1

/-- Source `writeToResumeFile`: the content of the resume file afterwards,
every entry followed by `'\n'`.  A missing file is created empty; a failure
to open the file is outside the model. -/
def writeToResumeFile (lib : GoLib) (file : Option Str) (resumeIndex : ResumeIndex) : Str :=
  ((rewrittenEntries lib file resumeIndex).map (fun content => content ++ [chNewline])).flatten

/-! ## The placeholder of a resume query -/

/-- Class `\w` of Go regular expressions: `[0-9A-Za-z_]`. -/
def isWordChar (c : Char) : Bool :=
  decide (('0' ≤ c ∧ c ≤ '9') ∨ ('a' ≤ c ∧ c ≤ 'z') ∨ ('A' ≤ c ∧ c ≤ 'Z') ∨ c = '_')

/-- The longest prefix of word characters, what `\w*` matches. -/
def takeWord : Str → Str
  | [] => []
  | c :: cs => if isWordChar c then c :: takeWord cs else []

/-- The text after the longest prefix of word characters. -/
def dropWord : Str → Str
  | [] => []
  | c :: cs => if isWordChar c then dropWord cs else c :: cs

/-- A match of the source pattern `\{\w*\|\w*\|\w*\}` at the start of `s`:
the three word parts and the text after the closing brace. -/
def matchPlaceholder (s : Str) : Option (Str × Str × Str × Str) :=
  match s with
  | [] => none
  | c :: s1 =>
    if c ≠ chLBrace then none
    else
      match dropWord s1 with
      | [] => none
      | b1 :: s2 =>
        if b1 ≠ '|' then none
        else
          match dropWord s2 with
          | [] => none
          | b2 :: s3 =>
            if b2 ≠ '|' then none
            else
              match dropWord s3 with
              | [] => none
              | e :: s4 =>
                if e ≠ chRBrace then none
                else some (takeWord s1, takeWord s2, takeWord s3, s4)

/-- The text of a placeholder with the given parts. -/
def placeholderText (a b d : Str) : Str :=
  [chLBrace] ++ a ++ ['|'] ++ b ++ ['|'] ++ d ++ [chRBrace]

/-- Source `re.FindString(queryStr)`: the text of the leftmost match of the
placeholder pattern, empty when there is none. -/
def re_FindString : Str → Str
  | [] => []
  | c :: cs =>
    match matchPlaceholder (c :: cs) with
    | some (a, b, d, _) => placeholderText a b d
    | none => re_FindString cs

/-- A match of the source pattern `\w*\|\w*\|\w*` at the start of `s`: the
matched text. -/
def matchOne (s : Str) : Option Str :=
  match dropWord s with
  | [] => none
  | b1 :: s2 =>
    if b1 ≠ '|' then none
    else
      match dropWord s2 with
      | [] => none
      | b2 :: s3 =>
        if b2 ≠ '|' then none
        else some (takeWord s ++ ['|'] ++ takeWord s2 ++ ['|'] ++ takeWord s3)

/-- Source `reOne.FindString(target)`: the text of the leftmost match, empty
when there is none. -/
def reOne_FindString : Str → Str
  | [] => []
  | c :: cs =>
    match matchOne (c :: cs) with
    | some t => t
    | none => reOne_FindString cs

/-- Go `strings.Split(s, "|")`. -/
def strings_Split : Str → List Str
  | [] => [[]]
  | c :: cs =>
    if c = '|' then [] :: strings_Split cs
    else
      match strings_Split cs with
      | [] => [[c]]
      | h :: t => (c :: h) :: t

/-- The number of leading name runes of a template. -/
def nameLength (lib : GoLib) : Str → Nat
  | [] => 0
  | c :: cs => if lib.IsNameRune c then nameLength lib cs + 1 else 0

/-- The number that a template name stands for in Go `regexp.extract`: the
decimal value of a name of digits with no leading zero, cut off at `10^8`;
`none` is the `-1` of the source. -/
def templateNum (name : Str) : Option Nat :=
  let r := name.foldl
    (fun (acc : Option Nat) (c : Char) =>
      match acc with
      | none => none
      | some num =>
        if c < '0' ∨ '9' < c ∨ num ≥ 100000000 then none
        else some (num * 10 + (c.toNat - '0'.toNat)))
    (some 0)
  match name with
  | c :: _ :: _ => if c = '0' then none else r
  | _ => r

/-- Go `regexp.extract(str)` on the template text after a `$`: the number of
the name, and how many characters the reference takes; `none` when the
reference is malformed. -/
def extractName (lib : GoLib) (str : Str) : Option (Option Nat × Nat) :=
  match str with
  | [] => none
  | c :: cs =>
    let brace : Bool := decide (c = chLBrace)
    let body := if brace then cs else str
    let i := nameLength lib body
    if i = 0 then none
    else if brace then
      match body.drop i with
      | [] => none
      | e :: _ => if e = chRBrace then some (templateNum (body.take i), i + 2) else none
    else some (templateNum (body.take i), i)

/-- Go `Regexp.expand` for the placeholder pattern, which has no capture
group: `skip` characters of the template are passed over first; `$$` gives
`$`, a reference to group 0 gives the matched text, any other well-formed
reference gives nothing, a malformed one leaves the `$`. -/
def expandAux (lib : GoLib) (matched : Str) : Nat → Str → Str
  | _, [] => []
  | skip + 1, _ :: cs => expandAux lib matched skip cs
  | 0, c :: cs =>
    if c ≠ '$' then c :: expandAux lib matched 0 cs
    else
      match cs with
      | [] => ['$']
      | d :: _ =>
        if d = '$' then '$' :: expandAux lib matched 1 cs
        else
          match extractName lib cs with
          | none => '$' :: expandAux lib matched 0 cs
          | some (num, consumed) =>
            (if num = some 0 then matched else []) ++ expandAux lib matched consumed cs

/-- Go `re.ReplaceAllString(src, repl)` for the placeholder pattern: every
match, from the left and without overlap, is replaced by the expansion of
`repl`; `skip` characters of `src` belong to the match just replaced. -/
def replaceAux (lib : GoLib) (repl : Str) : Nat → Str → Str
  | _, [] => []
  | skip + 1, _ :: cs => replaceAux lib repl skip cs
  | 0, c :: cs =>
    match matchPlaceholder (c :: cs) with
    | some (a, b, d, _) =>
      expandAux lib (placeholderText a b d) 0 repl ++
        replaceAux lib repl (a.length + b.length + d.length + 3) cs
    | none => c :: replaceAux lib repl 0 cs

/-- Source `re.ReplaceAllString(queryStr, repl)`. -/
def re_ReplaceAllString (lib : GoLib) (src repl : Str) : Str := replaceAux lib repl 0 src

/-- Source `query`: the query text to run, `uniKey` and `column`.
`queryType` is `bt.queryTypes[index]` and `file` the content of the resume
file.  `none` is the run-time panic of `values[1]` or `values[2]` out of
range. -/
def query (lib : GoLib) (file : Option Str) (queryType queryStr : Str) :
    Option (Str × Str × Str) :=
  if queryType ≠ queryTypeResumeMultipleRows then some (queryStr, [], [])
  else
    let target := re_FindString queryStr
    let oneString := reOne_FindString target
    let values := strings_Split oneString
    match values with
    | v0 :: v1 :: v2 :: _ =>
      let replace := readResumeIndex lib file v0
      if replace = [] then some (re_ReplaceAllString lib queryStr v1, v0, v2)
      else some (re_ReplaceAllString lib queryStr replace, v0, v2)
    | _ => none

/-! ## The cursor update -/

/-- Go `%v` of an `int64`: its decimal digits. -/
def formatInt (n : Int) : Str :=
  if n < 0 then '-' :: Nat.toDigits 10 n.natAbs else Nat.toDigits 10 n.toNat

/-- Go `fmt.Sprintf("%v", v)` of a map entry; a missing key reads as nil. -/
def fmt_Sprintf_v (lib : GoLib) : Option Value → Str
  | none => "<nil>".toList
  | some (.str s) => s
  | some (.int n) => formatInt n
  | some (.float q) => lib.FormatFloat q
  | some (.time t) => lib.FormatTime t

/-- The message that source `beat` sends on `bt.resumeFile` (line 375):
`fmt.Sprintf("%s|%s", uniKey, fmt.Sprintf("%v", lastResumeEvent[column]))`. -/
def resumeValue (lib : GoLib) (uniKey column : Str) (lastResumeEvent : MapStr) : Str :=
  uniKey ++ ['|'] ++ fmt_Sprintf_v lib (lastResumeEvent.get column)

/-- Body of the loop of source `listenResumeFile`: the record handed to
`writeToResumeFile`; `none` is the run-time panic of `values[1]` out of
range. -/
def listenRecord (resumeValue : Str) : Option ResumeIndex :=
  match strings_Split resumeValue with
  | v0 :: v1 :: _ => some ⟨v0, v1⟩
  | _ => none

/-- Source `listenResumeFile` and the goroutines `writeToResumeFile` that it
starts, one for each message received: the content of the resume file after
them, `none` for the run-time panic of `listenRecord`.  The writes run one
at a time under `bt.mu`, in an order that the source does not fix: the list
is the messages in the order in which their writes take the mutex, not the
order in which they were sent. -/
def listenResumeFile (lib : GoLib) : List Str → Option Str → Option (Option Str)
  | [], file => some file
  | msg :: rest, file =>
    match listenRecord msg with
    | none => none
    | some resumeIndex =>
      listenResumeFile lib rest (some (writeToResumeFile lib file resumeIndex))

/-! ## One query of a pass -/

/-- What a pass of source `beat` works on: the beater, the shared two-columns
event (`none` is the nil map), the events handed to `PublishEvent` and the
messages sent on `bt.resumeFile`, both in order. -/
structure Pass where
  bt : Mysqlbeat
  twoColumnEvent : Option MapStr
  published : List MapStr
  resumeFile : List Str
  deriving DecidableEq

/-- Row loop of source `beat` for the query types multiple-rows and
resume-multiple-rows (lines 328-358): the beater, the published events and
`lastResumeEvent` (`none` is nil) afterwards.  A row that fails ends the
loop. -/
def translateRows (pf : Str → Option F64) (columns : List Str) (queryType : Str) (dtNow : Int) :
    List (Except String (List Str)) → Mysqlbeat → List MapStr → Option MapStr →
    Mysqlbeat × List MapStr × Option MapStr
  | [], bt, published, lastResumeEvent => (bt, published, lastResumeEvent)
  | row :: rest, bt, published, lastResumeEvent =>
    let r := generateEventFromRow pf bt row columns queryType dtNow
    match r.1 with
    | .error _ => (r.2, published, lastResumeEvent)
    | .ok event =>
      let published1 :=
        match event with
        | some e => published ++ [e]
        | none => published
      let last1 := if queryType = queryTypeResumeMultipleRows then event else lastResumeEvent
      translateRows pf columns queryType dtNow rest r.2 published1 last1

/-- Row loop of source `beat` for the query type two-columns (lines
360-370): the shared event and the beater afterwards.  A row that fails ends
the loop; `none` is the panic of `appendRowToEvent`. -/
def appendRows (pf : Str → Option F64) (dtNow : Int) :
    List (Except String (List Str)) → Mysqlbeat → MapStr → Option (MapStr × Mysqlbeat)
  | [], bt, event => some (event, bt)
  | row :: rest, bt, event =>
    match appendRowToEvent pf bt event row dtNow with
    | none => none
    | some (.error _, bt1) => some (event, bt1)
    | some (.ok event1, bt1) => appendRows pf dtNow rest bt1 event1

/-- Body of the query loop of source `beat` from line 303 on, for a query
that ran without error: `columns` and `rows` are its result, `uniKey` and
`column` come from `query`, `dtNow` is the time of the query. -/
def queryBody (pf : Str → Option F64) (lib : GoLib) (queryType uniKey column : Str)
    (columns : List Str) (rows : List (Except String (List Str))) (dtNow : Int) (p : Pass) :
    Option Pass :=
  let fresh : MapStr :=
    [("@timestamp".toList, .time dtNow), ("type".toList, .str queryTypeTwoColumns)]
  let twoColumnEvent := if queryType = queryTypeTwoColumns then some fresh else p.twoColumnEvent
  -- LoopRows
  let looped : Option (Mysqlbeat × Option MapStr × List MapStr × Option MapStr) :=
    if queryType = queryTypeSingleRow ∨ queryType = queryTypeSlaveDelay then
      match rows with
      | [] => some (p.bt, twoColumnEvent, p.published, none)
      | row :: _ =>
        let r := generateEventFromRow pf p.bt row columns queryType dtNow
        match r.1 with
        | .ok (some event) => some (r.2, twoColumnEvent, p.published ++ [event], none)
        | _ => some (r.2, twoColumnEvent, p.published, none)
    else if queryType = queryTypeMultipleRows ∨ queryType = queryTypeResumeMultipleRows then
      let r := translateRows pf columns queryType dtNow rows p.bt p.published none
      some (r.1, twoColumnEvent, r.2.1, r.2.2)
    else if queryType = queryTypeTwoColumns then
      match appendRows pf dtNow rows p.bt fresh with
      | none => none
      | some (event, bt1) => some (bt1, some event, p.published, none)
    else some (p.bt, twoColumnEvent, p.published, none)
  match looped with
  | none => none
  | some (bt1, twoColumnEvent1, published1, lastResumeEvent) =>
    let resumeFile1 :=
      match lastResumeEvent with
      | some e =>
        if uniKey ≠ [] ∧ column ≠ [] then p.resumeFile ++ [resumeValue lib uniKey column e]
        else p.resumeFile
      | none => p.resumeFile
    -- If the two-columns event has data, publish it
    match twoColumnEvent1 with
    | some e =>
      if queryType = queryTypeTwoColumns ∧ e.len > 2 then
        some ⟨bt1, none, published1 ++ [e], resumeFile1⟩
      else some ⟨bt1, twoColumnEvent1, published1, resumeFile1⟩
    | none => some ⟨bt1, twoColumnEvent1, published1, resumeFile1⟩

/-! ## A pass and the scheduler loop -/

/-- What `db.Query(queryStr)` gives: its error, or the result of
`rows.Columns()` (an error or the column names) with the rows that
`rows.Next()` steps through, each the outcome of its `Scan`. -/
abbrev QueryAnswer := Except String (Except String (List Str) × List (Except String (List Str)))

/-- What a call of source `beat` meets outside the beater: the error of
`sql.Open` (`none` is nil), the answers of the database by query text, the
value of `time.Now()` at the query number `index`, and the content of the
resume file at the moment the query number `index` reads it (`none` when it
cannot be opened).  The writes of `listenResumeFile` run in goroutines of
their own, so the content that a query reads is left open. -/
structure Tick where
  sql_Open : Option String
  db_Query : Str → QueryAnswer
  now : Nat → Int
  fileAt : Nat → Option Str

/-- Body of the loop `LoopQueries` of source `beat` (lines 285-390) for the
query number `index`: the error that `beat` returns at once (`none` when the
loop goes on) and the state of the pass.  The outer `none` is a run-time
panic: `bt.queryTypes[index]` out of range, the panic of `query` or of
`appendRowToEvent`. -/
def beatStep (pf : Str → Option F64) (lib : GoLib) (queryTypes : List Str) (env : Tick)
    (index : Nat) (queryStr : Str) (p : Pass) : Option (Option String × Pass) :=
  match queryTypes[index]? with
  | none => none
  | some queryType =>
    match query lib (env.fileAt index) queryType queryStr with
    | none => none
    | some (queryStr1, uniKey, column) =>
      match env.db_Query queryStr1 with
      | .error err => some (some err, p)
      | .ok (.error err, _) => some (some err, p)
      | .ok (.ok columns, rows) =>
        match queryBody pf lib queryType uniKey column columns rows (env.now index) p with
        | none => none
        | some p1 => some (none, p1)

/-- Loop `LoopQueries` of source `beat` over the queries from number `index`
on. -/
def beatLoop (pf : Str → Option F64) (lib : GoLib) (queryTypes : List Str) (env : Tick) :
    Nat → List Str → Pass → Option (Option String × Pass)
  | _, [], p => some (none, p)
  | index, queryStr :: rest, p =>
    match beatStep pf lib queryTypes env index queryStr p with
    | none => none
    | some (some err, p1) => some (some err, p1)
    | some (none, p1) => beatLoop pf lib queryTypes env (index + 1) rest p1

/-- Source `beat`: the error returned (`none` is nil) and the state
afterwards.  `queries` and `queryTypes` are `bt.queries` and
`bt.queryTypes`; the two-columns event is a variable of the call and starts
as nil. -/
def beat (pf : Str → Option F64) (lib : GoLib) (queries queryTypes : List Str) (env : Tick)
    (p : Pass) : Option (Option String × Pass) :=
  match env.sql_Open with
  | some err => some (some err, p)
  | none => beatLoop pf lib queryTypes env 0 queries { p with twoColumnEvent := none }

/-- What the `select` of source `Run` receives: `bt.done` is closed, or the
ticker fires, with what the pass then meets. -/
inductive Wakeup where
  | done
  | tick (env : Tick)

/-- Where source `Run` stands after the wake-ups given: still in its loop,
or returned with an error (`none` is nil). -/
inductive RunResult where
  | running
  | returned (err : Option String)
  deriving DecidableEq

/-- Loop of source `Run` (lines 243-253) over the wake-ups of its `select`,
in order.  The outer `none` is a run-time panic in `beat`. -/
def Run (pf : Str → Option F64) (lib : GoLib) (queries queryTypes : List Str) :
    List Wakeup → Pass → Option (RunResult × Pass)
  | [], p => some (.running, p)
  | .done :: _, p => some (.returned none, p)
  | .tick env :: rest, p =>
    match beat pf lib queries queryTypes env p with
    | none => none
    | some (some err, p1) => some (.returned (some err), p1)
    | some (none, p1) => Run pf lib queries queryTypes rest p1

/-! ## Sample data -/

/-- The values of `strconv.ParseFloat(_, 64)` on the texts that the examples
below use; every other text is left without a value.  It only serves to put
a concrete function in the place of `pf`. -/
def sampleParseFloat (s : Str) : Option F64 :=
  if s = "120".toList then some (F64.ofInt 120)
  else if s = "170".toList then some (F64.ofInt 170)
  else if s = "10".toList then some (F64.ofInt 10)
  else if s = "20".toList then some (F64.ofInt 20)
  else if s = "1.5".toList then some (F64.round false 3 2)
  else if s = "7.5".toList then some (F64.round false 15 2)
  else if s = "5".toList then some (F64.ofInt 5)
  else none

/-- A beater with the default markers and the delta state of `Setup`. -/
def sampleBeat : Mysqlbeat :=
  ⟨defaultDeltaWildcard, defaultDeltaKeyWildcard, [("mysqlbeat".toList, .str "init".toList)],
    [("mysqlbeat".toList, .str "init".toList)]⟩

/-- Scenario A: the columns of the query. -/
def scenarioAColumns : List Str := ["count".toList, "count__DELTA".toList]

/-- Scenario A: the beater after the first cycle, at `t = 0`. -/
def scenarioABeat : Mysqlbeat :=
  (generateEventFromRow sampleParseFloat sampleBeat (.ok ["120".toList, "120".toList])
    scenarioAColumns queryTypeSingleRow 0).2

/-- A single delta column `v__DELTA`. -/
def deltaColumn : List Str := ["v__DELTA".toList]

/-- The beater after a first `single-row` cycle at `t = 0` in which
`v__DELTA` held the text `"1.5"`. -/
def beatAfterFloat : Mysqlbeat :=
  ⟨defaultDeltaWildcard, defaultDeltaKeyWildcard,
    [("mysqlbeat".toList, .str "init".toList), ("v__DELTA".toList, .float (F64.round false 3 2))],
    [("mysqlbeat".toList, .str "init".toList), ("v__DELTA".toList, .time 0)]⟩

/-- The beater after a first `single-row` cycle at `t = 0` in which
`v__DELTA` held the text `"7.5"`. -/
def beatAfterFloat7 : Mysqlbeat :=
  ⟨defaultDeltaWildcard, defaultDeltaKeyWildcard,
    [("mysqlbeat".toList, .str "init".toList), ("v__DELTA".toList, .float (F64.round false 15 2))],
    [("mysqlbeat".toList, .str "init".toList), ("v__DELTA".toList, .time 0)]⟩

/-- The beater after a first `single-row` cycle at `t = 0` in which
`v__DELTA` held the text `"-1"`. -/
def beatAfterMinusOne : Mysqlbeat :=
  (generateEventFromRow sampleParseFloat sampleBeat (.ok ["-1".toList]) deltaColumn
    queryTypeSingleRow 0).2

/-- The beater after a first `single-row` cycle at `t = 0` in which
`v__DELTA` held the text `"5"`. -/
def beatAfterFive : Mysqlbeat :=
  (generateEventFromRow sampleParseFloat sampleBeat (.ok ["5".toList]) deltaColumn
    queryTypeSingleRow 0).2

/-- A `multiple-rows` query with two row-identity columns and one delta
column. -/
def hitsColumns : List Str :=
  ["host__DELTAKEY".toList, "db__DELTAKEY".toList, "hits__DELTA".toList]

/-- The row of the entity `("a", "bc")` with 1 hit. -/
def hitsRowA : List Str := ["a".toList, "bc".toList, "1".toList]

/-- The row of the entity `("ab", "c")` with 51 hits. -/
def hitsRowB : List Str := ["ab".toList, "c".toList, "51".toList]

/-- The beater after the row of `("a", "bc")` was translated at `t = 0`. -/
def beatAfterRowA : Mysqlbeat :=
  (generateEventFromRow sampleParseFloat sampleBeat (.ok hitsRowA) hitsColumns
    queryTypeMultipleRows 0).2

/-! ## Sample codec -/

/-- The escaped form of a character inside a JSON string, for the double
quote, the backslash and the line feed; any other character stands for
itself. -/
def sampleEscape (c : Char) : Str :=
  if c = chQuote then [chBackslash, chQuote]
  else if c = chBackslash then [chBackslash, chBackslash]
  else if c = chNewline then [chBackslash, 'n']
  else [c]

/-- The text of a marshalled record up to the escaped index. -/
def sampleHead : Str := [chLBrace, chQuote] ++ "index".toList ++ [chQuote, ':', chQuote]

/-- The text of a marshalled record between the closing quote of the index
and the escaped value. -/
def sampleMiddle : Str := [',', chQuote] ++ "value".toList ++ [chQuote, ':', chQuote]

/-- A marshaller that agrees with `json.Marshal` on every `ResumeIndex`
whose texts hold none of the characters that JSON escapes, the double quote,
the backslash and the line feed apart:
an object with the keys `index` and `value`, in this order. -/
def sampleMarshal (m : ResumeIndex) : Str :=
  sampleHead ++ (m.Index.map sampleEscape).flatten ++ [chQuote] ++ sampleMiddle ++
    (m.Value.map sampleEscape).flatten ++ [chQuote, chRBrace]

/-- The text of a JSON string up to its closing quote, and what follows
the quote. -/
def sampleString : Str → Option (Str × Str)
  | [] => none
  | c :: cs =>
    if c = chQuote then some ([], cs)
    else if c = chBackslash then
      match cs with
      | [] => none
      | d :: ds =>
        match sampleString ds with
        | none => none
        | some (s, rest) =>
          if d = chQuote ∨ d = chBackslash then some (d :: s, rest)
          else if d = 'n' then some (chNewline :: s, rest)
          else none
    else
      match sampleString cs with
      | none => none
      | some (s, rest) => some (c :: s, rest)

/-- The rest of `s` after the prefix `p`, or `none`. -/
def sampleExpect (p s : Str) : Option Str :=
  if p.isPrefixOf s then some (s.drop p.length) else none

/-- An unmarshaller that agrees with `json.Unmarshal` on the lines of the
examples: it accepts an output of `sampleMarshal` followed by line feeds and
refuses every other text. -/
def sampleUnmarshal (s : Str) : Option ResumeIndex :=
  match sampleExpect sampleHead s with
  | none => none
  | some r1 =>
    match sampleString r1 with
    | none => none
    | some (idx, r2) =>
      match sampleExpect sampleMiddle r2 with
      | none => none
      | some r3 =>
        match sampleString r3 with
        | none => none
        | some (val, r4) =>
          match r4 with
          | [] => none
          | c :: r5 =>
            if c = chRBrace ∧ r5.all (fun x => x == chNewline) = true then some ⟨idx, val⟩
            else none

/-- Library functions for the examples. -/
def sampleLib : GoLib where
  Unmarshal := sampleUnmarshal
  Marshal := sampleMarshal
  IsNameRune := fun c => c.isAlphanum || c == '_'
  FormatFloat := fun x => if x = F64.round false 3 2 then "1.5".toList else []
  FormatTime := fun _ => []

/-- The line of the resume file for the record `index`, `value`. -/
def recordLine (index value : Str) : Str := sampleMarshal ⟨index, value⟩ ++ [chNewline]

/-- Scenario B: the rows of the two-columns query. -/
def scenarioBRows : List (Except String (List Str)) :=
  [.ok ["metricA".toList, "10".toList], .ok ["metricB__DELTA".toList, "20".toList]]

/-- Scenario C: the query text with the placeholder `cur|0|id`. -/
def scenarioCQuery : Str :=
  "SELECT id FROM t WHERE id > ".toList ++ placeholderText "cur".toList "0".toList "id".toList

/-- A column name that holds the delta marker twice. -/
def twiceDeltaName : Str := "a__DELTAb__DELTA".toList

/-- The beater after a first `single-row` cycle at `t = 0` in which the
column `a__DELTAb__DELTA` held the text `"x"`. -/
def beatAfterTwice : Mysqlbeat :=
  (generateEventFromRow sampleParseFloat sampleBeat (.ok ["x".toList]) [twiceDeltaName]
    queryTypeSingleRow 0).2

/-- The fresh shared event of a two-columns query at `t = 0`. -/
def freshTwoColumns : MapStr :=
  [("@timestamp".toList, .time 0), ("type".toList, .str queryTypeTwoColumns)]

/-- A line that is no resume record. -/
def garbageLine : Str := "garbage".toList ++ [chNewline]

/-- An event holds a field besides `@timestamp` and `type`. -/
def hasMetricField (e : MapStr) : Prop :=
  ∃ k, k ≠ "@timestamp".toList ∧ k ≠ "type".toList ∧ (e.get k).isSome = true

/-- The shape of an event under construction: the entries `@timestamp` and
`type` of the map literal, then entries under other keys. -/
def EventShape (e : MapStr) : Prop :=
  ∃ a b extra, e = ("@timestamp".toList, a) :: ("type".toList, b) :: extra ∧
    ∀ p ∈ extra, p.1 ≠ "@timestamp".toList ∧ p.1 ≠ "type".toList

/-- The text `marker` occurs somewhere in `s`. -/
def occursIn (marker : Str) : Str → Bool
  | [] => marker.isPrefixOf []
  | c :: cs => marker.isPrefixOf (c :: cs) || occursIn marker cs

/-- The records of a resume file: the entries that `writeToResumeFile` reads
and that parse. -/
def recordsOf (lib : GoLib) (file : Option Str) : List ResumeIndex :=
  (readContents file).filterMap lib.Unmarshal

/-- The update of one record by `writeToResumeFile` (source lines 608-611). -/
def updateRecord (resumeIndex m : ResumeIndex) : ResumeIndex :=
  if m.Index = resumeIndex.Index then { m with Value := resumeIndex.Value } else m

/-- What `writeToResumeFile` writes for an entry of the prior file (source
lines 603-616): the entry itself when it does not parse, the marshalled
record, updated, when it does. -/
def rewriteEntry (lib : GoLib) (resumeIndex : ResumeIndex) (c : Str) : Str :=
  match lib.Unmarshal c with
  | none => c
  | some m => lib.Marshal (updateRecord resumeIndex m)

/-- An entry of the prior file is a record with the index to update. -/
def hitEntry (lib : GoLib) (resumeIndex : ResumeIndex) (c : Str) : Bool :=
  match lib.Unmarshal c with
  | none => false
  | some m => decide (m.Index = resumeIndex.Index)

/-- The find-or-append of `writeToResumeFile` on a list of records. -/
def updateRecords (resumeIndex : ResumeIndex) (rs : List ResumeIndex) : List ResumeIndex :=
  rs.map (updateRecord resumeIndex) ++
    (if rs.any (fun m => decide (m.Index = resumeIndex.Index)) then [] else [resumeIndex])

/-- The value of the first record with the index `k`, empty when there is
none. -/
def lookupRecord (k : Str) : List ResumeIndex → Str
  | [] => []
  | m :: rest => if m.Index = k then m.Value else lookupRecord k rest

/-- The file that holds the given records, one marshalled record per
line. -/
def fileOf (lib : GoLib) (rs : List ResumeIndex) : Str :=
  (rs.map (fun m => lib.Marshal m ++ [chNewline])).flatten

/-- A file with the records `a = 1` and `b = 2`. -/
def twoRecordFile : Str := recordLine "a".toList "1".toList ++ recordLine "b".toList "2".toList

/-- A file with two records of the index `cur`. -/
def duplicateFile : Str :=
  recordLine "cur".toList "1".toList ++ recordLine "cur".toList "2".toList

/-- Every character of `s` is a word character. -/
def allWord (s : Str) : Prop := ∀ c ∈ s, isWordChar c = true

/-- The query text holds a match of the pattern `\{\w*\|\w*\|\w*\}`: a
brace, three runs of word characters separated by bars, a brace. -/
def containsPlaceholder (s : Str) : Prop :=
  ∃ pre a b d post, s = pre ++ (placeholderText a b d ++ post) ∧
    allWord a ∧ allWord b ∧ allWord d

/-- A pass in which every query fails. -/
def failingTick : Tick :=
  ⟨none, fun _ => .error "connection refused", fun _ => 0, fun _ => none⟩

/-- A pass in which the database answers the query of Scenario C with the
row `id = 42` when the cursor is the default, and with no row otherwise. -/
def answeringTick : Tick :=
  ⟨none,
    fun text =>
      if text = "SELECT id FROM t WHERE id > 0".toList then
        .ok (.ok ["id".toList], [.ok ["42".toList]])
      else .ok (.ok ["id".toList], []),
    fun _ => 0, fun _ => none⟩

/-- A pass in which the database answers every query with no row. -/
def emptyTick : Tick :=
  ⟨none, fun _ => .ok (.ok ["id".toList], []), fun _ => 0, fun _ => none⟩

/-- A pass in which the database answers the query `SELECT a` with the row
`a = 1` and fails on every other query. -/
def secondFailsTick : Tick :=
  ⟨none,
    fun text =>
      if text = "SELECT a".toList then .ok (.ok ["a".toList], [.ok ["1".toList]])
      else .error "table missing",
    fun _ => 0, fun _ => none⟩

/-- The state before the first pass. -/
def startPass : Pass := ⟨sampleBeat, none, [], []⟩

/-! ## Facts of float64 -/

theorem F64.scaled_mul (neg : Bool) (m : Nat) (e c : Int) (h : m = 0 ∨ c ≤ e) :
    ((F64.scaled neg m e c : ℤ) : ℚ) * (2 : ℚ) ^ c = F64.toRat (.fin neg m e) := by
  unfold F64.scaled F64.toRat
  by_cases hm : m = 0
  · simp [hm]
  · have hce : c ≤ e := h.resolve_left hm
    have hpow : ((2 : ℚ) ^ (e - c).toNat) * (2 : ℚ) ^ c = (2 : ℚ) ^ e := by
      have h1 : ((2 : ℚ) ^ (e - c).toNat) = (2 : ℚ) ^ (e - c) := by
        rw [← zpow_natCast, Int.toNat_of_nonneg (by omega)]
      rw [h1, ← zpow_add₀ (by norm_num : (2 : ℚ) ≠ 0)]
      congr 1
      omega
    rw [if_neg hm]
    cases neg
    · simp only [Bool.false_eq_true, if_false]
      push_cast
      rw [mul_assoc, hpow]
      ring
    · simp only [if_true]
      push_cast
      rw [neg_mul, mul_assoc, hpow]
      ring

theorem F64.common_le_left (mx : Nat) (ex : Int) (my : Nat) (ey : Int) :
    mx = 0 ∨ F64.common mx ex my ey ≤ ex := by
  unfold F64.common
  by_cases h : mx = 0
  · exact Or.inl h
  · right
    rw [if_neg h]
    split
    · exact le_refl _
    · exact min_le_left _ _

theorem F64.common_le_right (mx : Nat) (ex : Int) (my : Nat) (ey : Int) :
    my = 0 ∨ F64.common mx ex my ey ≤ ey := by
  unfold F64.common
  by_cases h : my = 0
  · exact Or.inl h
  · right
    split
    · exact le_refl _
    · exact min_le_right _ _

/-- On finite numbers `F64.le` is the order of the numbers. -/
theorem F64.le_fin_iff (nx : Bool) (mx : Nat) (ex : Int) (ny : Bool) (my : Nat) (ey : Int) :
    F64.le (.fin nx mx ex) (.fin ny my ey) = true ↔
      F64.toRat (.fin nx mx ex) ≤ F64.toRat (.fin ny my ey) := by
  unfold F64.le
  rw [decide_eq_true_iff,
    ← F64.scaled_mul nx mx ex _ (F64.common_le_left mx ex my ey),
    ← F64.scaled_mul ny my ey _ (F64.common_le_right mx ex my ey)]
  have hpos : (0 : ℚ) < (2 : ℚ) ^ F64.common mx ex my ey := by positivity
  rw [mul_le_mul_right hpos]
  exact Int.cast_le.symm

/-- On finite numbers `F64.lt` is the strict order of the numbers. -/
theorem F64.lt_fin_iff (nx : Bool) (mx : Nat) (ex : Int) (ny : Bool) (my : Nat) (ey : Int) :
    F64.lt (.fin nx mx ex) (.fin ny my ey) = true ↔
      F64.toRat (.fin nx mx ex) < F64.toRat (.fin ny my ey) := by
  unfold F64.lt
  rw [decide_eq_true_iff,
    ← F64.scaled_mul nx mx ex _ (F64.common_le_left mx ex my ey),
    ← F64.scaled_mul ny my ey _ (F64.common_le_right mx ex my ey)]
  have hpos : (0 : ℚ) < (2 : ℚ) ^ F64.common mx ex my ey := by positivity
  rw [mul_lt_mul_right hpos]
  exact Int.cast_lt.symm

theorem F64.toRat_half : F64.toRat F64.half = 1 / 2 := by
  unfold F64.toRat F64.half
  norm_num

theorem floor_of_divmod (m k I R : ℕ) (hk : 0 < k) (hm : m = k * I + R) (hR : R < k) :
    ⌊(m : ℚ) / (k : ℚ)⌋ = (I : ℤ) := by
  have hkq : (0 : ℚ) < (k : ℚ) := by exact_mod_cast hk
  have hdm : (m : ℚ) = (k : ℚ) * (I : ℚ) + (R : ℚ) := by exact_mod_cast hm
  have hr : (R : ℚ) < (k : ℚ) := by exact_mod_cast hR
  have hr0 : (0 : ℚ) ≤ (R : ℚ) := by positivity
  rw [Int.floor_eq_iff]
  simp only [Int.cast_natCast]
  constructor
  · rw [le_div_iff₀ hkq]
    linarith
  · rw [div_lt_iff₀ hkq]
    linarith

theorem ceil_of_divmod (m k I R : ℕ) (hk : 0 < k) (hm : m = k * I + R) (hR : R < k) :
    ⌈(m : ℚ) / (k : ℚ)⌉ = ((I + (if R = 0 then 0 else 1) : ℕ) : ℤ) := by
  have hkq : (0 : ℚ) < (k : ℚ) := by exact_mod_cast hk
  have hdm : (m : ℚ) = (k : ℚ) * (I : ℚ) + (R : ℚ) := by exact_mod_cast hm
  have hr : (R : ℚ) < (k : ℚ) := by exact_mod_cast hR
  rw [Int.ceil_eq_iff]
  by_cases h0 : R = 0
  · rw [if_pos h0]
    subst h0
    simp only [Nat.add_zero, Int.cast_natCast, Nat.cast_zero, add_zero] at hdm ⊢
    constructor
    · rw [lt_div_iff₀ hkq]
      linarith
    · rw [div_le_iff₀ hkq]
      linarith
  · rw [if_neg h0]
    have hpos : (1 : ℚ) ≤ (R : ℚ) := by
      exact_mod_cast Nat.one_le_iff_ne_zero.mpr h0
    push_cast
    simp only [add_sub_cancel_right]
    constructor
    · rw [lt_div_iff₀ hkq]
      linarith
    · rw [div_le_iff₀ hkq]
      linarith

theorem floor_natDiv (m k : ℕ) (hk : 0 < k) : ⌊(m : ℚ) / (k : ℚ)⌋ = ((m / k : ℕ) : ℤ) :=
  floor_of_divmod m k (m / k) (m % k) hk (Nat.div_add_mod m k).symm (Nat.mod_lt m hk)

theorem ceil_natDiv (m k : ℕ) (hk : 0 < k) :
    ⌈(m : ℚ) / (k : ℚ)⌉ = ((m / k + (if m % k = 0 then 0 else 1) : ℕ) : ℤ) :=
  ceil_of_divmod m k (m / k) (m % k) hk (Nat.div_add_mod m k).symm (Nat.mod_lt m hk)

theorem fract_natDiv (m k : ℕ) (hk : 0 < k) :
    Int.fract ((m : ℚ) / (k : ℚ)) = ((m % k : ℕ) : ℚ) / (k : ℚ) := by
  have hkq : (k : ℚ) ≠ 0 := by exact_mod_cast (Nat.pos_iff_ne_zero.mp hk)
  have hdm : (m : ℚ) = (k : ℚ) * ((m / k : ℕ) : ℚ) + ((m % k : ℕ) : ℚ) := by
    exact_mod_cast (Nat.div_add_mod m k).symm
  unfold Int.fract
  rw [floor_natDiv m k hk, Int.cast_natCast]
  field_simp
  linarith

theorem F64.toRat_fin (neg : Bool) (m : Nat) (e : Int) :
    F64.toRat (.fin neg m e) = (if neg then -1 else 1) * (m : ℚ) * (2 : ℚ) ^ e := rfl

theorem toRat_fin_nonneg_exp (neg : Bool) (m : Nat) (e : Int) (he : 0 ≤ e) :
    F64.toRat (.fin neg m e) =
      (((if neg then -((m * 2 ^ e.toNat : ℕ) : ℤ) else ((m * 2 ^ e.toNat : ℕ) : ℤ)) : ℤ) : ℚ) := by
  have h2 : (2 : ℚ) ^ e = (2 : ℚ) ^ e.toNat := by
    rw [← zpow_natCast, Int.toNat_of_nonneg he]
  rw [F64.toRat_fin, h2]
  cases neg <;> simp

theorem toRat_fin_neg_exp (neg : Bool) (m : Nat) (e : Int) (he : e < 0) :
    F64.toRat (.fin neg m e) =
      (if neg then -1 else 1) * ((m : ℚ) / ((2 ^ (-e).toNat : ℕ) : ℚ)) := by
  have h2 : (2 : ℚ) ^ e = (((2 ^ (-e).toNat : ℕ) : ℚ))⁻¹ := by
    rw [Nat.cast_pow, ← zpow_natCast, Int.toNat_of_nonneg (by omega), ← zpow_neg]
    norm_num
  rw [F64.toRat_fin, h2]
  ring

theorem int64_ofFloat_int (neg : Bool) (a : Nat) :
    int64_ofFloat (.fin neg a 0) =
      if -9223372036854775808 ≤ (if neg then -(a : ℤ) else (a : ℤ)) ∧
          (if neg then -(a : ℤ) else (a : ℤ)) < 9223372036854775808
      then (if neg then -(a : ℤ) else (a : ℤ)) else -9223372036854775808 := by
  unfold int64_ofFloat
  simp

theorem toRat_int (neg : Bool) (a : Nat) :
    F64.toRat (.fin neg a 0) = (((if neg then -(a : ℤ) else (a : ℤ)) : ℤ) : ℚ) := by
  rw [F64.toRat_fin]
  cases neg <;> simp

theorem pow_toNat_pos (e : Int) : 0 < 2 ^ (-e).toNat := by positivity

/-- The conversion to int64 of the floor of a finite float64 is the floor of
its value when that is in the range of int64. -/
theorem int64_ofFloat_Floor (neg : Bool) (m : Nat) (e : Int) :
    int64_ofFloat (math_Floor (.fin neg m e)) =
      if -9223372036854775808 ≤ ⌊F64.toRat (.fin neg m e)⌋ ∧
          ⌊F64.toRat (.fin neg m e)⌋ < 9223372036854775808
      then ⌊F64.toRat (.fin neg m e)⌋ else -9223372036854775808 := by
  by_cases he : 0 ≤ e
  · have hq := toRat_fin_nonneg_exp neg m e he
    rw [hq, Int.floor_intCast]
    unfold math_Floor int64_ofFloat
    simp only [if_pos he]
  · have he2 : e < 0 := by omega
    have hk := pow_toNat_pos e
    have hq := toRat_fin_neg_exp neg m e he2
    cases neg
    · have hfl : math_Floor (.fin false m e) = .fin false (m / 2 ^ (-e).toNat) 0 := by
        unfold math_Floor
        simp [he]
      simp only [Bool.false_eq_true, if_false, one_mul] at hq
      rw [hfl, int64_ofFloat_int, hq, floor_natDiv m _ hk]
      simp
    · simp only [if_true] at hq
      have hfloor : ⌊F64.toRat (.fin true m e)⌋ =
          -((m / 2 ^ (-e).toNat + (if m % 2 ^ (-e).toNat = 0 then 0 else 1) : ℕ) : ℤ) := by
        rw [hq, neg_one_mul, Int.floor_neg, ceil_natDiv m _ hk]
      rw [hfloor]
      by_cases hR : m % 2 ^ (-e).toNat = 0
      · have hfl : math_Floor (.fin true m e) = .fin true (m / 2 ^ (-e).toNat) 0 := by
          unfold math_Floor
          simp [he, hR]
        rw [hfl, int64_ofFloat_int, if_pos hR]
        simp
      · have hfl : math_Floor (.fin true m e) = .fin true (m / 2 ^ (-e).toNat + 1) 0 := by
          unfold math_Floor
          simp [he, hR]
        rw [hfl, int64_ofFloat_int, if_neg hR]
        simp

/-- The conversion to int64 of the ceiling of a finite float64 is the
ceiling of its value when that is in the range of int64. -/
theorem int64_ofFloat_Ceil (neg : Bool) (m : Nat) (e : Int) :
    int64_ofFloat (math_Ceil (.fin neg m e)) =
      if -9223372036854775808 ≤ ⌈F64.toRat (.fin neg m e)⌉ ∧
          ⌈F64.toRat (.fin neg m e)⌉ < 9223372036854775808
      then ⌈F64.toRat (.fin neg m e)⌉ else -9223372036854775808 := by
  by_cases he : 0 ≤ e
  · have hq := toRat_fin_nonneg_exp neg m e he
    rw [hq, Int.ceil_intCast]
    unfold math_Ceil math_Floor F64.neg int64_ofFloat
    simp only [if_pos he]
    cases neg <;> simp
  · have he2 : e < 0 := by omega
    have hk := pow_toNat_pos e
    have hq := toRat_fin_neg_exp neg m e he2
    cases neg
    · simp only [Bool.false_eq_true, if_false, one_mul] at hq
      rw [hq, ceil_natDiv m _ hk]
      by_cases hR : m % 2 ^ (-e).toNat = 0
      · have hfl : math_Ceil (.fin false m e) = .fin false (m / 2 ^ (-e).toNat) 0 := by
          unfold math_Ceil math_Floor F64.neg
          simp [he, hR]
        rw [hfl, int64_ofFloat_int, if_pos hR]
        simp
      · have hfl : math_Ceil (.fin false m e) = .fin false (m / 2 ^ (-e).toNat + 1) 0 := by
          unfold math_Ceil math_Floor F64.neg
          simp [he, hR]
        rw [hfl, int64_ofFloat_int, if_neg hR]
        simp
    · simp only [if_true] at hq
      have hfl : math_Ceil (.fin true m e) = .fin true (m / 2 ^ (-e).toNat) 0 := by
        unfold math_Ceil math_Floor F64.neg
        simp [he]
      rw [hfl, int64_ofFloat_int, hq, neg_one_mul, Int.ceil_neg, floor_natDiv m _ hk]
      simp

/-- The test `div >= roundOn` of `roundF2I` with `roundOn = 0.5` on a finite
float64: it holds exactly when the number is not negative and its fractional
part is at least one half. -/
theorem le_half_Modf (neg : Bool) (m : Nat) (e : Int) :
    F64.le F64.half (math_Modf (.fin neg m e)).2 = true ↔
      (0 ≤ F64.toRat (.fin neg m e) ∧ 1 / 2 ≤ Int.fract (F64.toRat (.fin neg m e))) := by
  by_cases he : 0 ≤ e
  · have hq := toRat_fin_nonneg_exp neg m e he
    have hm : (math_Modf (.fin neg m e)).2 = .fin neg 0 (-1074) := by
      unfold math_Modf
      simp [he]
    have h0 : F64.toRat (.fin neg 0 (-1074)) = 0 := by
      rw [F64.toRat_fin]
      simp
    rw [hm, F64.half, F64.le_fin_iff, ← F64.half, F64.toRat_half, h0, hq, Int.fract_intCast]
    constructor
    · intro h
      norm_num at h
    · intro h
      norm_num at h
  · have he2 : e < 0 := by omega
    have hk := pow_toNat_pos e
    have hkq : (0 : ℚ) < ((2 ^ (-e).toNat : ℕ) : ℚ) := by exact_mod_cast hk
    have hq := toRat_fin_neg_exp neg m e he2
    have hm : (math_Modf (.fin neg m e)).2 = .fin neg (m % 2 ^ (-e).toNat) e := by
      unfold math_Modf
      simp [he]
    have hr := toRat_fin_neg_exp neg (m % 2 ^ (-e).toNat) e he2
    have hr0 : (0 : ℚ) ≤ ((m % 2 ^ (-e).toNat : ℕ) : ℚ) / ((2 ^ (-e).toNat : ℕ) : ℚ) := by
      positivity
    have hm0 : (0 : ℚ) ≤ (m : ℚ) / ((2 ^ (-e).toNat : ℕ) : ℚ) := by positivity
    rw [hm, F64.half, F64.le_fin_iff, ← F64.half, F64.toRat_half, hr, hq]
    cases neg
    · simp only [Bool.false_eq_true, if_false, one_mul]
      rw [fract_natDiv m _ hk]
      constructor
      · intro h
        exact ⟨hm0, h⟩
      · intro h
        exact h.2
    · simp only [if_true, neg_one_mul]
      constructor
      · intro h
        linarith
      · rintro ⟨h1, h2⟩
        have hz : (m : ℚ) / ((2 ^ (-e).toNat : ℕ) : ℚ) = 0 := by linarith
        rw [hz] at h2
        norm_num at h2

/-- The result of `roundF2I(val, 0.5)` on a finite float64 in terms of its
value: the ceiling when the value is not negative and its fractional part is
at least one half, the floor otherwise, and the smallest int64 when that
integer is outside the range of int64. -/
theorem roundF2I_fin (neg : Bool) (m : Nat) (e : Int) :
    roundF2I (.fin neg m e) F64.half =
      if 0 ≤ F64.toRat (.fin neg m e) ∧ 1 / 2 ≤ Int.fract (F64.toRat (.fin neg m e)) then
        (if -9223372036854775808 ≤ ⌈F64.toRat (.fin neg m e)⌉ ∧
            ⌈F64.toRat (.fin neg m e)⌉ < 9223372036854775808
          then ⌈F64.toRat (.fin neg m e)⌉ else -9223372036854775808)
      else
        (if -9223372036854775808 ≤ ⌊F64.toRat (.fin neg m e)⌋ ∧
            ⌊F64.toRat (.fin neg m e)⌋ < 9223372036854775808
          then ⌊F64.toRat (.fin neg m e)⌋ else -9223372036854775808) := by
  unfold roundF2I
  simp only []
  by_cases h : F64.le F64.half (math_Modf (.fin neg m e)).2 = true
  · rw [if_pos h, if_pos ((le_half_Modf neg m e).mp h), int64_ofFloat_Ceil]
  · rw [if_neg h, if_neg (fun hc => h ((le_half_Modf neg m e).mpr hc)), int64_ofFloat_Floor]

theorem F64.bitsSmall_spec (n : Nat) (h0 : 0 < n) (h : n < 256) :
    ∃ b, F64.bitsSmall n = b + 1 ∧ 2 ^ b ≤ n ∧ n < 2 ^ (b + 1) := by
  unfold F64.bitsSmall
  split_ifs with h1 h2 h3 h4 h5 h6 h7 h8
  · omega
  · exact ⟨0, rfl, by norm_num; omega, by norm_num; omega⟩
  · exact ⟨1, rfl, by norm_num; omega, by norm_num; omega⟩
  · exact ⟨2, rfl, by norm_num; omega, by norm_num; omega⟩
  · exact ⟨3, rfl, by norm_num; omega, by norm_num; omega⟩
  · exact ⟨4, rfl, by norm_num; omega, by norm_num; omega⟩
  · exact ⟨5, rfl, by norm_num; omega, by norm_num; omega⟩
  · exact ⟨6, rfl, by norm_num; omega, by norm_num; omega⟩
  · exact ⟨7, rfl, by norm_num; omega, by norm_num; omega⟩

theorem F64.bitsAux_spec : ∀ (fuel n : Nat), 0 < n → n < fuel →
    ∃ b, F64.bitsAux fuel n = b + 1 ∧ 2 ^ b ≤ n ∧ n < 2 ^ (b + 1)
  | 0, n, _, h => by omega
  | fuel + 1, n, h0, h => by
    unfold F64.bitsAux
    by_cases h256 : n < 256
    · rw [if_pos h256]
      exact F64.bitsSmall_spec n h0 h256
    · rw [if_neg h256]
      obtain ⟨b, hb, h1, h2⟩ := F64.bitsAux_spec fuel (n / 256) (by omega) (by omega)
      refine ⟨b + 8, by rw [hb], ?_, ?_⟩
      · have : 2 ^ (b + 8) = 2 ^ b * 256 := by rw [pow_add]; norm_num
        omega
      · have : 2 ^ (b + 8 + 1) = 2 ^ (b + 1) * 256 := by
          rw [show b + 8 + 1 = b + 1 + 8 by omega, pow_add]; norm_num
        omega

/-- The number of binary digits: `2^(bits n - 1) ≤ n < 2^(bits n)` for a
positive `n`. -/
theorem F64.bits_spec (n : Nat) (h0 : 0 < n) :
    ∃ b, F64.bits n = b + 1 ∧ 2 ^ b ≤ n ∧ n < 2 ^ (b + 1) :=
  F64.bitsAux_spec (n + 1) n h0 (by omega)

theorem zpow_two_toNat (l : Int) (h : 0 ≤ l) : (2 : ℚ) ^ l = ((2 ^ l.toNat : ℕ) : ℚ) := by
  have h1 : (2 : ℚ) ^ l = (2 : ℚ) ^ ((l.toNat : ℕ) : ℤ) := by rw [Int.toNat_of_nonneg h]
  rw [h1, zpow_natCast]
  push_cast
  rfl

theorem zpow_two_neg_toNat (l : Int) (h : l ≤ 0) :
    (2 : ℚ) ^ l * ((2 ^ (-l).toNat : ℕ) : ℚ) = 1 := by
  rw [← zpow_two_toNat (-l) (by omega), ← zpow_add₀ (by norm_num : (2 : ℚ) ≠ 0)]
  simp

theorem F64.reached_iff (num den : Nat) (hd : 0 < den) (l : Int) :
    (if 0 ≤ l then decide (den * 2 ^ l.toNat ≤ num) else decide (den ≤ num * 2 ^ (-l).toNat))
        = true
      ↔ (2 : ℚ) ^ l ≤ (num : ℚ) / den := by
  have hdq : (0 : ℚ) < den := by exact_mod_cast hd
  rw [le_div_iff₀ hdq]
  by_cases h : 0 ≤ l
  · rw [if_pos h, decide_eq_true_iff, zpow_two_toNat l h, mul_comm]
    exact_mod_cast Iff.rfl
  · rw [if_neg h, decide_eq_true_iff]
    have hz := zpow_two_neg_toNat l (by omega)
    have hp : (0 : ℚ) < ((2 ^ (-l).toNat : ℕ) : ℚ) := by positivity
    constructor
    · intro hle
      have h1 : (den : ℚ) ≤ (num : ℚ) * ((2 ^ (-l).toNat : ℕ) : ℚ) := by exact_mod_cast hle
      have h2 : (2 : ℚ) ^ l * (den : ℚ) ≤
          (2 : ℚ) ^ l * ((num : ℚ) * ((2 ^ (-l).toNat : ℕ) : ℚ)) :=
        mul_le_mul_of_nonneg_left h1 (by positivity)
      calc (2 : ℚ) ^ l * (den : ℚ) ≤ (2 : ℚ) ^ l * ((num : ℚ) * ((2 ^ (-l).toNat : ℕ) : ℚ)) := h2
        _ = (num : ℚ) * ((2 : ℚ) ^ l * ((2 ^ (-l).toNat : ℕ) : ℚ)) := by ring
        _ = (num : ℚ) := by rw [hz, mul_one]
    · intro hle
      have h2 : (2 : ℚ) ^ l * (den : ℚ) * ((2 ^ (-l).toNat : ℕ) : ℚ) ≤
          (num : ℚ) * ((2 ^ (-l).toNat : ℕ) : ℚ) :=
        mul_le_mul_of_nonneg_right hle (le_of_lt hp)
      have h3 : (2 : ℚ) ^ l * (den : ℚ) * ((2 ^ (-l).toNat : ℕ) : ℚ) = (den : ℚ) := by
        calc (2 : ℚ) ^ l * (den : ℚ) * ((2 ^ (-l).toNat : ℕ) : ℚ)
            = (den : ℚ) * ((2 : ℚ) ^ l * ((2 ^ (-l).toNat : ℕ) : ℚ)) := by ring
          _ = (den : ℚ) := by rw [hz, mul_one]
      rw [h3] at h2
      exact_mod_cast h2

/-- The exponent of the grid: with `lg = floor(log2(num / den))`, that is
`2^lg ≤ num / den < 2^(lg + 1)`, the exponent is `lg - 52`, and `-1074` when
that is smaller. -/
theorem F64.gridExp_spec (num den : Nat) (hn : 0 < num) (hd : 0 < den) :
    ∃ lg : Int, F64.gridExp num den = max (lg - 52) (-1074) ∧
      (2 : ℚ) ^ lg ≤ (num : ℚ) / den ∧ (num : ℚ) / den < (2 : ℚ) ^ (lg + 1) := by
  obtain ⟨bn, hbn, hn1, hn2⟩ := F64.bits_spec num hn
  obtain ⟨bd, hbd, hd1, hd2⟩ := F64.bits_spec den hd
  have hdq : (0 : ℚ) < den := by exact_mod_cast hd
  have qn1 : (2 : ℚ) ^ (bn : ℤ) ≤ (num : ℚ) := by
    rw [zpow_natCast]; exact_mod_cast hn1
  have qn2 : (num : ℚ) < (2 : ℚ) ^ ((bn : ℤ) + 1) := by
    have : (num : ℚ) < (2 : ℚ) ^ (bn + 1) := by exact_mod_cast hn2
    rw [show ((bn : ℤ) + 1) = ((bn + 1 : ℕ) : ℤ) by push_cast; rfl, zpow_natCast]
    exact this
  have qd1 : (2 : ℚ) ^ (bd : ℤ) ≤ (den : ℚ) := by
    rw [zpow_natCast]; exact_mod_cast hd1
  have qd2 : (den : ℚ) < (2 : ℚ) ^ ((bd : ℤ) + 1) := by
    have : (den : ℚ) < (2 : ℚ) ^ (bd + 1) := by exact_mod_cast hd2
    rw [show ((bd : ℤ) + 1) = ((bd + 1 : ℕ) : ℤ) by push_cast; rfl, zpow_natCast]
    exact this
  have h2 : (2 : ℚ) ≠ 0 := by norm_num
  -- bounds of the quotient
  have lo : (2 : ℚ) ^ ((bn : ℤ) - (bd : ℤ) - 1) ≤ (num : ℚ) / den := by
    rw [le_div_iff₀ hdq]
    calc (2 : ℚ) ^ ((bn : ℤ) - (bd : ℤ) - 1) * (den : ℚ)
        ≤ (2 : ℚ) ^ ((bn : ℤ) - (bd : ℤ) - 1) * (2 : ℚ) ^ ((bd : ℤ) + 1) :=
          mul_le_mul_of_nonneg_left (le_of_lt qd2) (by positivity)
      _ = (2 : ℚ) ^ (bn : ℤ) := by rw [← zpow_add₀ h2]; congr 1; ring
      _ ≤ (num : ℚ) := qn1
  have hi : (num : ℚ) / den < (2 : ℚ) ^ ((bn : ℤ) - (bd : ℤ) + 1) := by
    rw [div_lt_iff₀ hdq]
    calc (num : ℚ) < (2 : ℚ) ^ ((bn : ℤ) + 1) := qn2
      _ = (2 : ℚ) ^ ((bn : ℤ) - (bd : ℤ) + 1) * (2 : ℚ) ^ (bd : ℤ) := by
          rw [← zpow_add₀ h2]; congr 1; ring
      _ ≤ (2 : ℚ) ^ ((bn : ℤ) - (bd : ℤ) + 1) * (den : ℚ) :=
          mul_le_mul_of_nonneg_left qd1 (by positivity)
  have hl : ((F64.bits num : ℕ) : ℤ) - ((F64.bits den : ℕ) : ℤ) = (bn : ℤ) - (bd : ℤ) := by
    rw [hbn, hbd]; push_cast; ring
  unfold F64.gridExp
  simp only []
  rw [hl]
  by_cases hr : (if 0 ≤ (bn : ℤ) - (bd : ℤ) then
      decide (den * 2 ^ ((bn : ℤ) - (bd : ℤ)).toNat ≤ num)
      else decide (den ≤ num * 2 ^ (-((bn : ℤ) - (bd : ℤ))).toNat)) = true
  · rw [if_pos hr]
    exact ⟨_, rfl, (F64.reached_iff num den hd _).mp hr, hi⟩
  · rw [if_neg hr]
    refine ⟨_, rfl, lo, ?_⟩
    rw [show (bn : ℤ) - (bd : ℤ) - 1 + 1 = (bn : ℤ) - (bd : ℤ) by ring]
    exact not_le.mp (fun hc => hr ((F64.reached_iff num den hd _).mpr hc))

/-- The integer nearest to `n1 / d1`: with `q` the number rounded down, the
result is `q` when the number is at most `q + 1/2` and `q + 1` when it is at
least `q + 1/2`, and it is even when the number is half way. -/
theorem F64.nearest_spec (n1 d1 : Nat) (hd : 0 < d1) :
    ∃ q : Nat, (q : ℚ) ≤ (n1 : ℚ) / d1 ∧ (n1 : ℚ) / d1 < (q : ℚ) + 1 ∧
      (F64.nearest n1 d1 = q ∧ (n1 : ℚ) / d1 ≤ (q : ℚ) + 1 / 2 ∨
        F64.nearest n1 d1 = q + 1 ∧ (q : ℚ) + 1 / 2 ≤ (n1 : ℚ) / d1) ∧
      (|((F64.nearest n1 d1 : ℕ) : ℚ) - (n1 : ℚ) / d1| = 1 / 2 → F64.nearest n1 d1 % 2 = 0) := by
  have hdq : (0 : ℚ) < d1 := by exact_mod_cast hd
  have hdm : d1 * (n1 / d1) + n1 % d1 = n1 := Nat.div_add_mod n1 d1
  have hr : n1 % d1 < d1 := Nat.mod_lt n1 hd
  have hz : (n1 : ℚ) / d1 = ((n1 / d1 : ℕ) : ℚ) + ((n1 % d1 : ℕ) : ℚ) / d1 := by
    have : (n1 : ℚ) = (d1 : ℚ) * ((n1 / d1 : ℕ) : ℚ) + ((n1 % d1 : ℕ) : ℚ) := by
      exact_mod_cast hdm.symm
    field_simp
    linarith
  have ht0 : (0 : ℚ) ≤ ((n1 % d1 : ℕ) : ℚ) / d1 := by positivity
  have ht1 : ((n1 % d1 : ℕ) : ℚ) / d1 < 1 := by
    rw [div_lt_one hdq]
    exact_mod_cast hr
  have hhalf : ∀ P : Prop, (d1 < 2 * (n1 % d1) → P) → (2 * (n1 % d1) = d1 → P) →
      (2 * (n1 % d1) < d1 → P) → P := by
    intro P a b c
    rcases lt_trichotomy (2 * (n1 % d1)) d1 with h | h | h
    · exact c h
    · exact b h
    · exact a h
  have hgt : d1 < 2 * (n1 % d1) → (1 : ℚ) / 2 < ((n1 % d1 : ℕ) : ℚ) / d1 := by
    intro h
    rw [lt_div_iff₀ hdq]
    have : (d1 : ℚ) < 2 * ((n1 % d1 : ℕ) : ℚ) := by exact_mod_cast h
    linarith
  have heq : 2 * (n1 % d1) = d1 → ((n1 % d1 : ℕ) : ℚ) / d1 = 1 / 2 := by
    intro h
    rw [div_eq_iff (ne_of_gt hdq)]
    have : 2 * ((n1 % d1 : ℕ) : ℚ) = (d1 : ℚ) := by exact_mod_cast h
    linarith
  have hlt : 2 * (n1 % d1) < d1 → ((n1 % d1 : ℕ) : ℚ) / d1 < 1 / 2 := by
    intro h
    rw [div_lt_iff₀ hdq]
    have : 2 * ((n1 % d1 : ℕ) : ℚ) < (d1 : ℚ) := by exact_mod_cast h
    linarith
  refine ⟨n1 / d1, by rw [hz]; linarith, by rw [hz]; linarith, ?_, ?_⟩
  · unfold F64.nearest
    simp only []
    apply hhalf
    · intro h
      right
      have := hgt h
      refine ⟨by simp [h], by rw [hz]; linarith⟩
    · intro h
      have := heq h
      have hn : ¬ d1 < 2 * (n1 % d1) := by omega
      by_cases hodd : n1 / d1 % 2 = 1
      · right
        refine ⟨by simp [h, hodd], by rw [hz]; linarith⟩
      · left
        refine ⟨by simp [h, hodd], by rw [hz]; linarith⟩
    · intro h
      left
      have := hlt h
      have hn : ¬ d1 < 2 * (n1 % d1) := by omega
      have hne : ¬ 2 * (n1 % d1) = d1 := by omega
      refine ⟨by simp [hn, hne], by rw [hz]; linarith⟩
  · unfold F64.nearest
    simp only []
    apply hhalf
    · intro h
      have := hgt h
      have hup : (decide (d1 < 2 * (n1 % d1)) ||
          (decide (2 * (n1 % d1) = d1) && decide (n1 / d1 % 2 = 1))) = true := by simp [h]
      rw [if_pos hup, hz]
      intro habs
      exfalso
      push_cast at habs
      rw [show ((n1 / d1 : ℕ) : ℚ) + 1 - (((n1 / d1 : ℕ) : ℚ) + ((n1 % d1 : ℕ) : ℚ) / d1)
        = 1 - ((n1 % d1 : ℕ) : ℚ) / d1 by ring, abs_of_nonneg (by linarith)] at habs
      linarith
    · intro h
      intro _
      by_cases hodd : n1 / d1 % 2 = 1
      · have hup : (decide (d1 < 2 * (n1 % d1)) ||
            (decide (2 * (n1 % d1) = d1) && decide (n1 / d1 % 2 = 1))) = true := by
          simp [h, hodd]
        rw [if_pos hup]
        omega
      · have hn : ¬ d1 < 2 * (n1 % d1) := by omega
        have hup : ¬ (decide (d1 < 2 * (n1 % d1)) ||
            (decide (2 * (n1 % d1) = d1) && decide (n1 / d1 % 2 = 1))) = true := by
          simp [hn, hodd]
        rw [if_neg hup]
        omega
    · intro h
      have := hlt h
      have hn : ¬ d1 < 2 * (n1 % d1) := by omega
      have hne : ¬ 2 * (n1 % d1) = d1 := by omega
      have hup : ¬ (decide (d1 < 2 * (n1 % d1)) ||
          (decide (2 * (n1 % d1) = d1) && decide (n1 / d1 % 2 = 1))) = true := by
        simp [hn, hne]
      rw [if_neg hup, hz]
      intro habs
      exfalso
      rw [show ((n1 / d1 : ℕ) : ℚ) - (((n1 / d1 : ℕ) : ℚ) + ((n1 % d1 : ℕ) : ℚ) / d1)
        = -(((n1 % d1 : ℕ) : ℚ) / d1) by ring, abs_neg, abs_of_nonneg ht0] at habs
      linarith

/-- No integer is nearer to `n1 / d1` than `nearest n1 d1`. -/
theorem F64.nearest_le (n1 d1 : Nat) (hd : 0 < d1) (k : ℤ) :
    |((F64.nearest n1 d1 : ℕ) : ℚ) - (n1 : ℚ) / d1| ≤ |(k : ℚ) - (n1 : ℚ) / d1| := by
  obtain ⟨q, h1, h2, h3, _⟩ := F64.nearest_spec n1 d1 hd
  rcases le_or_lt k (q : ℤ) with hk | hk
  · have hkq : (k : ℚ) ≤ (q : ℚ) := by exact_mod_cast hk
    rcases h3 with ⟨hm, hz⟩ | ⟨hm, hz⟩
    · rw [hm, abs_sub_comm, abs_of_nonneg (by linarith), abs_sub_comm (k : ℚ),
        abs_of_nonneg (by linarith)]
      linarith
    · rw [hm]
      push_cast
      rw [abs_of_nonneg (by linarith), abs_sub_comm (k : ℚ), abs_of_nonneg (by linarith)]
      linarith
  · have hkq : (q : ℚ) + 1 ≤ (k : ℚ) := by exact_mod_cast hk
    rcases h3 with ⟨hm, hz⟩ | ⟨hm, hz⟩
    · rw [hm, abs_sub_comm, abs_of_nonneg (by linarith), abs_of_nonneg (by linarith)]
      linarith
    · rw [hm]
      push_cast
      rw [abs_of_nonneg (by linarith), abs_of_nonneg (by linarith)]
      linarith

theorem F64.round_scale (num den : Nat) (hd : 0 < den) (e : Int) :
    (0 < (if e < 0 then den else den * 2 ^ e.toNat)) ∧
    (((if e < 0 then num * 2 ^ (-e).toNat else num : ℕ) : ℚ)
        / ((if e < 0 then den else den * 2 ^ e.toNat : ℕ) : ℚ)) * (2 : ℚ) ^ e
      = (num : ℚ) / den := by
  have hdq : (0 : ℚ) < den := by exact_mod_cast hd
  by_cases h : e < 0
  · simp only [if_pos h]
    refine ⟨hd, ?_⟩
    have hz := zpow_two_neg_toNat e (by omega)
    push_cast at hz ⊢
    calc (num : ℚ) * 2 ^ (-e).toNat / (den : ℚ) * (2 : ℚ) ^ e
        = (num : ℚ) / den * ((2 : ℚ) ^ e * 2 ^ (-e).toNat) := by ring
      _ = (num : ℚ) / den := by rw [hz, mul_one]
  · simp only [if_neg h]
    refine ⟨by positivity, ?_⟩
    rw [zpow_two_toNat e (by omega)]
    have hp : (0 : ℚ) < ((2 ^ e.toNat : ℕ) : ℚ) := by positivity
    push_cast at hp ⊢
    field_simp
    ring

theorem F64.round_core (neg : Bool) (n1 d1 : Nat) (hd1 : 0 < d1) (e lg : Int) (x : ℚ)
    (he : e = max (lg - 52) (-1074)) (hlo : (2 : ℚ) ^ lg ≤ x) (hhi : x < (2 : ℚ) ^ (lg + 1))
    (hz : (n1 : ℚ) / d1 * (2 : ℚ) ^ e = x) :
    (∃ (m : Nat) (e0 : Int),
      (if (if F64.nearest n1 d1 = 2 ^ 53 then e + 1 else e) > 971 then F64.inf neg
        else F64.fin neg (if F64.nearest n1 d1 = 2 ^ 53 then 2 ^ 52 else F64.nearest n1 d1)
          (if F64.nearest n1 d1 = 2 ^ 53 then e + 1 else e)) = F64.fin neg m e0 ∧
      m < 2 ^ 53 ∧ -1074 ≤ e0 ∧ e0 ≤ 971 ∧ (2 ^ 52 ≤ m ∨ e0 = -1074) ∧
      (∀ (m' : Nat) (e' : Int), m' < 2 ^ 53 → -1074 ≤ e' →
        |(m : ℚ) * (2 : ℚ) ^ e0 - x| ≤ |(m' : ℚ) * (2 : ℚ) ^ e' - x|) ∧
      (|(m : ℚ) * (2 : ℚ) ^ e0 - x| = (2 : ℚ) ^ e0 / 2 → m % 2 = 0)) ∨
    ((if (if F64.nearest n1 d1 = 2 ^ 53 then e + 1 else e) > 971 then F64.inf neg
        else F64.fin neg (if F64.nearest n1 d1 = 2 ^ 53 then 2 ^ 52 else F64.nearest n1 d1)
          (if F64.nearest n1 d1 = 2 ^ 53 then e + 1 else e)) = F64.inf neg ∧
      ((2 : ℚ) ^ 53 - 1 / 2) * (2 : ℚ) ^ (971 : ℤ) ≤ x) := by
  have h2 : (2 : ℚ) ≠ 0 := by norm_num
  have hG : (0 : ℚ) < (2 : ℚ) ^ e := by positivity
  obtain ⟨q, h1, h2', h3, h4⟩ := F64.nearest_spec n1 d1 hd1
  have hnear := F64.nearest_le n1 d1 hd1
  generalize F64.nearest n1 d1 = m at h3 h4 hnear ⊢
  generalize (n1 : ℚ) / d1 = z at h1 h2' h3 h4 hnear hz
  have hemin : -1074 ≤ e := by omega
  have helg : lg + 1 ≤ e + 53 := by omega
  -- the scaled number is below 2^53
  have hz53 : z < (2 : ℚ) ^ 53 := by
    have hx : z * (2 : ℚ) ^ e < (2 : ℚ) ^ 53 * (2 : ℚ) ^ e := by
      calc z * (2 : ℚ) ^ e = x := hz
        _ < (2 : ℚ) ^ (lg + 1) := hhi
        _ ≤ (2 : ℚ) ^ (e + 53) := (zpow_le_zpow_iff_right₀ (by norm_num)).mpr helg
        _ = (2 : ℚ) ^ 53 * (2 : ℚ) ^ e := by
          rw [zpow_add₀ h2, mul_comm]
          norm_cast
    exact lt_of_mul_lt_mul_right hx (le_of_lt hG)
  have hq53 : q < 2 ^ 53 := by
    have : (q : ℚ) < (2 : ℚ) ^ 53 := lt_of_le_of_lt h1 hz53
    exact_mod_cast this
  -- in the normal range it is at least 2^52
  have hz52 : -1074 < e → (2 : ℚ) ^ 52 ≤ z := by
    intro hgt
    have hel : lg = e + 52 := by omega
    have hx : (2 : ℚ) ^ 52 * (2 : ℚ) ^ e ≤ z * (2 : ℚ) ^ e := by
      calc (2 : ℚ) ^ 52 * (2 : ℚ) ^ e = (2 : ℚ) ^ lg := by
            rw [hel, zpow_add₀ h2, mul_comm]
            norm_cast
        _ ≤ x := hlo
        _ = z * (2 : ℚ) ^ e := hz.symm
    exact le_of_mul_le_mul_right hx hG
  have hq52 : -1074 < e → 2 ^ 52 ≤ q := by
    intro hgt
    have : (2 : ℚ) ^ 52 < (q : ℚ) + 1 := lt_of_le_of_lt (hz52 hgt) h2'
    have h' : (2 ^ 52 : ℕ) < q + 1 := by exact_mod_cast this
    omega
  have hmq : m = q ∨ m = q + 1 := by
    rcases h3 with ⟨h, _⟩ | ⟨h, _⟩
    · exact Or.inl h
    · exact Or.inr h
  -- no binary64 number is nearer
  have hnearG : ∀ (m' : Nat) (e' : Int), m' < 2 ^ 53 → -1074 ≤ e' →
      |(m : ℚ) * (2 : ℚ) ^ e - x| ≤ |(m' : ℚ) * (2 : ℚ) ^ e' - x| := by
    intro m' e' hm' he'
    have hl : |(m : ℚ) * (2 : ℚ) ^ e - x| = |(m : ℚ) - z| * (2 : ℚ) ^ e := by
      rw [← hz, ← sub_mul, abs_mul, abs_of_pos hG]
    rw [hl]
    by_cases hle : e ≤ e'
    · have hk : (m' : ℚ) * (2 : ℚ) ^ e'
          = (((m' * 2 ^ (e' - e).toNat : ℕ) : ℤ) : ℚ) * (2 : ℚ) ^ e := by
        have : (2 : ℚ) ^ e' = (2 : ℚ) ^ (e' - e) * (2 : ℚ) ^ e := by
          rw [← zpow_add₀ h2]
          congr 1
          ring
        rw [this, zpow_two_toNat (e' - e) (by omega)]
        push_cast
        ring
      rw [hk, ← hz, ← sub_mul, abs_mul, abs_of_pos hG]
      exact mul_le_mul_of_nonneg_right (hnear _) (le_of_lt hG)
    · have hgt : -1074 < e := by omega
      have hq : (2 : ℚ) ^ 52 ≤ (q : ℚ) := by exact_mod_cast hq52 hgt
      have hm'q : (m' : ℚ) ≤ (2 : ℚ) ^ 53 := by exact_mod_cast le_of_lt hm'
      have hpe : (2 : ℚ) ^ e' ≤ (2 : ℚ) ^ (e - 1) :=
        (zpow_le_zpow_iff_right₀ (by norm_num)).mpr (by omega)
      have hpe1 : (2 : ℚ) ^ (e - 1) * 2 = (2 : ℚ) ^ e := by
        rw [zpow_sub₀ h2]
        field_simp
      have hy : (m' : ℚ) * (2 : ℚ) ^ e' ≤ (q : ℚ) * (2 : ℚ) ^ e := by
        calc (m' : ℚ) * (2 : ℚ) ^ e' ≤ (2 : ℚ) ^ 53 * (2 : ℚ) ^ (e - 1) :=
              mul_le_mul hm'q hpe (by positivity) (by positivity)
          _ = (2 : ℚ) ^ 52 * (2 : ℚ) ^ e := by rw [← hpe1]; ring
          _ ≤ (q : ℚ) * (2 : ℚ) ^ e := mul_le_mul_of_nonneg_right hq (le_of_lt hG)
      have hqx : (q : ℚ) * (2 : ℚ) ^ e ≤ x := by
        rw [← hz]
        exact mul_le_mul_of_nonneg_right h1 (le_of_lt hG)
      have hnq := hnear (q : ℤ)
      rw [show (((q : ℤ) : ℚ)) = (q : ℚ) by push_cast; rfl, abs_sub_comm (q : ℚ),
        abs_of_nonneg (show (0 : ℚ) ≤ z - (q : ℚ) by linarith)] at hnq
      rw [abs_sub_comm ((m' : ℚ) * (2 : ℚ) ^ e'),
        abs_of_nonneg (show (0 : ℚ) ≤ x - (m' : ℚ) * (2 : ℚ) ^ e' by linarith)]
      calc |(m : ℚ) - z| * (2 : ℚ) ^ e ≤ (z - (q : ℚ)) * (2 : ℚ) ^ e :=
            mul_le_mul_of_nonneg_right hnq (le_of_lt hG)
        _ = x - (q : ℚ) * (2 : ℚ) ^ e := by rw [← hz]; ring
        _ ≤ x - (m' : ℚ) * (2 : ℚ) ^ e' := by linarith
  by_cases hm53 : m = 2 ^ 53
  · simp only [if_pos hm53]
    have hval : ((2 ^ 52 : ℕ) : ℚ) * (2 : ℚ) ^ (e + 1) = (m : ℚ) * (2 : ℚ) ^ e := by
      rw [hm53, zpow_add₀ h2]
      push_cast
      ring
    by_cases hov : e + 1 > 971
    · right
      rw [if_pos hov]
      refine ⟨rfl, ?_⟩
      have hq' : q = 2 ^ 53 - 1 := by omega
      have hzq : (q : ℚ) + 1 / 2 ≤ z := by
        rcases h3 with ⟨h, _⟩ | ⟨_, h⟩
        · omega
        · exact h
      have hqq : (q : ℚ) = (2 : ℚ) ^ 53 - 1 := by
        rw [hq']
        norm_num
      have hGe : (2 : ℚ) ^ (971 : ℤ) ≤ (2 : ℚ) ^ e :=
        (zpow_le_zpow_iff_right₀ (by norm_num)).mpr (by omega)
      calc ((2 : ℚ) ^ 53 - 1 / 2) * (2 : ℚ) ^ (971 : ℤ)
          ≤ ((2 : ℚ) ^ 53 - 1 / 2) * (2 : ℚ) ^ e :=
            mul_le_mul_of_nonneg_left hGe (by norm_num)
        _ ≤ z * (2 : ℚ) ^ e := mul_le_mul_of_nonneg_right (by linarith) (le_of_lt hG)
        _ = x := hz
    · left
      rw [if_neg hov]
      refine ⟨_, _, rfl, by norm_num, by omega, by omega, Or.inl (le_refl _), ?_, ?_⟩
      · intro m' e' hm' he'
        rw [hval]
        exact hnearG m' e' hm' he'
      · intro _
        norm_num
  · simp only [if_neg hm53]
    by_cases hov : e > 971
    · right
      rw [if_pos hov]
      refine ⟨rfl, ?_⟩
      have hGe : (2 : ℚ) ^ (971 : ℤ) * 2 ≤ (2 : ℚ) ^ e := by
        calc (2 : ℚ) ^ (971 : ℤ) * 2 = (2 : ℚ) ^ (972 : ℤ) := by
              rw [show (972 : ℤ) = 971 + 1 by norm_num, zpow_add₀ h2]
              norm_num
          _ ≤ (2 : ℚ) ^ e := (zpow_le_zpow_iff_right₀ (by norm_num)).mpr (by omega)
      have hP : (0 : ℚ) < (2 : ℚ) ^ (971 : ℤ) := by positivity
      calc ((2 : ℚ) ^ 53 - 1 / 2) * (2 : ℚ) ^ (971 : ℤ)
          ≤ (2 : ℚ) ^ 52 * ((2 : ℚ) ^ (971 : ℤ) * 2) := by nlinarith
        _ ≤ (2 : ℚ) ^ 52 * (2 : ℚ) ^ e := mul_le_mul_of_nonneg_left hGe (by positivity)
        _ ≤ z * (2 : ℚ) ^ e := mul_le_mul_of_nonneg_right (hz52 (by omega)) (le_of_lt hG)
        _ = x := hz
    · left
      rw [if_neg hov]
      refine ⟨_, _, rfl, by omega, hemin, by omega, ?_, hnearG, ?_⟩
      · by_cases hs : e = -1074
        · exact Or.inr hs
        · left
          have := hq52 (by omega)
          omega
      · intro habs
        apply h4
        have hl : |(m : ℚ) * (2 : ℚ) ^ e - x| = |(m : ℚ) - z| * (2 : ℚ) ^ e := by
          rw [← hz, ← sub_mul, abs_mul, abs_of_pos hG]
        rw [hl] at habs
        have : |(m : ℚ) - z| * (2 : ℚ) ^ e = 1 / 2 * (2 : ℚ) ^ e := by rw [habs]; ring
        exact mul_right_cancel₀ (ne_of_gt hG) this

/-- The rounding `F64.round` of a positive number `num / den`.  Either the
result is the binary64 number `m * 2^e` of the sign asked for, in the form
kept by this model (`m < 2^53`, `-1074 ≤ e ≤ 971`, and `2^52 ≤ m` above the
subnormal range), no number `m' * 2^e'` with `m' < 2^53` and `-1074 ≤ e'` is
nearer to `num / den`, and `m` is even when `num / den` is half a step
`2^e` away; or the result is the infinity of that sign and
`num / den` is at least `(2^53 - 1/2) * 2^971`, half a step above the largest
finite number. -/
theorem F64.round_spec (neg : Bool) (num den : Nat) (hn : 0 < num) (hd : 0 < den) :
    (∃ (m : Nat) (e : Int), F64.round neg num den = F64.fin neg m e ∧
      m < 2 ^ 53 ∧ -1074 ≤ e ∧ e ≤ 971 ∧ (2 ^ 52 ≤ m ∨ e = -1074) ∧
      (∀ (m' : Nat) (e' : Int), m' < 2 ^ 53 → -1074 ≤ e' →
        |(m : ℚ) * (2 : ℚ) ^ e - (num : ℚ) / den|
          ≤ |(m' : ℚ) * (2 : ℚ) ^ e' - (num : ℚ) / den|) ∧
      (|(m : ℚ) * (2 : ℚ) ^ e - (num : ℚ) / den| = (2 : ℚ) ^ e / 2 → m % 2 = 0)) ∨
    (F64.round neg num den = F64.inf neg ∧
      ((2 : ℚ) ^ 53 - 1 / 2) * (2 : ℚ) ^ (971 : ℤ) ≤ (num : ℚ) / den) := by
  obtain ⟨lg, he, hlo, hhi⟩ := F64.gridExp_spec num den hn hd
  obtain ⟨hd1, hz⟩ := F64.round_scale num den hd (F64.gridExp num den)
  have h := F64.round_core neg _ _ hd1 (F64.gridExp num den) lg _ he hlo hhi hz
  unfold F64.round
  rw [if_neg (by omega)]
  exact h

/-- A positive number that binary64 holds is rounded to itself. -/
theorem F64.round_exact (neg : Bool) (num den : Nat) (hn : 0 < num) (hd : 0 < den)
    (m' : Nat) (e' : Int) (hm' : m' < 2 ^ 53) (he1 : -1074 ≤ e') (he2 : e' ≤ 971)
    (hx : (num : ℚ) / den = (m' : ℚ) * (2 : ℚ) ^ e') :
    ∃ (m : Nat) (e : Int), F64.round neg num den = F64.fin neg m e ∧
      (m : ℚ) * (2 : ℚ) ^ e = (num : ℚ) / den := by
  rcases F64.round_spec neg num den hn hd with ⟨m, e, hr, _, _, _, _, hnear, _⟩ | ⟨_, hbig⟩
  · refine ⟨m, e, hr, ?_⟩
    have h := hnear m' e' hm' he1
    rw [← hx, sub_self, abs_zero] at h
    have h0 := abs_nonneg ((m : ℚ) * (2 : ℚ) ^ e - (num : ℚ) / den)
    have h1 : (m : ℚ) * (2 : ℚ) ^ e - (num : ℚ) / den = 0 :=
      abs_eq_zero.mp (le_antisymm h h0)
    linarith
  · exfalso
    have hm'q : (m' : ℚ) ≤ (2 : ℚ) ^ 53 - 1 := by
      have : m' + 1 ≤ 2 ^ 53 := hm'
      have h : ((m' + 1 : ℕ) : ℚ) ≤ ((2 ^ 53 : ℕ) : ℚ) := by exact_mod_cast this
      push_cast at h
      linarith
    have hpe : (2 : ℚ) ^ e' ≤ (2 : ℚ) ^ (971 : ℤ) :=
      (zpow_le_zpow_iff_right₀ (by norm_num)).mpr he2
    have hP : (0 : ℚ) < (2 : ℚ) ^ (971 : ℤ) := by positivity
    have hle : (m' : ℚ) * (2 : ℚ) ^ e' ≤ ((2 : ℚ) ^ 53 - 1) * (2 : ℚ) ^ (971 : ℤ) :=
      mul_le_mul hm'q hpe (by positivity) (by norm_num)
    rw [hx] at hbig
    nlinarith

/-- Go `float64(n)` is exact for an `int64` of at most 53 bits. -/
theorem F64.ofInt_exact (n : Int) (h : n.natAbs < 2 ^ 53) :
    ∃ (m : Nat) (e : Int), F64.ofInt n = F64.fin (decide (n < 0)) m e ∧
      F64.toRat (F64.ofInt n) = (n : ℚ) := by
  unfold F64.ofInt
  by_cases h0 : n = 0
  · subst h0
    refine ⟨0, -1074, by decide, ?_⟩
    have : F64.round (decide ((0 : Int) < 0)) (0 : Int).natAbs 1 = F64.fin false 0 (-1074) := by
      decide
    rw [this, F64.toRat_fin]
    simp
  · have hpos : 0 < n.natAbs := Int.natAbs_pos.mpr h0
    obtain ⟨m, e, hr, hv⟩ := F64.round_exact (decide (n < 0)) n.natAbs 1 hpos (by norm_num)
      n.natAbs 0 h (by norm_num) (by norm_num) (by simp)
    refine ⟨m, e, hr, ?_⟩
    rw [hr, F64.toRat_fin, mul_assoc, hv]
    by_cases hneg : n < 0
    · rw [decide_eq_true hneg, if_pos rfl]
      have : ((n.natAbs : ℕ) : ℤ) = -n := by omega
      have hq : ((n.natAbs : ℕ) : ℚ) = -(n : ℚ) := by
        rw [← Int.cast_natCast, this, Int.cast_neg]
      rw [hq]
      simp
    · rw [decide_eq_false hneg]
      have : ((n.natAbs : ℕ) : ℤ) = n := by omega
      have hq : ((n.natAbs : ℕ) : ℚ) = (n : ℚ) := by
        rw [← Int.cast_natCast, this]
      rw [hq]
      simp

/-- Go `x / y` on finite numbers, `y` not zero: the rounding of the exact
quotient of the two magnitudes, with the sign of the quotient. -/
theorem F64.div_fin (nx : Bool) (mx : Nat) (ex : Int) (ny : Bool) (my : Nat) (ey : Int)
    (hmy : 0 < my) :
    ∃ num den : Nat, 0 < den ∧ (0 < mx → 0 < num) ∧
      F64.div (.fin nx mx ex) (.fin ny my ey) = F64.round (xor nx ny) num den ∧
      (num : ℚ) / den = ((mx : ℚ) * (2 : ℚ) ^ ex) / ((my : ℚ) * (2 : ℚ) ^ ey) := by
  have h2 : (2 : ℚ) ≠ 0 := by norm_num
  have hmyq : (my : ℚ) ≠ 0 := by
    have : (0 : ℚ) < my := by exact_mod_cast hmy
    exact ne_of_gt this
  have hne : ¬ my = 0 := by omega
  unfold F64.div
  simp only [if_neg hne]
  by_cases hle : ey ≤ ex
  · rw [if_pos hle]
    refine ⟨_, _, hmy, fun h => by positivity, rfl, ?_⟩
    have : (2 : ℚ) ^ ex = (2 : ℚ) ^ (ex - ey) * (2 : ℚ) ^ ey := by
      rw [← zpow_add₀ h2]
      congr 1
      ring
    rw [this, zpow_two_toNat (ex - ey) (by omega)]
    push_cast
    have hp : (2 : ℚ) ^ ey ≠ 0 := by positivity
    field_simp
    ring
  · rw [if_neg hle]
    refine ⟨_, _, by positivity, fun h => h, rfl, ?_⟩
    have : (2 : ℚ) ^ ey = (2 : ℚ) ^ (ey - ex) * (2 : ℚ) ^ ex := by
      rw [← zpow_add₀ h2]
      congr 1
      ring
    rw [this, zpow_two_toNat (ey - ex) (by omega)]
    push_cast
    have hp : (2 : ℚ) ^ ex ≠ 0 := by positivity
    field_simp
    ring

/-- Go `x + y` on finite numbers other than zero: `+0` when the exact sum is
zero, and otherwise the rounding of the magnitude of the exact sum, with its
sign. -/
theorem F64.add_fin (nx : Bool) (mx : Nat) (ex : Int) (ny : Bool) (my : Nat) (ey : Int)
    (hmx : 0 < mx) (hmy : 0 < my) :
    (F64.toRat (.fin nx mx ex) + F64.toRat (.fin ny my ey) = 0 ∧
      F64.add (.fin nx mx ex) (.fin ny my ey) = F64.fin false 0 (-1074)) ∨
    (∃ num den : Nat, 0 < num ∧ 0 < den ∧
      F64.add (.fin nx mx ex) (.fin ny my ey)
        = F64.round (decide (F64.toRat (.fin nx mx ex) + F64.toRat (.fin ny my ey) < 0))
            num den ∧
      (num : ℚ) / den = |F64.toRat (.fin nx mx ex) + F64.toRat (.fin ny my ey)|) := by
  have h2 : (2 : ℚ) ≠ 0 := by norm_num
  have hx := F64.scaled_mul nx mx ex (min ex ey) (Or.inr (min_le_left _ _))
  have hy := F64.scaled_mul ny my ey (min ex ey) (Or.inr (min_le_right _ _))
  have hc : (0 : ℚ) < (2 : ℚ) ^ (min ex ey) := by positivity
  have hs : (((F64.scaled nx mx ex (min ex ey) + F64.scaled ny my ey (min ex ey) : ℤ)) : ℚ)
      * (2 : ℚ) ^ (min ex ey)
      = F64.toRat (.fin nx mx ex) + F64.toRat (.fin ny my ey) := by
    push_cast
    rw [add_mul, hx, hy]
  generalize F64.toRat (.fin nx mx ex) + F64.toRat (.fin ny my ey) = v at hs ⊢
  have h1 : ¬ (mx = 0 ∧ my = 0) := by omega
  have h3 : ¬ mx = 0 := by omega
  have h4 : ¬ my = 0 := by omega
  unfold F64.add
  simp only [if_neg h1, if_neg h3, if_neg h4]
  generalize F64.scaled nx mx ex (min ex ey) + F64.scaled ny my ey (min ex ey) = s at hs ⊢
  by_cases hs0 : s = 0
  · left
    rw [if_pos hs0]
    refine ⟨?_, rfl⟩
    rw [← hs, hs0]
    simp
  · right
    rw [if_neg hs0]
    have hsq : (s : ℚ) ≠ 0 := by exact_mod_cast hs0
    have hsign : decide (s < 0) = decide (v < 0) := by
      by_cases hneg : s < 0
      · have : (s : ℚ) < 0 := by exact_mod_cast hneg
        have hv : v < 0 := by rw [← hs]; exact mul_neg_of_neg_of_pos this hc
        rw [decide_eq_true hneg, decide_eq_true hv]
      · have : (0 : ℚ) ≤ (s : ℚ) := by exact_mod_cast (not_lt.mp hneg)
        have hv : ¬ v < 0 := by
          rw [← hs]
          exact not_lt.mpr (mul_nonneg this (le_of_lt hc))
        rw [decide_eq_false hneg, decide_eq_false hv]
    have habs : ((s.natAbs : ℕ) : ℚ) * (2 : ℚ) ^ (min ex ey) = |v| := by
      rw [← hs, abs_mul, abs_of_pos hc, Nat.cast_natAbs, Int.cast_abs]
    have hpos : 0 < s.natAbs := Int.natAbs_pos.mpr hs0
    by_cases hc0 : 0 ≤ min ex ey
    · rw [if_pos hc0, hsign]
      refine ⟨_, 1, by positivity, by norm_num, rfl, ?_⟩
      rw [← habs, zpow_two_toNat _ hc0]
      push_cast
      ring
    · rw [if_neg hc0, hsign]
      refine ⟨_, _, hpos, by positivity, rfl, ?_⟩
      rw [← habs]
      have hz := zpow_two_neg_toNat (min ex ey) (by omega)
      have hp : (0 : ℚ) < ((2 ^ (-(min ex ey)).toNat : ℕ) : ℚ) := by positivity
      rw [div_eq_iff (ne_of_gt hp), mul_assoc, hz, mul_one]

/-- The mantissa of the float64 of an integer other than zero is not zero. -/
theorem F64.ofInt_ne_zero (n : Int) (h0 : n ≠ 0) :
    (∃ (m : Nat) (e : Int), 0 < m ∧ F64.ofInt n = F64.fin (decide (n < 0)) m e) ∨
    F64.ofInt n = F64.inf (decide (n < 0)) := by
  have hpos : 0 < n.natAbs := Int.natAbs_pos.mpr h0
  unfold F64.ofInt
  rcases F64.round_spec (decide (n < 0)) n.natAbs 1 hpos (by norm_num) with
    ⟨m, e, hr, _, _, _, _, hnear, _⟩ | ⟨hr, _⟩
  · left
    refine ⟨m, e, ?_, hr⟩
    rcases Nat.eq_zero_or_pos m with hm | hm
    · exfalso
      have h := hnear 1 0 (by norm_num) (by norm_num)
      have hx : (1 : ℚ) ≤ ((n.natAbs : ℕ) : ℚ) := by exact_mod_cast hpos
      rw [hm] at h
      simp only [Nat.cast_zero, zero_mul, zero_sub, Nat.cast_one, div_one, zpow_zero, one_mul,
        abs_neg] at h
      rw [abs_of_nonneg (by linarith), abs_sub_comm, abs_of_nonneg (by linarith)] at h
      linarith
    · exact hm
  · exact Or.inr hr

/-- Go `d.Seconds()` of a whole number of seconds is the float64 of that
number. -/
theorem Duration_Seconds_whole (s : Int) :
    Duration_Seconds (s * 1000000000) = F64.ofInt s := by
  unfold Duration_Seconds
  simp only []
  rw [Int.mul_tdiv_cancel s (by norm_num), Int.mul_tmod_left]
  have hz : F64.div (F64.ofInt 0) (F64.ofInt 1000000000) = F64.fin false 0 (-1074) := by decide
  rw [hz]
  by_cases h0 : s = 0
  · subst h0
    decide
  · rcases F64.ofInt_ne_zero s h0 with ⟨m, e, hm, hr⟩ | hr
    · rw [hr]
      unfold F64.add
      have h3 : ¬ m = 0 := by omega
      simp [h3]
    · rw [hr]
      rfl

/-- The rate over a whole number of seconds that divides the difference: a
difference `k * s` below `2^53` over `s` seconds gives the rate `k`. -/
theorem rate_whole_seconds (k s : Int) (hk : 0 < k) (hs : 0 < s)
    (h : k * s < 9007199254740992) :
    roundF2I (F64.div (F64.ofInt (k * s)) (Duration_Seconds (s * 1000000000))) F64.half = k := by
  have hks : 0 < k * s := Int.mul_pos hk hs
  have hk53 : k < 9007199254740992 := by nlinarith
  have hs53 : s < 9007199254740992 := by nlinarith
  rw [Duration_Seconds_whole]
  obtain ⟨mn, en, hn, hnv⟩ := F64.ofInt_exact (k * s) (by omega)
  obtain ⟨ms, es, hsf, hsv⟩ := F64.ofInt_exact s (by omega)
  rw [decide_eq_false (by omega)] at hn hsf
  rw [hn, F64.toRat_fin] at hnv
  rw [hsf, F64.toRat_fin] at hsv
  simp only [Bool.false_eq_true, if_false, one_mul] at hnv hsv
  have hsq : (0 : ℚ) < (s : ℚ) := by exact_mod_cast hs
  have hkq : (0 : ℚ) < (k : ℚ) := by exact_mod_cast hk
  have hms : 0 < ms := by
    rcases Nat.eq_zero_or_pos ms with h0 | h0
    · rw [h0] at hsv
      simp at hsv
      linarith
    · exact h0
  have hmn : 0 < mn := by
    rcases Nat.eq_zero_or_pos mn with h0 | h0
    · rw [h0] at hnv
      simp only [Nat.cast_zero, zero_mul] at hnv
      have : (0 : ℚ) < ((k * s : ℤ) : ℚ) := by exact_mod_cast hks
      linarith
    · exact h0
  obtain ⟨num, den, hden, hnum, hdiv, hq⟩ := F64.div_fin false mn en false ms es hms
  rw [hn, hsf, hdiv]
  have hquot : (num : ℚ) / den = ((k.toNat : ℕ) : ℚ) * (2 : ℚ) ^ (0 : ℤ) := by
    rw [hq, hnv, hsv]
    have : ((k.toNat : ℕ) : ℚ) = (k : ℚ) := by
      rw [← Int.cast_natCast, Int.toNat_of_nonneg (le_of_lt hk)]
    rw [this]
    push_cast
    field_simp
  obtain ⟨m, e, hr, hv⟩ := F64.round_exact (xor false false) num den (hnum hmn) hden
    k.toNat 0 (by omega) (by norm_num) (by norm_num) hquot
  have hval : F64.toRat (F64.fin (xor false false) m e) = (k : ℚ) := by
    rw [F64.toRat_fin]
    simp only [Bool.xor_false, Bool.false_eq_true, if_false, one_mul]
    rw [hv, hq, hnv, hsv]
    push_cast
    field_simp
  rw [hr, roundF2I_fin, hval, Int.fract_intCast, Int.floor_intCast]
  rw [if_neg (by norm_num), if_pos ⟨by omega, by omega⟩]

/-! ## Basic facts -/

theorem MapStr.get_set_same (m : MapStr) (k : Str) (v : Value) : (m.set k v).get k = some v := by
  induction m with
  | nil => simp [MapStr.set, MapStr.get]
  | cons a rest ih =>
    obtain ⟨k1, v1⟩ := a
    by_cases h : k1 = k
    · simp [MapStr.set, MapStr.get, h]
    · simp [MapStr.set, MapStr.get, h, ih]

theorem MapStr.get_set_ne (m : MapStr) (k k2 : Str) (v : Value) (h : k2 ≠ k) :
    (m.set k v).get k2 = m.get k2 := by
  induction m with
  | nil => simp [MapStr.set, MapStr.get, Ne.symm h]
  | cons a rest ih =>
    obtain ⟨k1, v1⟩ := a
    by_cases h1 : k1 = k
    · subst h1
      simp [MapStr.set, MapStr.get, Ne.symm h]
    · by_cases h2 : k1 = k2
      · subst h2
        simp [MapStr.set, MapStr.get, h]
      · simp [MapStr.set, MapStr.get, h1, h2, ih]

theorem parseColumn_of_int (pf : Str → Option F64) (s : Str) (n : Int)
    (h : strconv_ParseInt s = some n) :
    parseColumn pf s = (.columnTypeInt, n, (pf s).getD F64.zero) := by
  unfold parseColumn
  cases hp : pf s <;> simp [h]

theorem parseColumn_of_float (pf : Str → Option F64) (s : Str) (q : F64)
    (h : strconv_ParseInt s = none) (hf : pf s = some q) :
    parseColumn pf s = (.columnTypeFloat, 0, q) := by
  unfold parseColumn
  simp [h, hf]

theorem parseColumn_of_string (pf : Str → Option F64) (s : Str)
    (h : strconv_ParseInt s = none) (hf : pf s = none) :
    parseColumn pf s = (.columnTypeString, 0, F64.zero) := by
  unfold parseColumn
  simp [h, hf]

theorem slaveDelay_ne_of_delta (queryType : Str)
    (hq : queryType = queryTypeSingleRow ∨ queryType = queryTypeMultipleRows) :
    queryType ≠ queryTypeSlaveDelay := by
  rcases hq with h | h <;> subst h <;> decide

/-- A delta column of a `single-row` or `multiple-rows` query whose key is
`strKey` goes through the delta block. -/
theorem columnStep_delta (pf : Str → Option F64) (bt : Mysqlbeat) (values columns : List Str)
    (queryType : Str) (rowAge : Int) (event : MapStr) (strColName strColValue strKey : Str)
    (hq : queryType = queryTypeSingleRow ∨ queryType = queryTypeMultipleRows)
    (hsuf : strings_HasSuffix strColName bt.deltaWildcard = true)
    (hkey : deltaKey bt values columns queryType strColName = .ok strKey) :
    columnStep pf values columns queryType rowAge bt event strColName strColValue =
      (.ok (observeDelta bt event strKey (eventColName bt strColName) strColValue
          (parseColumn pf strColValue).1 (parseColumn pf strColValue).2.1
          (parseColumn pf strColValue).2.2 rowAge).1,
        (observeDelta bt event strKey (eventColName bt strColName) strColValue
          (parseColumn pf strColValue).1 (parseColumn pf strColValue).2.1
          (parseColumn pf strColValue).2.2 rowAge).2) := by
  unfold columnStep
  simp [slaveDelay_ne_of_delta queryType hq, hq, hsuf, hkey]

/-- A delta column of a `two-columns` row goes through the delta block with
the column name as key. -/
theorem appendRowToEvent_delta (pf : Str → Option F64) (bt : Mysqlbeat) (event : MapStr)
    (strColName strColValue : Str) (rest : List Str) (rowAge : Int)
    (hsuf : strings_HasSuffix strColName bt.deltaWildcard = true) :
    appendRowToEvent pf bt event (.ok (strColName :: strColValue :: rest)) rowAge =
      some (.ok (observeDelta bt event strColName
          (strings_Replace strColName bt.deltaWildcard "_PERSECOND".toList) strColValue
          (parseColumn pf strColValue).1 (parseColumn pf strColValue).2.1
          (parseColumn pf strColValue).2.2 rowAge).1,
        (observeDelta bt event strColName
          (strings_Replace strColName bt.deltaWildcard "_PERSECOND".toList) strColValue
          (parseColumn pf strColValue).1 (parseColumn pf strColValue).2.1
          (parseColumn pf strColValue).2.2 rowAge).2) := by
  unfold appendRowToEvent
  simp [hsuf]

/-- The delta block on an integer value against a stored record. -/
theorem observeDelta_int (bt : Mysqlbeat) (event : MapStr) (strKey name strColValue : Str)
    (n : Int) (f : F64) (rowAge t1 : Int) (old : Value)
    (hold : bt.oldValues.get strKey = some old)
    (hage : bt.oldValuesAge.get strKey = some (.time t1)) :
    observeDelta bt event strKey name strColValue .columnTypeInt n f rowAge =
      (event.set name (.int (if n > assertInt64 (some old) then
          roundF2I (F64.div (F64.ofInt (sub64 n (assertInt64 (some old))))
            (Duration_Seconds (time_Sub rowAge t1))) F64.half else 0)),
        { bt with
          oldValues := bt.oldValues.set strKey (.int n)
          oldValuesAge := bt.oldValuesAge.set strKey (.time rowAge) }) := by
  unfold observeDelta
  simp [hold, hage]

/-- The delta block on a float value against a stored record. -/
theorem observeDelta_float (bt : Mysqlbeat) (event : MapStr) (strKey name strColValue : Str)
    (n : Int) (f : F64) (rowAge t1 : Int) (old : Value)
    (hold : bt.oldValues.get strKey = some old)
    (hage : bt.oldValuesAge.get strKey = some (.time t1)) :
    observeDelta bt event strKey name strColValue .columnTypeFloat n f rowAge =
      (event.set name (.float (if F64.lt (assertFloat64 (some old)) f = true then
          F64.div (F64.sub f (assertFloat64 (some old))) (Duration_Seconds (time_Sub rowAge t1))
          else F64.zero)),
        { bt with
          oldValues := bt.oldValues.set strKey (.float f)
          oldValuesAge := bt.oldValuesAge.set strKey (.time rowAge) }) := by
  unfold observeDelta
  simp [hold, hage]

/-- The delta block on a text value against a stored record. -/
theorem observeDelta_string (bt : Mysqlbeat) (event : MapStr) (strKey name strColValue : Str)
    (n : Int) (f : F64) (rowAge t1 : Int) (old : Value)
    (hold : bt.oldValues.get strKey = some old)
    (hage : bt.oldValuesAge.get strKey = some (.time t1)) :
    observeDelta bt event strKey name strColValue .columnTypeString n f rowAge =
      (event.set name (.str strColValue), bt) := by
  unfold observeDelta
  simp [hold, hage]

/-- The delta block on a key without a record. -/
theorem observeDelta_first (bt : Mysqlbeat) (event : MapStr) (strKey name strColValue : Str)
    (ty : ColumnType) (n : Int) (f : F64) (rowAge : Int)
    (hnone : bt.oldValues.get strKey = none) :
    observeDelta bt event strKey name strColValue ty n f rowAge =
      (event, { bt with
        oldValuesAge := bt.oldValuesAge.set strKey (.time rowAge)
        oldValues := bt.oldValues.set strKey (typedValue ty strColValue n f) }) := by
  unfold observeDelta
  simp [hnone]

theorem columnLoop_cons (pf : Str → Option F64) (values columns : List Str) (queryType : Str)
    (rowAge : Int) (c v : Str) (rest : List (Str × Str)) (bt : Mysqlbeat) (event : MapStr) :
    columnLoop pf values columns queryType rowAge ((c, v) :: rest) bt event =
      match columnStep pf values columns queryType rowAge bt event c v with
      | (.error e, bt1) => (.error e, bt1)
      | (.ok event1, bt1) => columnLoop pf values columns queryType rowAge rest bt1 event1 := rfl

/-- Unfolding of `generateEventFromRow` on a row of one column. -/
theorem generateEventFromRow_one_column (pf : Str → Option F64) (bt : Mysqlbeat) (c v qt : Str)
    (t : Int) :
    generateEventFromRow pf bt (.ok [v]) [c] qt t =
      match columnStep pf [v] [c] qt t bt
          [("@timestamp".toList, .time t), ("type".toList, .str qt)] c v with
      | (.error e, b) => (.error e, b)
      | (.ok ev, b) => (.ok (if ev.len = 2 then none else some ev), b) := by
  unfold generateEventFromRow
  simp only [List.zip_cons_cons, List.zip_nil_right, columnLoop_cons]
  cases h : columnStep pf [v] [c] qt t bt
          [("@timestamp".toList, .time t), ("type".toList, .str qt)] c v with
  | mk r b =>
    cases r <;> simp [columnLoop]

theorem getKeyLoop_congr (bt bt2 : Mysqlbeat) (h : bt.deltaKeyWildcard = bt2.deltaKeyWildcard)
    (l : List (Str × Str)) (acc : Str × Bool) : getKeyLoop bt l acc = getKeyLoop bt2 l acc := by
  induction l generalizing acc with
  | nil => rfl
  | cons a rest ih =>
    obtain ⟨c, v⟩ := a
    obtain ⟨k, f⟩ := acc
    simp [getKeyLoop, h, ih]

theorem deltaKey_congr (bt bt2 : Mysqlbeat) (h : bt.deltaKeyWildcard = bt2.deltaKeyWildcard)
    (values columns : List Str) (queryType strColName : Str) :
    deltaKey bt values columns queryType strColName
      = deltaKey bt2 values columns queryType strColName := by
  unfold deltaKey getKeyFromRow
  rw [getKeyLoop_congr bt bt2 h]

/-! ## Claims -/

/-- C1 (integer delta rule).  A delta column of `generateEventFromRow`
(query type single-row or multiple-rows, delta key `strKey`) or of
`appendRowToEvent` (key: the column name) whose key has the stored int64
value `old` observed at `t1`, and whose new text parses to the integer `n` at
`t2 > t1`: the step succeeds and the event field under the renamed column is
`roundF2I((n - old)/dt, 0.5)` when `n > old` and `0` otherwise.  The
quotient is the one that the source computes: `n - old` is the int64
subtraction, which is the difference of the integers whenever
`n - old < 2^63`; it is converted to float64 and divided, in float64, by
`dt = (t2 - t1).Seconds()`, where `t2 - t1` is the difference of the times
whenever it is below `2^63` nanoseconds. -/
theorem C1_integer_delta_rule (pf : Str → Option F64) (bt : Mysqlbeat) (values columns : List Str)
    (queryType : Str) (event : MapStr) (strColName strColValue strKey : Str) (rest : List Str)
    (n old t1 t2 : Int)
    (hsuf : strings_HasSuffix strColName bt.deltaWildcard = true)
    (hn : strconv_ParseInt strColValue = some n)
    (hdt : t1 < t2)
    (hold : bt.oldValues.get strKey = some (.int old))
    (hage : bt.oldValuesAge.get strKey = some (.time t1)) :
    ((queryType = queryTypeSingleRow ∨ queryType = queryTypeMultipleRows) →
      deltaKey bt values columns queryType strColName = .ok strKey →
      ∃ event1 bt1,
        columnStep pf values columns queryType t2 bt event strColName strColValue
          = (.ok event1, bt1) ∧
        event1.get (eventColName bt strColName) = some (.int
          (if n > old then
            roundF2I (F64.div (F64.ofInt (sub64 n old)) (Duration_Seconds (time_Sub t2 t1)))
              F64.half
          else 0))) ∧
    (strKey = strColName →
      ∃ event1 bt1,
        appendRowToEvent pf bt event (.ok (strColName :: strColValue :: rest)) t2
          = some (.ok event1, bt1) ∧
        event1.get (strings_Replace strColName bt.deltaWildcard "_PERSECOND".toList)
          = some (.int
          (if n > old then
            roundF2I (F64.div (F64.ofInt (sub64 n old)) (Duration_Seconds (time_Sub t2 t1)))
              F64.half
          else 0))) ∧
    (old < n → n - old < 2 ^ 63 → sub64 n old = n - old) ∧
    (t2 - t1 < 2 ^ 63 → time_Sub t2 t1 = t2 - t1) := by
  refine ⟨?_, ?_, ?_, ?_⟩
  · intro hq hkey
    refine ⟨_, _, columnStep_delta pf bt values columns queryType t2 event strColName
      strColValue strKey hq hsuf hkey, ?_⟩
    rw [parseColumn_of_int pf strColValue n hn]
    simp only []
    rw [observeDelta_int bt event strKey _ strColValue n _ t2 t1 (.int old) hold hage]
    simp [MapStr.get_set_same, assertInt64]
  · intro hk
    subst hk
    refine ⟨_, _, appendRowToEvent_delta pf bt event strKey strColValue rest t2 hsuf, ?_⟩
    rw [parseColumn_of_int pf strColValue n hn]
    simp only []
    rw [observeDelta_int bt event strKey _ strColValue n _ t2 t1 (.int old) hold hage]
    simp [MapStr.get_set_same, assertInt64]
  · intro h1 h2
    unfold sub64 wrap64
    omega
  · intro h
    unfold time_Sub
    omega

theorem scenarioA_rate :
    (if (170 : Int) > 120 then
      roundF2I (F64.div (F64.ofInt (sub64 170 120)) (Duration_Seconds (time_Sub 10000000000 0)))
        F64.half
    else 0) = 5 := by
  decide

/-- Scenario A, second cycle: `generateEventFromRow` on the row
`count = "120"`, `count__DELTA = "170"` at `t = 10 s`. -/
theorem scenarioA_second_cycle :
    (generateEventFromRow sampleParseFloat scenarioABeat (.ok ["120".toList, "170".toList])
      scenarioAColumns queryTypeSingleRow 10000000000).1 =
      .ok (some [("@timestamp".toList, .time 10000000000),
        ("type".toList, .str queryTypeSingleRow), ("count".toList, .int 120),
        ("count_PERSECOND".toList, .int 5)]) := by
  decide

/-- Witness of C1, Scenario A: the stored value 120 of `t = 0` and the new
value 170 at `t = 10 s` give `count_PERSECOND = 5`, in the column step, in
`appendRowToEvent`, and in the two cycles of `generateEventFromRow`.  The
quotient is a float64 one: a counter that goes from 0 to 81 in 10.8 s gives
7, the float64 quotient being just below 7.5, and one that goes from 0 to
`9 * 10^18` in half a second gives the smallest int64. -/
theorem C1_integer_delta_rule_witness :
    strings_HasSuffix "count__DELTA".toList scenarioABeat.deltaWildcard = true ∧
    strconv_ParseInt "170".toList = some 170 ∧
    (0 : Int) < 10000000000 ∧
    scenarioABeat.oldValues.get "count__DELTA".toList = some (.int 120) ∧
    scenarioABeat.oldValuesAge.get "count__DELTA".toList = some (.time 0) ∧
    (∃ event1 bt1,
      columnStep sampleParseFloat ["120".toList, "170".toList] scenarioAColumns
        queryTypeSingleRow 10000000000 scenarioABeat
        [("@timestamp".toList, .time 10000000000), ("type".toList, .str queryTypeSingleRow),
          ("count".toList, .int 120)]
        "count__DELTA".toList "170".toList = (.ok event1, bt1) ∧
      event1.get "count_PERSECOND".toList = some (.int 5)) ∧
    (∃ event1 bt1,
      appendRowToEvent sampleParseFloat scenarioABeat
        [("@timestamp".toList, .time 10000000000), ("type".toList, .str queryTypeTwoColumns)]
        (.ok ["count__DELTA".toList, "170".toList]) 10000000000 = some (.ok event1, bt1) ∧
      event1.get "count_PERSECOND".toList = some (.int 5)) ∧
    (generateEventFromRow sampleParseFloat sampleBeat (.ok ["120".toList, "120".toList])
      scenarioAColumns queryTypeSingleRow 0).1 =
      .ok (some [("@timestamp".toList, .time 0), ("type".toList, .str queryTypeSingleRow),
        ("count".toList, .int 120)]) ∧
    (generateEventFromRow sampleParseFloat scenarioABeat (.ok ["120".toList, "170".toList])
      scenarioAColumns queryTypeSingleRow 10000000000).1 =
      .ok (some [("@timestamp".toList, .time 10000000000),
        ("type".toList, .str queryTypeSingleRow), ("count".toList, .int 120),
        ("count_PERSECOND".toList, .int 5)]) ∧
    roundF2I (F64.div (F64.ofInt (sub64 81 0)) (Duration_Seconds (time_Sub 10800000000 0)))
      F64.half = 7 ∧
    roundF2I (F64.div (F64.ofInt (sub64 9000000000000000000 0))
      (Duration_Seconds (time_Sub 500000000 0))) F64.half = -9223372036854775808 := by
  have h := C1_integer_delta_rule sampleParseFloat scenarioABeat
    ["120".toList, "170".toList] scenarioAColumns queryTypeSingleRow
    [("@timestamp".toList, .time 10000000000), ("type".toList, .str queryTypeSingleRow),
      ("count".toList, .int 120)]
    "count__DELTA".toList "170".toList "count__DELTA".toList [] 170 120 0 10000000000
    (by decide) (by decide) (by decide) (by decide) (by decide)
  have h2 := C1_integer_delta_rule sampleParseFloat scenarioABeat
    ["120".toList, "170".toList] scenarioAColumns queryTypeSingleRow
    [("@timestamp".toList, .time 10000000000), ("type".toList, .str queryTypeTwoColumns)]
    "count__DELTA".toList "170".toList "count__DELTA".toList [] 170 120 0 10000000000
    (by decide) (by decide) (by decide) (by decide) (by decide)
  have hname : eventColName scenarioABeat "count__DELTA".toList = "count_PERSECOND".toList := by
    decide
  have hname2 : strings_Replace "count__DELTA".toList scenarioABeat.deltaWildcard
      "_PERSECOND".toList = "count_PERSECOND".toList := by decide
  refine ⟨by decide, by decide, by decide, by decide, by decide, ?_, ?_, by decide,
    scenarioA_second_cycle, by decide, by decide⟩
  · obtain ⟨e, b, he, hg⟩ := h.1 (Or.inl rfl) (by decide)
    rw [scenarioA_rate, hname] at hg
    exact ⟨e, b, he, hg⟩
  · obtain ⟨e, b, he, hg⟩ := h2.2.1 rfl
    rw [scenarioA_rate, hname2] at hg
    exact ⟨e, b, he, hg⟩

/-- C3 (first observation).  A delta column of `generateEventFromRow`
(single-row or multiple-rows, delta key `strKey`) or of `appendRowToEvent`
(key: the column name) whose key has no record in `oldValues`: the typed
value and the row timestamp are stored under the key and the event is
returned as it was, with no field for the column. -/
theorem C3_first_observation (pf : Str → Option F64) (bt : Mysqlbeat) (values columns : List Str)
    (queryType : Str) (event : MapStr) (strColName strColValue strKey : Str) (rest : List Str)
    (rowAge : Int)
    (hsuf : strings_HasSuffix strColName bt.deltaWildcard = true)
    (hnone : bt.oldValues.get strKey = none) :
    ((queryType = queryTypeSingleRow ∨ queryType = queryTypeMultipleRows) →
      deltaKey bt values columns queryType strColName = .ok strKey →
      ∃ bt1,
        columnStep pf values columns queryType rowAge bt event strColName strColValue
          = (.ok event, bt1) ∧
        bt1.oldValues.get strKey = some (inferredValue pf strColValue) ∧
        bt1.oldValuesAge.get strKey = some (.time rowAge)) ∧
    (strKey = strColName →
      ∃ bt1,
        appendRowToEvent pf bt event (.ok (strColName :: strColValue :: rest)) rowAge
          = some (.ok event, bt1) ∧
        bt1.oldValues.get strKey = some (inferredValue pf strColValue) ∧
        bt1.oldValuesAge.get strKey = some (.time rowAge)) := by
  refine ⟨?_, ?_⟩
  · intro hq hkey
    rw [columnStep_delta pf bt values columns queryType rowAge event strColName
      strColValue strKey hq hsuf hkey, observeDelta_first bt event strKey _ strColValue _ _ _
      rowAge hnone]
    exact ⟨_, rfl, MapStr.get_set_same _ _ _, MapStr.get_set_same _ _ _⟩
  · intro hk
    subst hk
    rw [appendRowToEvent_delta pf bt event strKey strColValue rest rowAge hsuf,
      observeDelta_first bt event strKey _ strColValue _ _ _ rowAge hnone]
    exact ⟨_, rfl, MapStr.get_set_same _ _ _, MapStr.get_set_same _ _ _⟩

/-- Witness of C3: the first cycle of Scenario A stores `(120, t = 0)` for
`count__DELTA` and adds no field. -/
theorem C3_first_observation_witness :
    strings_HasSuffix "count__DELTA".toList sampleBeat.deltaWildcard = true ∧
    sampleBeat.oldValues.get "count__DELTA".toList = none ∧
    (∃ bt1,
      columnStep sampleParseFloat ["120".toList, "120".toList] scenarioAColumns
        queryTypeSingleRow 0 sampleBeat
        [("@timestamp".toList, .time 0), ("type".toList, .str queryTypeSingleRow),
          ("count".toList, .int 120)]
        "count__DELTA".toList "120".toList
        = (.ok [("@timestamp".toList, .time 0), ("type".toList, .str queryTypeSingleRow),
          ("count".toList, .int 120)], bt1) ∧
      bt1.oldValues.get "count__DELTA".toList = some (.int 120) ∧
      bt1.oldValuesAge.get "count__DELTA".toList = some (.time 0)) ∧
    (∃ bt1,
      appendRowToEvent sampleParseFloat sampleBeat
        [("@timestamp".toList, .time 0), ("type".toList, .str queryTypeTwoColumns)]
        (.ok ["count__DELTA".toList, "120".toList]) 0
        = some (.ok [("@timestamp".toList, .time 0), ("type".toList, .str queryTypeTwoColumns)],
          bt1) ∧
      bt1.oldValues.get "count__DELTA".toList = some (.int 120) ∧
      bt1.oldValuesAge.get "count__DELTA".toList = some (.time 0)) := by
  have hv : inferredValue sampleParseFloat "120".toList = .int 120 := by decide
  have h := C3_first_observation sampleParseFloat sampleBeat ["120".toList, "120".toList]
    scenarioAColumns queryTypeSingleRow
    [("@timestamp".toList, .time 0), ("type".toList, .str queryTypeSingleRow),
      ("count".toList, .int 120)]
    "count__DELTA".toList "120".toList "count__DELTA".toList [] 0 (by decide) (by decide)
  have h2 := C3_first_observation sampleParseFloat sampleBeat ["120".toList, "120".toList]
    scenarioAColumns queryTypeSingleRow
    [("@timestamp".toList, .time 0), ("type".toList, .str queryTypeTwoColumns)]
    "count__DELTA".toList "120".toList "count__DELTA".toList [] 0 (by decide) (by decide)
  rw [hv] at h h2
  exact ⟨by decide, by decide, h.1 (Or.inl rfl) (by decide), h2.2 rfl⟩

theorem floor_int_add_half (N : ℤ) : ⌊(N : ℚ) + 1 / 2⌋ = N := by
  rw [Int.floor_eq_iff]
  constructor <;> linarith

theorem ceil_int_add_half (N : ℤ) : ⌈(N : ℚ) + 1 / 2⌉ = N + 1 := by
  rw [Int.ceil_eq_iff]
  push_cast
  constructor <;> linarith

theorem fract_int_add_half (N : ℤ) : Int.fract ((N : ℚ) + 1 / 2) = 1 / 2 := by
  unfold Int.fract
  rw [floor_int_add_half]
  ring

/-- Counterexample to C5 as stated.  The float64 `1e19` is not negative and
its fractional part is zero, below one half, so the claim gives
`floor(1e19) = 10^19`; `roundF2I(1e19, 0.5)` is the smallest int64, the
result of the conversion `int64(round)` of a number that int64 does not
hold. -/
theorem C5_counterexample :
    F64.ofInt 10000000000000000000 = .fin false 4882812500000000 11 ∧
    F64.toRat (.fin false 4882812500000000 11) = 10000000000000000000 ∧
    ⌊F64.toRat (.fin false 4882812500000000 11)⌋ = 10000000000000000000 ∧
    Int.fract (F64.toRat (.fin false 4882812500000000 11)) < 1 / 2 ∧
    roundF2I (.fin false 4882812500000000 11) F64.half = -9223372036854775808 ∧
    roundF2I (.fin false 4882812500000000 11) F64.half
      ≠ ⌊F64.toRat (.fin false 4882812500000000 11)⌋ := by
  have hq : F64.toRat (.fin false 4882812500000000 11) = ((10000000000000000000 : ℤ) : ℚ) := by
    rw [F64.toRat_fin]
    norm_num
  have hfl : ⌊F64.toRat (.fin false 4882812500000000 11)⌋ = 10000000000000000000 := by
    rw [hq, Int.floor_intCast]
  have hr : roundF2I (.fin false 4882812500000000 11) F64.half = -9223372036854775808 := by
    decide
  refine ⟨by decide, by rw [hq]; norm_num, hfl, ?_, hr, ?_⟩
  · rw [hq, Int.fract_intCast]
    norm_num
  · rw [hr, hfl]
    decide

/-- C5 as amended (rounding within the range of int64).  For a finite
float64 `val` of value `q`: `roundF2I(val, 0.5)` sends `q = N + 1/2` to
`N + 1` for every integer `N ≥ 0` with `N + 1 < 2^63` and to `N` for every
integer `N < 0` with `-2^63 ≤ N` (away from zero in both cases), and sends a
non-negative `q` to `floor(q)` when its fractional part is below `1/2` and
to `ceil(q)` otherwise, as long as that integer is below `2^63`. -/
theorem C5_roundF2I_in_range (neg : Bool) (m : Nat) (e : Int) :
    (∀ N : ℤ, 0 ≤ N → N + 1 < 9223372036854775808 →
      F64.toRat (.fin neg m e) = (N : ℚ) + 1 / 2 →
      roundF2I (.fin neg m e) F64.half = N + 1) ∧
    (∀ N : ℤ, N < 0 → -9223372036854775808 ≤ N →
      F64.toRat (.fin neg m e) = (N : ℚ) + 1 / 2 →
      roundF2I (.fin neg m e) F64.half = N) ∧
    (0 ≤ F64.toRat (.fin neg m e) → ⌊F64.toRat (.fin neg m e)⌋ < 9223372036854775808 →
      Int.fract (F64.toRat (.fin neg m e)) < 1 / 2 →
      roundF2I (.fin neg m e) F64.half = ⌊F64.toRat (.fin neg m e)⌋) ∧
    (0 ≤ F64.toRat (.fin neg m e) → ⌈F64.toRat (.fin neg m e)⌉ < 9223372036854775808 →
      1 / 2 ≤ Int.fract (F64.toRat (.fin neg m e)) →
      roundF2I (.fin neg m e) F64.half = ⌈F64.toRat (.fin neg m e)⌉) := by
  refine ⟨?_, ?_, ?_, ?_⟩
  · intro N hN hlt hq
    have h0 : (0 : ℚ) ≤ (N : ℚ) + 1 / 2 := by
      have : (0 : ℚ) ≤ (N : ℚ) := by exact_mod_cast hN
      linarith
    rw [roundF2I_fin, hq, fract_int_add_half, ceil_int_add_half, if_pos ⟨h0, le_refl _⟩,
      if_pos ⟨by omega, hlt⟩]
  · intro N hN hge hq
    have h0 : ¬ (0 : ℚ) ≤ (N : ℚ) + 1 / 2 := by
      have : (N : ℚ) ≤ -1 := by exact_mod_cast (by omega : N ≤ -1)
      intro hc
      linarith
    rw [roundF2I_fin, hq, floor_int_add_half, if_neg (fun hc => h0 hc.1),
      if_pos ⟨hge, by omega⟩]
  · intro h0 hlt hfr
    have hfl : (0 : ℤ) ≤ ⌊F64.toRat (.fin neg m e)⌋ := Int.floor_nonneg.mpr h0
    rw [roundF2I_fin, if_neg (fun hc => absurd hc.2 (not_le.mpr hfr)),
      if_pos ⟨by omega, hlt⟩]
  · intro h0 hlt hfr
    have hcl : (0 : ℤ) ≤ ⌈F64.toRat (.fin neg m e)⌉ := Int.ceil_nonneg h0
    rw [roundF2I_fin, if_pos ⟨h0, hfr⟩, if_pos ⟨by omega, hlt⟩]

/-- Witness of C5 as amended: `2.5 ↦ 3`, `-1.5 ↦ -2`, `2.25 ↦ 2`,
`2.75 ↦ 3`, on the float64 values of these numbers. -/
theorem C5_roundF2I_in_range_witness :
    F64.round false 5 2 = .fin false 5629499534213120 (-51) ∧
    F64.toRat (.fin false 5629499534213120 (-51)) = ((2 : ℤ) : ℚ) + 1 / 2 ∧
    roundF2I (.fin false 5629499534213120 (-51)) F64.half = 2 + 1 ∧
    F64.round true 3 2 = .fin true 6755399441055744 (-52) ∧
    F64.toRat (.fin true 6755399441055744 (-52)) = ((-2 : ℤ) : ℚ) + 1 / 2 ∧
    roundF2I (.fin true 6755399441055744 (-52)) F64.half = -2 ∧
    F64.round false 9 4 = .fin false 5066549580791808 (-51) ∧
    roundF2I (.fin false 5066549580791808 (-51)) F64.half
      = ⌊F64.toRat (.fin false 5066549580791808 (-51))⌋ ∧
    ⌊F64.toRat (.fin false 5066549580791808 (-51))⌋ = 2 ∧
    F64.round false 11 4 = .fin false 6192449487634432 (-51) ∧
    roundF2I (.fin false 6192449487634432 (-51)) F64.half
      = ⌈F64.toRat (.fin false 6192449487634432 (-51))⌉ ∧
    ⌈F64.toRat (.fin false 6192449487634432 (-51))⌉ = 3 := by
  have q1 : F64.toRat (.fin false 5629499534213120 (-51)) = ((2 : ℤ) : ℚ) + 1 / 2 := by
    rw [F64.toRat_fin]
    norm_num
  have q2 : F64.toRat (.fin true 6755399441055744 (-52)) = ((-2 : ℤ) : ℚ) + 1 / 2 := by
    rw [F64.toRat_fin]
    norm_num
  have q3 : F64.toRat (.fin false 5066549580791808 (-51)) = 9 / 4 := by
    rw [F64.toRat_fin]
    norm_num
  have q4 : F64.toRat (.fin false 6192449487634432 (-51)) = 11 / 4 := by
    rw [F64.toRat_fin]
    norm_num
  have f3 : ⌊(9 / 4 : ℚ)⌋ = 2 := by
    rw [Int.floor_eq_iff]
    norm_num
  have f4 : ⌊(11 / 4 : ℚ)⌋ = 2 := by
    rw [Int.floor_eq_iff]
    norm_num
  have c4 : ⌈(11 / 4 : ℚ)⌉ = 3 := by
    rw [Int.ceil_eq_iff]
    norm_num
  refine ⟨by decide,
    q1,
    (C5_roundF2I_in_range false 5629499534213120 (-51)).1 2 (by decide) (by decide) q1,
    by decide,
    q2,
    (C5_roundF2I_in_range true 6755399441055744 (-52)).2.1 (-2) (by decide) (by decide) q2,
    by decide,
    (C5_roundF2I_in_range false 5066549580791808 (-51)).2.2.1 ?_ ?_ ?_,
    by rw [q3, f3],
    by decide,
    (C5_roundF2I_in_range false 6192449487634432 (-51)).2.2.2 ?_ ?_ ?_,
    by rw [q4, c4]⟩
  · rw [q3]
    norm_num
  · rw [q3, f3]
    decide
  · rw [q3]
    unfold Int.fract
    rw [f3]
    norm_num
  · rw [q4]
    norm_num
  · rw [q4, c4]
    decide
  · rw [q4]
    unfold Int.fract
    rw [f4]
    norm_num

/-- C6 (type inference).  A column text is classified integer exactly when
`strconv.ParseInt(text, 0, 64)` succeeds, float exactly when that fails and
the float parse succeeds, and string exactly when both fail; the typed value
is the parsed integer, the parsed float, or the text.  The base prefix is
honoured: `"0x10"` is the integer 16 and `"010"` the integer 8; `"10"`,
which both parsers accept, is the integer 10 and never a float. -/
theorem C6_type_inference (pf : Str → Option F64) (s : Str) :
    ((parseColumn pf s).1 = .columnTypeInt ↔ (strconv_ParseInt s).isSome = true) ∧
    ((parseColumn pf s).1 = .columnTypeFloat ↔
      (strconv_ParseInt s = none ∧ (pf s).isSome = true)) ∧
    ((parseColumn pf s).1 = .columnTypeString ↔ (strconv_ParseInt s = none ∧ pf s = none)) ∧
    (∀ n, strconv_ParseInt s = some n → inferredValue pf s = .int n) ∧
    (∀ q, strconv_ParseInt s = none → pf s = some q → inferredValue pf s = .float q) ∧
    (strconv_ParseInt s = none → pf s = none → inferredValue pf s = .str s) ∧
    inferredValue pf "0x10".toList = .int 16 ∧
    inferredValue pf "010".toList = .int 8 ∧
    inferredValue pf "10".toList = .int 10 ∧
    (parseColumn pf "10".toList).1 ≠ .columnTypeFloat := by
  have hi : ∀ t n, strconv_ParseInt t = some n → inferredValue pf t = .int n := by
    intro t n hn
    unfold inferredValue
    rw [parseColumn_of_int pf t n hn]
    rfl
  refine ⟨?_, ?_, ?_, hi s, ?_, ?_, hi _ 16 (by decide), hi _ 8 (by decide),
    hi _ 10 (by decide), ?_⟩
  · unfold parseColumn
    cases h1 : strconv_ParseInt s <;> cases h2 : pf s <;> simp
  · unfold parseColumn
    cases h1 : strconv_ParseInt s <;> cases h2 : pf s <;> simp
  · unfold parseColumn
    cases h1 : strconv_ParseInt s <;> cases h2 : pf s <;> simp
  · intro q h1 h2
    unfold inferredValue
    rw [parseColumn_of_float pf s q h1 h2]
    rfl
  · intro h1 h2
    unfold inferredValue
    rw [parseColumn_of_string pf s h1 h2]
    rfl
  · rw [parseColumn_of_int pf _ 10 (by decide)]
    simp

/-- Witness of C6 on the text `"1.5"`, which only the float parser accepts,
and on `"abc"`, which neither accepts. -/
theorem C6_type_inference_witness :
    strconv_ParseInt "1.5".toList = none ∧
    sampleParseFloat "1.5".toList = some (F64.round false 3 2) ∧
    inferredValue sampleParseFloat "1.5".toList = .float (F64.round false 3 2) ∧
    strconv_ParseInt "abc".toList = none ∧ sampleParseFloat "abc".toList = none ∧
    inferredValue sampleParseFloat "abc".toList = .str "abc".toList := by
  have h15 : sampleParseFloat "1.5".toList = some (F64.round false 3 2) := by decide
  exact ⟨by decide, h15,
    (C6_type_inference sampleParseFloat "1.5".toList).2.2.2.2.1 (F64.round false 3 2)
      (by decide) h15,
    by decide, by decide,
    (C6_type_inference sampleParseFloat "abc".toList).2.2.2.2.2.1 (by decide) (by decide)⟩

/-- C2 (the code at the failing input).  (1) `v__DELTA` is first observed as
the float 1.5 at `t = 0` and then as the integer 10 at `t = 1 s`: the
reported rate is 10, the rate against 0, not `(10 - 1.5)/1 = 8.5` up to
rounding.  (2) It is first observed as the float 7.5 and then as the integer
5, a smaller value: the reported rate is 5, not 0.  In both the stored
float is read with a type assertion to int64, which gives 0. -/
theorem C2_mixed_types_rate :
    generateEventFromRow sampleParseFloat sampleBeat (.ok ["1.5".toList]) deltaColumn
      queryTypeSingleRow 0 = (.ok none, beatAfterFloat) ∧
    beatAfterFloat.oldValues.get "v__DELTA".toList
      = some (.float (.fin false 6755399441055744 (-52))) ∧
    F64.toRat (.fin false 6755399441055744 (-52)) = 3 / 2 ∧
    assertInt64 (beatAfterFloat.oldValues.get "v__DELTA".toList) = 0 ∧
    (generateEventFromRow sampleParseFloat beatAfterFloat (.ok ["10".toList]) deltaColumn
      queryTypeSingleRow 1000000000).1 =
      .ok (some [("@timestamp".toList, .time 1000000000),
        ("type".toList, .str queryTypeSingleRow), ("v_PERSECOND".toList, .int 10)]) ∧
    ¬ (|((10 : Int) : ℚ) - ((10 : ℚ) - 3 / 2) / 1| < 1) ∧
    generateEventFromRow sampleParseFloat sampleBeat (.ok ["7.5".toList]) deltaColumn
      queryTypeSingleRow 0 = (.ok none, beatAfterFloat7) ∧
    beatAfterFloat7.oldValues.get "v__DELTA".toList
      = some (.float (.fin false 8444249301319680 (-50))) ∧
    F64.toRat (.fin false 8444249301319680 (-50)) = 15 / 2 ∧
    (generateEventFromRow sampleParseFloat beatAfterFloat7 (.ok ["5".toList]) deltaColumn
      queryTypeSingleRow 1000000000).1 =
      .ok (some [("@timestamp".toList, .time 1000000000),
        ("type".toList, .str queryTypeSingleRow), ("v_PERSECOND".toList, .int 5)]) := by
  refine ⟨by decide, by decide, ?_, by decide, by decide, ?_, by decide, by decide, ?_,
    by decide⟩
  · rw [F64.toRat_fin]
    norm_num
  · norm_num
    rw [abs_of_nonneg (by norm_num)]
    norm_num
  · rw [F64.toRat_fin]
    norm_num

/-- The rate of a key observed twice with the same numeric type.  A key with
no record is first observed through a delta column of `generateEventFromRow`
at `t1` and observed again at `t2`.  The first step adds no field.  If both
texts are integers `v1`, `v2`, the second step reports the rate 0 when
`v2 ≤ v1` and otherwise `roundF2I` of the float64 quotient of `v2 - v1`
(int64 subtraction) by `(t2 - t1).Seconds()`.  If both texts are floats, it
reports the float 0 unless `v1 < v2`, and then the float64 quotient of the
float64 difference `v2 - v1` by `(t2 - t1).Seconds()`. -/
theorem rate_same_type (pf : Str → Option F64) (bt : Mysqlbeat)
    (values1 values2 columns : List Str) (queryType : Str) (event1 event2 : MapStr)
    (strColName text1 text2 strKey : Str) (t1 t2 : Int)
    (hq : queryType = queryTypeSingleRow ∨ queryType = queryTypeMultipleRows)
    (hsuf : strings_HasSuffix strColName bt.deltaWildcard = true)
    (hkey1 : deltaKey bt values1 columns queryType strColName = .ok strKey)
    (hkey2 : deltaKey bt values2 columns queryType strColName = .ok strKey)
    (hnone : bt.oldValues.get strKey = none) :
    ∃ bt1,
      columnStep pf values1 columns queryType t1 bt event1 strColName text1 = (.ok event1, bt1) ∧
      (∀ v1 v2 : Int, strconv_ParseInt text1 = some v1 → strconv_ParseInt text2 = some v2 →
        ∃ ev bt2,
          columnStep pf values2 columns queryType t2 bt1 event2 strColName text2 = (.ok ev, bt2) ∧
          ev.get (eventColName bt strColName) = some (.int
            (if v2 > v1 then
              roundF2I (F64.div (F64.ofInt (sub64 v2 v1)) (Duration_Seconds (time_Sub t2 t1)))
                F64.half
            else 0))) ∧
      (∀ v1 v2 : F64, strconv_ParseInt text1 = none → pf text1 = some v1 →
        strconv_ParseInt text2 = none → pf text2 = some v2 →
        ∃ ev bt2,
          columnStep pf values2 columns queryType t2 bt1 event2 strColName text2 = (.ok ev, bt2) ∧
          ev.get (eventColName bt strColName) = some (.float
            (if F64.lt v1 v2 = true then
              F64.div (F64.sub v2 v1) (Duration_Seconds (time_Sub t2 t1))
            else F64.zero))) := by
  have hstep1 := columnStep_delta pf bt values1 columns queryType t1 event1 strColName
    text1 strKey hq hsuf hkey1
  rw [observeDelta_first bt event1 strKey _ text1 _ _ _ t1 hnone] at hstep1
  refine ⟨_, hstep1, ?_, ?_⟩
  · intro v1 v2 h1 h2
    have hstep2 := columnStep_delta pf
      { bt with
        oldValuesAge := bt.oldValuesAge.set strKey (.time t1)
        oldValues := bt.oldValues.set strKey (typedValue (parseColumn pf text1).1 text1
          (parseColumn pf text1).2.1 (parseColumn pf text1).2.2) }
      values2 columns queryType t2 event2 strColName text2 strKey hq hsuf
      (by rw [← hkey2]; apply deltaKey_congr; rfl)
    rw [parseColumn_of_int pf text2 v2 h2, parseColumn_of_int pf text1 v1 h1] at hstep2
    simp only [typedValue] at hstep2
    rw [observeDelta_int _ event2 strKey _ text2 v2 _ t2 t1 (.int v1)
      (MapStr.get_set_same _ _ _) (MapStr.get_set_same _ _ _)] at hstep2
    rw [parseColumn_of_int pf text1 v1 h1]
    simp only [typedValue]
    exact ⟨_, _, hstep2, MapStr.get_set_same _ _ _⟩
  · intro v1 v2 h1 hf1 h2 hf2
    have hstep2 := columnStep_delta pf
      { bt with
        oldValuesAge := bt.oldValuesAge.set strKey (.time t1)
        oldValues := bt.oldValues.set strKey (typedValue (parseColumn pf text1).1 text1
          (parseColumn pf text1).2.1 (parseColumn pf text1).2.2) }
      values2 columns queryType t2 event2 strColName text2 strKey hq hsuf
      (by rw [← hkey2]; apply deltaKey_congr; rfl)
    rw [parseColumn_of_float pf text2 v2 h2 hf2, parseColumn_of_float pf text1 v1 h1 hf1]
      at hstep2
    simp only [typedValue] at hstep2
    rw [observeDelta_float _ event2 strKey _ text2 _ v2 t2 t1 (.float v1)
      (MapStr.get_set_same _ _ _) (MapStr.get_set_same _ _ _)] at hstep2
    rw [parseColumn_of_float pf text1 v1 h1 hf1]
    simp only [typedValue]
    exact ⟨_, _, hstep2, MapStr.get_set_same _ _ _⟩

/-- Counterexample to C4 as stated.  `v__DELTA` is first observed as the
integer 5 at `t = 0`, so its key has a record, and then as the text `"abc"`
at `t = 10 s`, through `generateEventFromRow` and through
`appendRowToEvent`: the stored value is still 5 and the stored timestamp is
still 0, not the new observation. -/
theorem C4_counterexample :
    beatAfterFive.oldValues.get "v__DELTA".toList = some (.int 5) ∧
    beatAfterFive.oldValuesAge.get "v__DELTA".toList = some (.time 0) ∧
    inferredValue sampleParseFloat "abc".toList = .str "abc".toList ∧
    generateEventFromRow sampleParseFloat beatAfterFive (.ok ["abc".toList]) deltaColumn
      queryTypeSingleRow 10000000000 =
      (.ok (some [("@timestamp".toList, .time 10000000000),
        ("type".toList, .str queryTypeSingleRow), ("v_PERSECOND".toList, .str "abc".toList)]),
        beatAfterFive) ∧
    (generateEventFromRow sampleParseFloat beatAfterFive (.ok ["abc".toList]) deltaColumn
      queryTypeSingleRow 10000000000).2.oldValues.get "v__DELTA".toList
      ≠ some (inferredValue sampleParseFloat "abc".toList) ∧
    (generateEventFromRow sampleParseFloat beatAfterFive (.ok ["abc".toList]) deltaColumn
      queryTypeSingleRow 10000000000).2.oldValuesAge.get "v__DELTA".toList
      ≠ some (.time 10000000000) ∧
    appendRowToEvent sampleParseFloat beatAfterFive
      [("@timestamp".toList, .time 10000000000), ("type".toList, .str queryTypeTwoColumns)]
      (.ok ["v__DELTA".toList, "abc".toList]) 10000000000 =
      some (.ok [("@timestamp".toList, .time 10000000000),
        ("type".toList, .str queryTypeTwoColumns), ("v_PERSECOND".toList, .str "abc".toList)],
        beatAfterFive) := by
  refine ⟨by decide, by decide, by decide, by decide, by decide, by decide, by decide⟩

/-- C4 as amended.  A delta column of `generateEventFromRow` (single-row or
multiple-rows, delta key `strKey`) or of `appendRowToEvent` (key: the column
name) whose key has a stored value and a stored timestamp: when the new text
is an integer or a float, the stored value and timestamp afterwards are those
of the new observation; when it is neither, the beater is left as it was. -/
theorem C4_record_replaced (pf : Str → Option F64) (bt : Mysqlbeat) (values columns : List Str)
    (queryType : Str) (event : MapStr) (strColName strColValue strKey : Str) (rest : List Str)
    (rowAge t1 : Int) (old : Value)
    (hsuf : strings_HasSuffix strColName bt.deltaWildcard = true)
    (hold : bt.oldValues.get strKey = some old)
    (hage : bt.oldValuesAge.get strKey = some (.time t1)) :
    ((queryType = queryTypeSingleRow ∨ queryType = queryTypeMultipleRows) →
      deltaKey bt values columns queryType strColName = .ok strKey →
      ∃ event1 bt1,
        columnStep pf values columns queryType rowAge bt event strColName strColValue
          = (.ok event1, bt1) ∧
        ((parseColumn pf strColValue).1 ≠ .columnTypeString →
          bt1.oldValues.get strKey = some (inferredValue pf strColValue) ∧
          bt1.oldValuesAge.get strKey = some (.time rowAge)) ∧
        ((parseColumn pf strColValue).1 = .columnTypeString → bt1 = bt)) ∧
    (strKey = strColName →
      ∃ event1 bt1,
        appendRowToEvent pf bt event (.ok (strColName :: strColValue :: rest)) rowAge
          = some (.ok event1, bt1) ∧
        ((parseColumn pf strColValue).1 ≠ .columnTypeString →
          bt1.oldValues.get strKey = some (inferredValue pf strColValue) ∧
          bt1.oldValuesAge.get strKey = some (.time rowAge)) ∧
        ((parseColumn pf strColValue).1 = .columnTypeString → bt1 = bt)) := by
  have key : ∀ name,
      ((parseColumn pf strColValue).1 ≠ .columnTypeString →
        (observeDelta bt event strKey name strColValue (parseColumn pf strColValue).1
          (parseColumn pf strColValue).2.1 (parseColumn pf strColValue).2.2
          rowAge).2.oldValues.get strKey = some (inferredValue pf strColValue) ∧
        (observeDelta bt event strKey name strColValue (parseColumn pf strColValue).1
          (parseColumn pf strColValue).2.1 (parseColumn pf strColValue).2.2
          rowAge).2.oldValuesAge.get strKey = some (.time rowAge)) ∧
      ((parseColumn pf strColValue).1 = .columnTypeString →
        (observeDelta bt event strKey name strColValue (parseColumn pf strColValue).1
          (parseColumn pf strColValue).2.1 (parseColumn pf strColValue).2.2
          rowAge).2 = bt) := by
    intro name
    unfold inferredValue
    cases hty : (parseColumn pf strColValue).1 with
    | columnTypeString =>
      rw [observeDelta_string bt event strKey name strColValue _ _ rowAge t1 old hold hage]
      simp
    | columnTypeInt =>
      rw [observeDelta_int bt event strKey name strColValue _ _ rowAge t1 old hold hage]
      simp [MapStr.get_set_same, typedValue]
    | columnTypeFloat =>
      rw [observeDelta_float bt event strKey name strColValue _ _ rowAge t1 old hold hage]
      simp [MapStr.get_set_same, typedValue]
  refine ⟨?_, ?_⟩
  · intro hq hkey
    exact ⟨_, _, columnStep_delta pf bt values columns queryType rowAge event strColName
      strColValue strKey hq hsuf hkey, key _⟩
  · intro hk
    subst hk
    exact ⟨_, _, appendRowToEvent_delta pf bt event strKey strColValue rest rowAge hsuf, key _⟩

/-- Witness of C4 as amended: the second cycle of Scenario A replaces the
record `(120, t = 0)` of `count__DELTA` by `(170, t = 10 s)`. -/
theorem C4_record_replaced_witness :
    strings_HasSuffix "count__DELTA".toList scenarioABeat.deltaWildcard = true ∧
    scenarioABeat.oldValues.get "count__DELTA".toList = some (.int 120) ∧
    scenarioABeat.oldValuesAge.get "count__DELTA".toList = some (.time 0) ∧
    (parseColumn sampleParseFloat "170".toList).1 ≠ .columnTypeString ∧
    (∃ event1 bt1,
      columnStep sampleParseFloat ["120".toList, "170".toList] scenarioAColumns
        queryTypeSingleRow 10000000000 scenarioABeat [] "count__DELTA".toList "170".toList
        = (.ok event1, bt1) ∧
      bt1.oldValues.get "count__DELTA".toList = some (.int 170) ∧
      bt1.oldValuesAge.get "count__DELTA".toList = some (.time 10000000000)) ∧
    (∃ event1 bt1,
      appendRowToEvent sampleParseFloat scenarioABeat []
        (.ok ["count__DELTA".toList, "170".toList]) 10000000000 = some (.ok event1, bt1) ∧
      bt1.oldValues.get "count__DELTA".toList = some (.int 170) ∧
      bt1.oldValuesAge.get "count__DELTA".toList = some (.time 10000000000)) := by
  have hv : inferredValue sampleParseFloat "170".toList = .int 170 := by decide
  have h := C4_record_replaced sampleParseFloat scenarioABeat ["120".toList, "170".toList]
    scenarioAColumns queryTypeSingleRow [] "count__DELTA".toList "170".toList
    "count__DELTA".toList [] 10000000000 0 (.int 120) (by decide) (by decide) (by decide)
  rw [hv] at h
  refine ⟨by decide, by decide, by decide, by decide, ?_, ?_⟩
  · obtain ⟨e, b, he, hnum, _⟩ := h.1 (Or.inl rfl) (by decide)
    exact ⟨e, b, he, hnum (by decide)⟩
  · obtain ⟨e, b, he, hnum, _⟩ := h.2 rfl
    exact ⟨e, b, he, hnum (by decide)⟩

/-- C7 (the code at the failing input).  The rows of the entities
`("a", "bc")` and `("ab", "c")` have different tuples of row-identity values
and the same row key `"abc"`, hence the same delta key for `hits__DELTA`.
They share one record: after the first row was seen at `t = 0`, the first
observation of the second row at `t = 10 s` is not suppressed but reports
`hits_PERSECOND = (51 - 1)/10 = 5`, computed against the other row. -/
theorem C7_row_keys_collide :
    (["a".toList, "bc".toList] : List Str) ≠ ["ab".toList, "c".toList] ∧
    getKeyFromRow sampleBeat hitsRowA hitsColumns = .ok "abc".toList ∧
    getKeyFromRow sampleBeat hitsRowB hitsColumns = .ok "abc".toList ∧
    deltaKey sampleBeat hitsRowA hitsColumns queryTypeMultipleRows "hits__DELTA".toList =
      deltaKey sampleBeat hitsRowB hitsColumns queryTypeMultipleRows "hits__DELTA".toList ∧
    (generateEventFromRow sampleParseFloat sampleBeat (.ok hitsRowB) hitsColumns
      queryTypeMultipleRows 10000000000).1 =
      .ok (some [("@timestamp".toList, .time 10000000000),
        ("type".toList, .str queryTypeMultipleRows), ("host".toList, .str "ab".toList),
        ("db".toList, .str "c".toList)]) ∧
    (generateEventFromRow sampleParseFloat beatAfterRowA (.ok hitsRowB) hitsColumns
      queryTypeMultipleRows 10000000000).1 =
      .ok (some [("@timestamp".toList, .time 10000000000),
        ("type".toList, .str queryTypeMultipleRows), ("host".toList, .str "ab".toList),
        ("db".toList, .str "c".toList), ("hits_PERSECOND".toList, .int 5)]) := by
  refine ⟨by decide, by decide, by decide, by decide, by decide, ?_⟩
  have s1 : columnStep sampleParseFloat hitsRowB hitsColumns queryTypeMultipleRows 10000000000
      beatAfterRowA [("@timestamp".toList, .time 10000000000),
        ("type".toList, .str queryTypeMultipleRows)] "host__DELTAKEY".toList "ab".toList =
      (.ok [("@timestamp".toList, .time 10000000000),
        ("type".toList, .str queryTypeMultipleRows), ("host".toList, .str "ab".toList)],
        beatAfterRowA) := by decide
  have s2 : columnStep sampleParseFloat hitsRowB hitsColumns queryTypeMultipleRows 10000000000
      beatAfterRowA [("@timestamp".toList, .time 10000000000),
        ("type".toList, .str queryTypeMultipleRows), ("host".toList, .str "ab".toList)]
      "db__DELTAKEY".toList "c".toList =
      (.ok [("@timestamp".toList, .time 10000000000),
        ("type".toList, .str queryTypeMultipleRows), ("host".toList, .str "ab".toList),
        ("db".toList, .str "c".toList)], beatAfterRowA) := by decide
  have r : (if (51 : Int) > assertInt64 (some (.int 1)) then
      roundF2I (F64.div (F64.ofInt (sub64 51 (assertInt64 (some (.int 1)))))
        (Duration_Seconds (time_Sub 10000000000 0))) F64.half else 0) = 5 := by
    decide
  have s3 := columnStep_delta sampleParseFloat beatAfterRowA hitsRowB hitsColumns
    queryTypeMultipleRows 10000000000
    [("@timestamp".toList, .time 10000000000),
      ("type".toList, .str queryTypeMultipleRows), ("host".toList, .str "ab".toList),
      ("db".toList, .str "c".toList)] "hits__DELTA".toList "51".toList "abchits__DELTA".toList
    (Or.inr rfl) (by decide) (by decide)
  rw [parseColumn_of_int sampleParseFloat "51".toList 51 (by decide)] at s3
  simp only [] at s3
  rw [observeDelta_int beatAfterRowA _ "abchits__DELTA".toList _ "51".toList 51 _ 10000000000 0
    (.int 1) (by decide) (by decide), r] at s3
  unfold generateEventFromRow
  have hz : hitsColumns.zip hitsRowB = [("host__DELTAKEY".toList, "ab".toList),
      ("db__DELTAKEY".toList, "c".toList), ("hits__DELTA".toList, "51".toList)] := by decide
  simp only [hz, columnLoop_cons, s1, s2, s3, columnLoop]
  decide

theorem getKeyLoop_found (bt : Mysqlbeat) (l : List (Str × Str)) (acc : Str × Bool) :
    (getKeyLoop bt l acc).2 =
      (acc.2 || l.any (fun p => strings_HasSuffix p.1 bt.deltaKeyWildcard)) := by
  induction l generalizing acc with
  | nil => simp [getKeyLoop]
  | cons a rest ih =>
    obtain ⟨c, v⟩ := a
    obtain ⟨k, f⟩ := acc
    by_cases h : strings_HasSuffix c bt.deltaKeyWildcard = true
    · simp [getKeyLoop, h, ih]
    · simp [getKeyLoop, h, ih]

theorem any_zip_fst (columns values : List Str) (p : Str → Bool)
    (hlen : values.length = columns.length) :
    (columns.zip values).any (fun q => p q.1) = columns.any p := by
  induction columns generalizing values with
  | nil => simp
  | cons c cs ih =>
    cases values with
    | nil => simp at hlen
    | cons v vs =>
      simp only [List.zip_cons_cons, List.any_cons]
      rw [ih vs (by simpa using hlen)]

theorem getKeyFromRow_error_iff (bt : Mysqlbeat) (values columns : List Str)
    (hlen : values.length = columns.length) :
    (∃ e, getKeyFromRow bt values columns = .error e) ↔
      ∀ c ∈ columns, strings_HasSuffix c bt.deltaKeyWildcard = false := by
  unfold getKeyFromRow
  have hf := getKeyLoop_found bt (columns.zip values) ([], false)
  have hz := any_zip_fst columns values (fun c => strings_HasSuffix c bt.deltaKeyWildcard) hlen
  simp only [] at hz
  rw [hz] at hf
  simp only [Bool.false_or] at hf
  constructor
  · rintro ⟨e, he⟩ c hc
    by_contra hcon
    have hany : columns.any (fun c => strings_HasSuffix c bt.deltaKeyWildcard) = true := by
      rw [List.any_eq_true]
      exact ⟨c, hc, by simpa using hcon⟩
    rw [hany] at hf
    simp [hf] at he
  · intro hall
    have hany : columns.any (fun c => strings_HasSuffix c bt.deltaKeyWildcard) = false := by
      rw [List.any_eq_false]
      intro c hc
      simp [hall c hc]
    rw [hany] at hf
    exact ⟨keyError, by simp [hf]⟩

theorem getKeyFromRow_error_eq (bt : Mysqlbeat) (values columns : List Str) (e : String)
    (h : getKeyFromRow bt values columns = .error e) : e = keyError := by
  unfold getKeyFromRow at h
  simp only [] at h
  split at h
  · injection h with h
    exact h.symm
  · cases h

/-- A column that is not treated as a delta column, in a query type other
than `show-slave-delay`: its typed value is put in the event and the beater
is left as it was. -/
theorem columnStep_plain (pf : Str → Option F64) (bt : Mysqlbeat) (values columns : List Str)
    (queryType : Str) (rowAge : Int) (event : MapStr) (strColName strColValue : Str)
    (hq : queryType ≠ queryTypeSlaveDelay)
    (hnd : ¬ ((queryType = queryTypeSingleRow ∨ queryType = queryTypeMultipleRows) ∧
      strings_HasSuffix strColName bt.deltaWildcard = true)) :
    columnStep pf values columns queryType rowAge bt event strColName strColValue =
      (.ok (event.set (eventColName bt strColName) (inferredValue pf strColValue)), bt) := by
  unfold columnStep inferredValue
  simp only [hq, false_and, if_false]
  rw [if_neg hnd]

theorem columnLoop_error (pf : Str → Option F64) (values columns : List Str) (rowAge : Int)
    (bt : Mysqlbeat) (hkey : getKeyFromRow bt values columns = .error keyError)
    (l : List (Str × Str)) (event : MapStr)
    (hany : l.any (fun p => strings_HasSuffix p.1 bt.deltaWildcard) = true) :
    (columnLoop pf values columns queryTypeMultipleRows rowAge l bt event).1
      = .error keyError := by
  induction l generalizing event with
  | nil => simp at hany
  | cons a rest ih =>
    obtain ⟨c, v⟩ := a
    rw [columnLoop_cons]
    by_cases hd : strings_HasSuffix c bt.deltaWildcard = true
    · have hstep : columnStep pf values columns queryTypeMultipleRows rowAge bt event c v
          = (.error keyError, bt) := by
        unfold columnStep deltaKey
        have h1 : queryTypeMultipleRows ≠ queryTypeSlaveDelay := by decide
        have h2 : queryTypeMultipleRows ≠ queryTypeSingleRow := by decide
        simp [h1, h2, hd, hkey]
      rw [hstep]
    · rw [columnStep_plain pf bt values columns queryTypeMultipleRows rowAge event c v
        (by decide) (by simp [hd])]
      simp only []
      apply ih
      simpa [hd] using hany

/-- C8 (missing row-identity column).  On a scanned row, one value per
column: `getKeyFromRow` returns an error exactly when no column name ends
with the row-identity marker; and for query type multiple-rows a row with at
least one delta-suffixed column and no column ending with the row-identity
marker makes `generateEventFromRow` return that error and no event. -/
theorem C8_missing_row_identity (pf : Str → Option F64) (bt : Mysqlbeat)
    (values columns : List Str) (rowAge : Int) (hlen : values.length = columns.length) :
    ((∃ e, getKeyFromRow bt values columns = .error e) ↔
      ∀ c ∈ columns, strings_HasSuffix c bt.deltaKeyWildcard = false) ∧
    ((∃ c ∈ columns, strings_HasSuffix c bt.deltaWildcard = true) →
      (∀ c ∈ columns, strings_HasSuffix c bt.deltaKeyWildcard = false) →
      (generateEventFromRow pf bt (.ok values) columns queryTypeMultipleRows rowAge).1
        = .error keyError) := by
  refine ⟨getKeyFromRow_error_iff bt values columns hlen, ?_⟩
  rintro ⟨c, hc, hcd⟩ hall
  obtain ⟨e, he⟩ := (getKeyFromRow_error_iff bt values columns hlen).mpr hall
  have hk : getKeyFromRow bt values columns = .error keyError := by
    rw [he, getKeyFromRow_error_eq bt values columns e he]
  have hany : (columns.zip values).any (fun p => strings_HasSuffix p.1 bt.deltaWildcard)
      = true := by
    have hz := any_zip_fst columns values (fun c => strings_HasSuffix c bt.deltaWildcard) hlen
    simp only [] at hz
    rw [hz, List.any_eq_true]
    exact ⟨c, hc, hcd⟩
  have hl := columnLoop_error pf values columns rowAge bt hk (columns.zip values)
    [("@timestamp".toList, .time rowAge), ("type".toList, .str queryTypeMultipleRows)] hany
  unfold generateEventFromRow
  simp only []
  cases hres : columnLoop pf values columns queryTypeMultipleRows rowAge (columns.zip values) bt
      [("@timestamp".toList, .time rowAge), ("type".toList, .str queryTypeMultipleRows)] with
  | mk r b =>
    rw [hres] at hl
    simp only [] at hl
    subst hl
    rfl

/-- Witness of C8: a `multiple-rows` row with the columns `name` and
`hits__DELTA` and no row-identity column is refused. -/
theorem C8_missing_row_identity_witness :
    (["x".toList, "5".toList] : List Str).length
      = (["name".toList, "hits__DELTA".toList] : List Str).length ∧
    (∃ c ∈ (["name".toList, "hits__DELTA".toList] : List Str),
      strings_HasSuffix c sampleBeat.deltaWildcard = true) ∧
    (∀ c ∈ (["name".toList, "hits__DELTA".toList] : List Str),
      strings_HasSuffix c sampleBeat.deltaKeyWildcard = false) ∧
    (∃ e, getKeyFromRow sampleBeat ["x".toList, "5".toList]
      ["name".toList, "hits__DELTA".toList] = .error e) ∧
    (generateEventFromRow sampleParseFloat sampleBeat (.ok ["x".toList, "5".toList])
      ["name".toList, "hits__DELTA".toList] queryTypeMultipleRows 0).1 = .error keyError := by
  have h := C8_missing_row_identity sampleParseFloat sampleBeat ["x".toList, "5".toList]
    ["name".toList, "hits__DELTA".toList] 0 rfl
  have hd : ∃ c ∈ (["name".toList, "hits__DELTA".toList] : List Str),
      strings_HasSuffix c sampleBeat.deltaWildcard = true :=
    ⟨"hits__DELTA".toList, by simp, by decide⟩
  have hk : ∀ c ∈ (["name".toList, "hits__DELTA".toList] : List Str),
      strings_HasSuffix c sampleBeat.deltaKeyWildcard = false := by decide
  exact ⟨rfl, hd, hk, h.1.mpr hk, h.2 hd hk⟩

theorem columnLoop_plain (pf : Str → Option F64) (values columns : List Str) (queryType : Str)
    (rowAge : Int) (bt : Mysqlbeat) (hq : queryType ≠ queryTypeSlaveDelay)
    (l : List (Str × Str)) (event : MapStr)
    (hnd : ∀ p ∈ l, ¬ ((queryType = queryTypeSingleRow ∨ queryType = queryTypeMultipleRows) ∧
      strings_HasSuffix p.1 bt.deltaWildcard = true)) :
    columnLoop pf values columns queryType rowAge l bt event
      = (.ok (plainLoop pf bt l event), bt) := by
  induction l generalizing event with
  | nil => rfl
  | cons a rest ih =>
    obtain ⟨c, v⟩ := a
    rw [columnLoop_cons, columnStep_plain pf bt values columns queryType rowAge event c v hq
      (hnd (c, v) (List.mem_cons_self _ _))]
    simp only []
    rw [ih _ (fun p hp => hnd p (List.mem_cons_of_mem _ hp))]
    rfl

theorem sameButType_set (e1 e2 : MapStr) (k : Str) (v : Value) (h : sameButType e1 e2) :
    sameButType (e1.set k v) (e2.set k v) := by
  unfold sameButType at h ⊢
  induction h with
  | nil => exact List.Forall₂.cons ⟨rfl, fun _ => rfl⟩ List.Forall₂.nil
  | @cons a b l1 l2 hab hrest ih =>
    obtain ⟨ka, va⟩ := a
    obtain ⟨kb, vb⟩ := b
    obtain ⟨hk, hv⟩ := hab
    simp only at hk hv
    subst hk
    by_cases hkk : ka = k
    · simp only [MapStr.set, hkk, if_true]
      exact List.Forall₂.cons ⟨rfl, fun _ => rfl⟩ hrest
    · simp only [MapStr.set, hkk, if_false]
      exact List.Forall₂.cons ⟨rfl, hv⟩ ih

theorem sameButType_get (e1 e2 : MapStr) (k : Str) (hk : k ≠ "type".toList)
    (h : sameButType e1 e2) : e1.get k = e2.get k := by
  unfold sameButType at h
  induction h with
  | nil => rfl
  | @cons a b l1 l2 hab hrest ih =>
    obtain ⟨ka, va⟩ := a
    obtain ⟨kb, vb⟩ := b
    obtain ⟨hkk, hv⟩ := hab
    simp only at hkk hv
    subst hkk
    by_cases h1 : ka = k
    · subst h1
      simp [MapStr.get, hv hk]
    · simp [MapStr.get, h1, ih]

theorem sameButType_plainLoop (pf : Str → Option F64) (bt : Mysqlbeat) (l : List (Str × Str))
    (e1 e2 : MapStr) (h : sameButType e1 e2) :
    sameButType (plainLoop pf bt l e1) (plainLoop pf bt l e2) := by
  induction l generalizing e1 e2 with
  | nil => exact h
  | cons a rest ih =>
    obtain ⟨c, v⟩ := a
    exact ih _ _ (sameButType_set _ _ _ _ h)

/-- Counterexample to C9 as stated.  (1) A row whose only column is the delta
column `v__DELTA`: `multiple-rows` returns the error of the missing row
identity, `resume-multiple-rows` returns an event with the raw value under
`v_PERSECOND`.  (2) A row with a row-identity column and a delta column:
`multiple-rows` suppresses the first observation and stores a record,
`resume-multiple-rows` emits the raw value and stores nothing. -/
theorem C9_counterexample :
    generateEventFromRow sampleParseFloat sampleBeat (.ok ["5".toList]) deltaColumn
      queryTypeMultipleRows 0 = (.error keyError, sampleBeat) ∧
    generateEventFromRow sampleParseFloat sampleBeat (.ok ["5".toList]) deltaColumn
      queryTypeResumeMultipleRows 0 =
      (.ok (some [("@timestamp".toList, .time 0),
        ("type".toList, .str queryTypeResumeMultipleRows), ("v_PERSECOND".toList, .int 5)]),
        sampleBeat) ∧
    (generateEventFromRow sampleParseFloat sampleBeat (.ok hitsRowA) hitsColumns
      queryTypeMultipleRows 0).1 =
      .ok (some [("@timestamp".toList, .time 0), ("type".toList, .str queryTypeMultipleRows),
        ("host".toList, .str "a".toList), ("db".toList, .str "bc".toList)]) ∧
    (generateEventFromRow sampleParseFloat sampleBeat (.ok hitsRowA) hitsColumns
      queryTypeMultipleRows 0).2.oldValues.get "abchits__DELTA".toList = some (.int 1) ∧
    generateEventFromRow sampleParseFloat sampleBeat (.ok hitsRowA) hitsColumns
      queryTypeResumeMultipleRows 0 =
      (.ok (some [("@timestamp".toList, .time 0),
        ("type".toList, .str queryTypeResumeMultipleRows),
        ("host".toList, .str "a".toList), ("db".toList, .str "bc".toList),
        ("hits_PERSECOND".toList, .int 1)]), sampleBeat) := by
  refine ⟨by decide, by decide, by decide, by decide, by decide⟩

/-- C9 as amended.  On a row none of whose column names ends with the delta
marker, `generateEventFromRow` with query type resume-multiple-rows and with
query type multiple-rows return the same error outcome, the same metric
fields (all fields other than the type tag) and the same delta state, which
is the one they started from. -/
theorem C9_resume_like_multiple_rows (pf : Str → Option F64) (bt : Mysqlbeat)
    (row : Except String (List Str)) (columns : List Str) (rowAge : Int)
    (hnd : ∀ c ∈ columns, strings_HasSuffix c bt.deltaWildcard = false) :
    (generateEventFromRow pf bt row columns queryTypeResumeMultipleRows rowAge).2 = bt ∧
    (generateEventFromRow pf bt row columns queryTypeMultipleRows rowAge).2 = bt ∧
    ((∃ e, (generateEventFromRow pf bt row columns queryTypeResumeMultipleRows rowAge).1
          = .error e ∧
        (generateEventFromRow pf bt row columns queryTypeMultipleRows rowAge).1 = .error e) ∨
      (∃ e1 e2, (generateEventFromRow pf bt row columns queryTypeResumeMultipleRows rowAge).1
          = .ok e1 ∧
        (generateEventFromRow pf bt row columns queryTypeMultipleRows rowAge).1 = .ok e2 ∧
        sameMetricFields e1 e2)) := by
  cases row with
  | error e => exact ⟨rfl, rfl, Or.inl ⟨e, rfl, rfl⟩⟩
  | ok values =>
    have hz : ∀ (qt : Str), ∀ p ∈ columns.zip values,
        ¬ ((qt = queryTypeSingleRow ∨ qt = queryTypeMultipleRows) ∧
          strings_HasSuffix p.1 bt.deltaWildcard = true) := by
      intro qt p hp hcon
      obtain ⟨c, v⟩ := p
      have hc := (List.of_mem_zip hp).1
      rw [hnd c hc] at hcon
      simp at hcon
    have h1 := columnLoop_plain pf values columns queryTypeResumeMultipleRows rowAge bt
      (by decide) (columns.zip values)
      [("@timestamp".toList, .time rowAge), ("type".toList, .str queryTypeResumeMultipleRows)]
      (hz _)
    have h2 := columnLoop_plain pf values columns queryTypeMultipleRows rowAge bt
      (by decide) (columns.zip values)
      [("@timestamp".toList, .time rowAge), ("type".toList, .str queryTypeMultipleRows)]
      (hz _)
    have hrel : sameButType
        (plainLoop pf bt (columns.zip values)
          [("@timestamp".toList, .time rowAge),
            ("type".toList, .str queryTypeResumeMultipleRows)])
        (plainLoop pf bt (columns.zip values)
          [("@timestamp".toList, .time rowAge), ("type".toList, .str queryTypeMultipleRows)]) := by
      apply sameButType_plainLoop
      exact List.Forall₂.cons ⟨rfl, fun _ => rfl⟩
        (List.Forall₂.cons ⟨rfl, fun h => absurd rfl h⟩ List.Forall₂.nil)
    have hlen := List.Forall₂.length_eq hrel
    unfold generateEventFromRow
    simp only [h1, h2]
    refine ⟨trivial, trivial, Or.inr ⟨_, _, rfl, rfl, ?_⟩⟩
    unfold MapStr.len
    rw [hlen]
    split
    · trivial
    · intro k hk
      exact sameButType_get _ _ k hk hrel

/-- Witness of C9 as amended: a row with a row-identity column and a plain
column gives the fields `host` and `hits` under both query types. -/
theorem C9_resume_like_multiple_rows_witness :
    (∀ c ∈ (["host__DELTAKEY".toList, "hits".toList] : List Str),
      strings_HasSuffix c sampleBeat.deltaWildcard = false) ∧
    generateEventFromRow sampleParseFloat sampleBeat (.ok ["a".toList, "7".toList])
      ["host__DELTAKEY".toList, "hits".toList] queryTypeResumeMultipleRows 0 =
      (.ok (some [("@timestamp".toList, .time 0),
        ("type".toList, .str queryTypeResumeMultipleRows), ("host".toList, .str "a".toList),
        ("hits".toList, .int 7)]), sampleBeat) ∧
    generateEventFromRow sampleParseFloat sampleBeat (.ok ["a".toList, "7".toList])
      ["host__DELTAKEY".toList, "hits".toList] queryTypeMultipleRows 0 =
      (.ok (some [("@timestamp".toList, .time 0),
        ("type".toList, .str queryTypeMultipleRows), ("host".toList, .str "a".toList),
        ("hits".toList, .int 7)]), sampleBeat) ∧
    (generateEventFromRow sampleParseFloat sampleBeat (.ok ["a".toList, "7".toList])
      ["host__DELTAKEY".toList, "hits".toList] queryTypeResumeMultipleRows 0).2 = sampleBeat ∧
    (generateEventFromRow sampleParseFloat sampleBeat (.ok ["a".toList, "7".toList])
      ["host__DELTAKEY".toList, "hits".toList] queryTypeMultipleRows 0).2 = sampleBeat := by
  have hnd : ∀ c ∈ (["host__DELTAKEY".toList, "hits".toList] : List Str),
      strings_HasSuffix c sampleBeat.deltaWildcard = false := by decide
  have h := C9_resume_like_multiple_rows sampleParseFloat sampleBeat
    (.ok ["a".toList, "7".toList]) ["host__DELTAKEY".toList, "hits".toList] 0 hnd
  exact ⟨hnd, by decide, by decide, h.1, h.2.1⟩

theorem strings_HasSuffix_append (base marker : Str) :
    strings_HasSuffix (base ++ marker) marker = true := by
  unfold strings_HasSuffix
  simp

theorem strings_Replace_first (base marker new : Str)
    (hfirst : ∀ i, i < base.length →
      marker.isPrefixOf ((base ++ marker).drop i) = false) :
    strings_Replace (base ++ marker) marker new = base ++ new := by
  induction base with
  | nil =>
    unfold strings_Replace
    simp
  | cons c b ih =>
    have h0 := hfirst 0 (by simp)
    simp only [List.drop_zero] at h0
    have h0n : ¬ (marker.isPrefixOf (c :: b ++ marker) = true) := by
      rw [h0]
      exact Bool.false_ne_true
    unfold strings_Replace
    rw [if_neg h0n]
    simp only [List.cons_append]
    rw [ih (fun i hi => by
      have := hfirst (i + 1) (by simpa using hi)
      simpa using this)]

/-- Counterexample to C10 as stated.  (1) The value of the row-identity
column `host__DELTAKEY` is emitted in the event, under the stripped name
`host`.  (2) In a name that holds the marker twice the first occurrence is
removed, not the trailing one. -/
theorem C10_counterexample :
    generateEventFromRow sampleParseFloat sampleBeat (.ok ["db1".toList])
      ["host__DELTAKEY".toList] queryTypeMultipleRows 0 =
      (.ok (some [("@timestamp".toList, .time 0), ("type".toList, .str queryTypeMultipleRows),
        ("host".toList, .str "db1".toList)]), sampleBeat) ∧
    strings_HasSuffix "a__DELTAKEYb__DELTAKEY".toList sampleBeat.deltaKeyWildcard = true ∧
    eventColName sampleBeat "a__DELTAKEYb__DELTAKEY".toList = "ab__DELTAKEY".toList ∧
    eventColName sampleBeat "a__DELTAKEYb__DELTAKEY".toList ≠ "a__DELTAKEYb".toList := by
  refine ⟨by decide, by decide, by decide, by decide⟩

/-- C10 as amended.  For a column named `base` followed by the row-identity
marker, the marker occurring nowhere earlier in the name: the output field
name computed by `generateEventFromRow` is `base`, and unless the column is
skipped (query type show-slave-delay) or goes through the delta block (name
also ending with the delta marker, query type single-row or multiple-rows)
its typed value is emitted in the event under that name and the delta state
is left as it was. -/
theorem C10_row_identity_column (pf : Str → Option F64) (bt : Mysqlbeat)
    (values columns : List Str) (queryType : Str) (rowAge : Int) (event : MapStr)
    (base strColValue : Str)
    (hfirst : ∀ i, i < base.length →
      bt.deltaKeyWildcard.isPrefixOf ((base ++ bt.deltaKeyWildcard).drop i) = false) :
    strings_HasSuffix (base ++ bt.deltaKeyWildcard) bt.deltaKeyWildcard = true ∧
    eventColName bt (base ++ bt.deltaKeyWildcard) = base ∧
    (queryType ≠ queryTypeSlaveDelay →
      ¬ ((queryType = queryTypeSingleRow ∨ queryType = queryTypeMultipleRows) ∧
        strings_HasSuffix (base ++ bt.deltaKeyWildcard) bt.deltaWildcard = true) →
      columnStep pf values columns queryType rowAge bt event (base ++ bt.deltaKeyWildcard)
          strColValue = (.ok (event.set base (inferredValue pf strColValue)), bt) ∧
      (event.set base (inferredValue pf strColValue)).get base
        = some (inferredValue pf strColValue)) := by
  have hname : eventColName bt (base ++ bt.deltaKeyWildcard) = base := by
    unfold eventColName
    rw [if_pos (strings_HasSuffix_append _ _), strings_Replace_first _ _ _ hfirst]
    simp
  refine ⟨strings_HasSuffix_append _ _, hname, ?_⟩
  intro hq hnd
  rw [columnStep_plain pf bt values columns queryType rowAge event _ strColValue hq hnd, hname]
  exact ⟨rfl, MapStr.get_set_same _ _ _⟩

/-- Witness of C10 as amended: the column `host__DELTAKEY` with the value
`"db1"` in a `multiple-rows` query gives the field `host = "db1"`. -/
theorem C10_row_identity_column_witness :
    (∀ i, i < "host".toList.length →
      sampleBeat.deltaKeyWildcard.isPrefixOf
        (("host".toList ++ sampleBeat.deltaKeyWildcard).drop i) = false) ∧
    queryTypeMultipleRows ≠ queryTypeSlaveDelay ∧
    ¬ ((queryTypeMultipleRows = queryTypeSingleRow ∨
        queryTypeMultipleRows = queryTypeMultipleRows) ∧
      strings_HasSuffix ("host".toList ++ sampleBeat.deltaKeyWildcard)
        sampleBeat.deltaWildcard = true) ∧
    eventColName sampleBeat ("host".toList ++ sampleBeat.deltaKeyWildcard) = "host".toList ∧
    columnStep sampleParseFloat ["db1".toList] ["host__DELTAKEY".toList] queryTypeMultipleRows
      0 sampleBeat [("@timestamp".toList, .time 0), ("type".toList, .str queryTypeMultipleRows)]
      ("host".toList ++ sampleBeat.deltaKeyWildcard) "db1".toList =
      (.ok [("@timestamp".toList, .time 0), ("type".toList, .str queryTypeMultipleRows),
        ("host".toList, .str "db1".toList)], sampleBeat) := by
  have hfirst : ∀ i, i < "host".toList.length →
      sampleBeat.deltaKeyWildcard.isPrefixOf
        (("host".toList ++ sampleBeat.deltaKeyWildcard).drop i) = false := by
    intro i hi
    have hi4 : i < 4 := hi
    interval_cases i <;> decide
  have hnd : ¬ ((queryTypeMultipleRows = queryTypeSingleRow ∨
        queryTypeMultipleRows = queryTypeMultipleRows) ∧
      strings_HasSuffix ("host".toList ++ sampleBeat.deltaKeyWildcard)
        sampleBeat.deltaWildcard = true) := by decide
  have h := C10_row_identity_column sampleParseFloat sampleBeat ["db1".toList]
    ["host__DELTAKEY".toList] queryTypeMultipleRows 0
    [("@timestamp".toList, .time 0), ("type".toList, .str queryTypeMultipleRows)]
    "host".toList "db1".toList hfirst
  have hv : inferredValue sampleParseFloat "db1".toList = .str "db1".toList := by decide
  have hstep := (h.2.2 (by decide) hnd).1
  rw [hv] at hstep
  exact ⟨hfirst, by decide, hnd, h.2.1, hstep⟩

/-- C11 (the code at the failing input).  The column `a__DELTAb__DELTA`
ends with the delta marker and not with the row-identity marker.  The output
field name of `generateEventFromRow` and of `appendRowToEvent` is
`a_PERSECONDb__DELTA`: the first occurrence of the marker is replaced, not
the trailing one, and the field appears under that name in the event. -/
theorem C11_first_marker_replaced :
    strings_HasSuffix twiceDeltaName sampleBeat.deltaWildcard = true ∧
    strings_HasSuffix twiceDeltaName sampleBeat.deltaKeyWildcard = false ∧
    eventColName sampleBeat twiceDeltaName = "a_PERSECONDb__DELTA".toList ∧
    eventColName sampleBeat twiceDeltaName ≠ "a__DELTAb_PERSECOND".toList ∧
    strings_Replace twiceDeltaName sampleBeat.deltaWildcard "_PERSECOND".toList
      = "a_PERSECONDb__DELTA".toList ∧
    generateEventFromRow sampleParseFloat beatAfterTwice (.ok ["y".toList]) [twiceDeltaName]
      queryTypeSingleRow 10000000000 =
      (.ok (some [("@timestamp".toList, .time 10000000000),
        ("type".toList, .str queryTypeSingleRow),
        ("a_PERSECONDb__DELTA".toList, .str "y".toList)]), beatAfterTwice) ∧
    appendRowToEvent sampleParseFloat beatAfterTwice freshTwoColumns
      (.ok [twiceDeltaName, "y".toList]) 10000000000 =
      some (.ok [("@timestamp".toList, .time 0), ("type".toList, .str queryTypeTwoColumns),
        ("a_PERSECONDb__DELTA".toList, .str "y".toList)], beatAfterTwice) := by
  refine ⟨by decide, by decide, by decide, by decide, by decide, by decide, by decide⟩

/-- Counterexample to C13 as stated, from a fresh shared event and a delta
state with no record for the names.  (1) The rows `("m__DELTA","5")`,
`("m__DELTA","5")`: the second row finds the record of the first and the
event holds `m_PERSECOND = 0`, a field for a delta-suffixed name.  (2) The
row `("a__DELTAb","1")`, whose name does not end with the marker: the field
is `a_PERSECONDb`, not the name.  (3) The rows `("m","1")`, `("m","2")`: only
the value 2 is in the event. -/
theorem C13_counterexample :
    sampleBeat.oldValues.get "m__DELTA".toList = none ∧
    (appendRows sampleParseFloat 0
      [.ok ["m__DELTA".toList, "5".toList], .ok ["m__DELTA".toList, "5".toList]]
      sampleBeat freshTwoColumns).map Prod.fst =
      some [("@timestamp".toList, .time 0), ("type".toList, .str queryTypeTwoColumns),
        ("m_PERSECOND".toList, .int 0)] ∧
    strings_HasSuffix "a__DELTAb".toList sampleBeat.deltaWildcard = false ∧
    appendRows sampleParseFloat 0 [.ok ["a__DELTAb".toList, "1".toList]]
      sampleBeat freshTwoColumns =
      some ([("@timestamp".toList, .time 0), ("type".toList, .str queryTypeTwoColumns),
        ("a_PERSECONDb".toList, .int 1)], sampleBeat) ∧
    appendRows sampleParseFloat 0
      [.ok ["m".toList, "1".toList], .ok ["m".toList, "2".toList]]
      sampleBeat freshTwoColumns =
      some ([("@timestamp".toList, .time 0), ("type".toList, .str queryTypeTwoColumns),
        ("m".toList, .int 2)], sampleBeat) := by
  refine ⟨by decide, by decide, by decide, by decide, by decide⟩

/-- C14 (the code at the failing input).  Scenario C: with an empty store
the placeholder `cur|0|id` is replaced by `0`, with the cursor 42 by `42`.
With the stored cursor `a$$b` the text that is put in the query is `a$b`,
and with the stored cursor `US$5` it is `US`: `ReplaceAllString` expands the
`$` of the cursor as a template. -/
theorem C14_dollar_expanded :
    query sampleLib none queryTypeResumeMultipleRows scenarioCQuery =
      some ("SELECT id FROM t WHERE id > 0".toList, "cur".toList, "id".toList) ∧
    query sampleLib (some (recordLine "cur".toList "42".toList)) queryTypeResumeMultipleRows
      scenarioCQuery =
      some ("SELECT id FROM t WHERE id > 42".toList, "cur".toList, "id".toList) ∧
    readResumeIndex sampleLib (some (recordLine "cur".toList "a$$b".toList)) "cur".toList
      = "a$$b".toList ∧
    query sampleLib (some (recordLine "cur".toList "a$$b".toList)) queryTypeResumeMultipleRows
      scenarioCQuery =
      some ("SELECT id FROM t WHERE id > a$b".toList, "cur".toList, "id".toList) ∧
    query sampleLib (some (recordLine "cur".toList "US$5".toList)) queryTypeResumeMultipleRows
      scenarioCQuery =
      some ("SELECT id FROM t WHERE id > US".toList, "cur".toList, "id".toList) := by
  refine ⟨by decide, by decide, by decide, by decide, by decide⟩

/-- C15 (the code at the failing input).  The file holds the line `garbage`
and then the well-formed record of `cur` with the value 42.
`readResumeIndex` returns the empty string for `cur`: it stops at the
malformed line.  The loop of `writeToResumeFile` on the same file goes past
that line and finds the record. -/
theorem C15_read_stops_at_malformed_line :
    sampleLib.Unmarshal garbageLine = none ∧
    sampleLib.Unmarshal (recordLine "cur".toList "42".toList)
      = some ⟨"cur".toList, "42".toList⟩ ∧
    readResumeIndex sampleLib (some (recordLine "cur".toList "42".toList)) "cur".toList
      = "42".toList ∧
    readResumeIndex sampleLib (some (garbageLine ++ recordLine "cur".toList "42".toList))
      "cur".toList = [] ∧
    (updateLoop sampleLib ⟨"cur".toList, "43".toList⟩
      (readContents (some (garbageLine ++ recordLine "cur".toList "42".toList))) false).2
      = true := by
  refine ⟨by decide, by decide, by decide, by decide, by decide⟩

/-- C16 (the code at the failing input).  The prior file holds the line
`garbage`.  After `writeToResumeFile` of `cur`, 42 the file holds that line,
an empty line and the record, and `readResumeIndex` returns the empty string
for `cur`, not 42; the same when the prior file already held a record of
`cur` after the malformed line.  With a prior file of well-formed records
the value 42 is read back. -/
theorem C16_round_trip_lost :
    writeToResumeFile sampleLib (some garbageLine) ⟨"cur".toList, "42".toList⟩ =
      garbageLine ++ [chNewline] ++ recordLine "cur".toList "42".toList ∧
    readResumeIndex sampleLib
      (some (writeToResumeFile sampleLib (some garbageLine) ⟨"cur".toList, "42".toList⟩))
      "cur".toList = [] ∧
    readResumeIndex sampleLib
      (some (writeToResumeFile sampleLib
        (some (garbageLine ++ recordLine "cur".toList "7".toList))
        ⟨"cur".toList, "42".toList⟩)) "cur".toList = [] ∧
    readResumeIndex sampleLib
      (some (writeToResumeFile sampleLib (some (recordLine "a".toList "1".toList))
        ⟨"cur".toList, "42".toList⟩)) "cur".toList = "42".toList := by
  refine ⟨by decide, by decide, by decide, by decide⟩

/-- Counterexample to C18 as stated.  The prior file holds the line
`garbage`, which is no resume record.  The file written by
`writeToResumeFile` still holds that line, followed by an empty line, which
is no resume record either. -/
theorem C18_counterexample :
    sampleLib.Unmarshal garbageLine = none ∧
    (splitLines (writeToResumeFile sampleLib (some garbageLine)
      ⟨"cur".toList, "42".toList⟩)).1 =
      [garbageLine, [chNewline], recordLine "cur".toList "42".toList] ∧
    sampleLib.Unmarshal [chNewline] = none := by
  refine ⟨by decide, by decide, by decide⟩

/-- Counterexample to C19 as stated.  The prior file holds two records with
the index `cur`.  After `writeToResumeFile` updates `cur` the file holds two
records with the index `cur`, both with the new value. -/
theorem C19_counterexample :
    (splitLines (writeToResumeFile sampleLib
      (some (recordLine "cur".toList "1".toList ++ recordLine "cur".toList "2".toList))
      ⟨"cur".toList, "42".toList⟩)).1 =
      [recordLine "cur".toList "42".toList, recordLine "cur".toList "42".toList] := by
  decide

/-- C20 (the code at the failing input).  With the last event `id = 42` the
message is `cur|42` and the record is `cur`, `42`.  With the last event
`id = "a|b"` the message is `cur|a|b`, and the record handed to
`writeToResumeFile` has the value `a`, not the complete value `a|b`; the
resume file then holds the cursor `a`. -/
theorem C20_value_cut_at_bar :
    resumeValue sampleLib "cur".toList "id".toList [("id".toList, .int 42)]
      = "cur|42".toList ∧
    listenRecord "cur|42".toList = some ⟨"cur".toList, "42".toList⟩ ∧
    fmt_Sprintf_v sampleLib (MapStr.get [("id".toList, .str "a|b".toList)] "id".toList)
      = "a|b".toList ∧
    resumeValue sampleLib "cur".toList "id".toList [("id".toList, .str "a|b".toList)]
      = "cur|a|b".toList ∧
    listenRecord "cur|a|b".toList = some ⟨"cur".toList, "a".toList⟩ ∧
    (queryBody sampleParseFloat sampleLib queryTypeResumeMultipleRows "cur".toList "id".toList
      ["id".toList] [.ok ["a|b".toList]] 0 ⟨sampleBeat, none, [], []⟩).map
        (fun p => p.resumeFile) = some ["cur|a|b".toList] ∧
    listenResumeFile sampleLib ["cur|a|b".toList] none
      = some (some (recordLine "cur".toList "a".toList)) := by
  refine ⟨by decide, by decide, by decide, by decide, by decide, by decide, by decide⟩

theorem mem_set_key (m : MapStr) (k : Str) (v : Value) (p : Str × Value)
    (hp : p ∈ m.set k v) : p.1 = k ∨ p ∈ m := by
  induction m with
  | nil =>
    simp only [MapStr.set, List.mem_singleton] at hp
    left
    rw [hp]
  | cons a rest ih =>
    obtain ⟨k1, v1⟩ := a
    by_cases h : k1 = k
    · simp only [MapStr.set, h, if_true, List.mem_cons] at hp
      rcases hp with hp | hp
      · left
        rw [hp]
      · right
        exact List.mem_cons_of_mem _ hp
    · simp only [MapStr.set, h, if_false, List.mem_cons] at hp
      rcases hp with hp | hp
      · right
        rw [hp]
        exact List.mem_cons_self _ _
      · rcases ih hp with h1 | h1
        · left
          exact h1
        · right
          exact List.mem_cons_of_mem _ h1

theorem EventShape_set (e : MapStr) (k : Str) (v : Value) (h : EventShape e) :
    EventShape (e.set k v) := by
  unfold EventShape at h ⊢
  generalize "@timestamp".toList = ts at h ⊢
  generalize "type".toList = ty at h ⊢
  obtain ⟨a, b, extra, he, hex⟩ := h
  subst he
  by_cases h1 : ts = k
  · refine ⟨v, b, extra, ?_, hex⟩
    subst h1
    simp [MapStr.set]
  · by_cases h2 : ty = k
    · refine ⟨a, v, extra, ?_, hex⟩
      subst h2
      simp [MapStr.set, h1]
    · refine ⟨a, b, MapStr.set extra k v, ?_, ?_⟩
      · simp [MapStr.set, h1, h2]
      · intro p hp
        rcases mem_set_key extra k v p hp with hk | hk
        · rw [hk]
          exact ⟨fun h => h1 h.symm, fun h => h2 h.symm⟩
        · exact hex p hk

theorem get_of_mem_head (m : MapStr) (k : Str) (v : Value) :
    (MapStr.get ((k, v) :: m) k).isSome = true := by
  simp [MapStr.get]

theorem EventShape_len (e : MapStr) (h : EventShape e) : e.len = 2 ↔ ¬ hasMetricField e := by
  unfold EventShape at h
  unfold hasMetricField
  generalize "@timestamp".toList = ts at h ⊢
  generalize "type".toList = ty at h ⊢
  obtain ⟨a, b, extra, he, hex⟩ := h
  subst he
  constructor
  · intro hlen
    have hnil : extra = [] := by
      cases extra with
      | nil => rfl
      | cons x xs => simp [MapStr.len] at hlen
    subst hnil
    rintro ⟨k, hk1, hk2, hget⟩
    simp [MapStr.get, Ne.symm hk1, Ne.symm hk2] at hget
  · intro hno
    cases extra with
    | nil => rfl
    | cons x xs =>
      exfalso
      apply hno
      obtain ⟨kx, vx⟩ := x
      have hx := hex (kx, vx) (List.mem_cons_self _ _)
      refine ⟨kx, hx.1, hx.2, ?_⟩
      simp [MapStr.get, Ne.symm hx.1, Ne.symm hx.2]

theorem EventShape_len_gt (e : MapStr) (h : EventShape e) : e.len > 2 ↔ hasMetricField e := by
  have h2 := EventShape_len e h
  obtain ⟨a, b, extra, he, _⟩ := h
  have hge : e.len ≥ 2 := by
    subst he
    simp [MapStr.len]
  constructor
  · intro hgt
    by_contra hno
    have := h2.mpr hno
    omega
  · intro hm
    by_contra hle
    have heq : e.len = 2 := by omega
    exact (h2.mp heq) hm

theorem observeDelta_event (bt : Mysqlbeat) (event : MapStr) (strKey name strColValue : Str)
    (ty : ColumnType) (n : Int) (f : F64) (rowAge : Int) :
    (observeDelta bt event strKey name strColValue ty n f rowAge).1 = event ∨
      ∃ v, (observeDelta bt event strKey name strColValue ty n f rowAge).1
        = event.set name v := by
  unfold observeDelta
  cases h1 : bt.oldValues.get strKey with
  | none => left; rfl
  | some old =>
    cases h2 : bt.oldValuesAge.get strKey with
    | none => left; rfl
    | some age =>
      cases age with
      | time t =>
        cases ty with
        | columnTypeString => right; exact ⟨_, rfl⟩
        | columnTypeInt => right; exact ⟨_, rfl⟩
        | columnTypeFloat => right; exact ⟨_, rfl⟩
      | str s => left; rfl
      | int s => left; rfl
      | float s => left; rfl

theorem columnStep_shape (pf : Str → Option F64) (values columns : List Str) (queryType : Str)
    (rowAge : Int) (bt : Mysqlbeat) (event : MapStr) (c v : Str) (e1 : MapStr)
    (bt1 : Mysqlbeat)
    (hstep : columnStep pf values columns queryType rowAge bt event c v = (.ok e1, bt1))
    (h : EventShape event) : EventShape e1 := by
  unfold columnStep at hstep
  split at hstep
  · injection hstep with h1 h2
    injection h1 with h1
    rw [← h1]
    exact h
  · simp only [] at hstep
    split at hstep
    · split at hstep
      · injection hstep with h1 h2
        cases h1
      · injection hstep with h1 h2
        injection h1 with h1
        rw [← h1]
        rcases observeDelta_event bt event _ (eventColName bt c) v _ _ _ rowAge with ho | ⟨w, ho⟩
        · rw [ho]
          exact h
        · rw [ho]
          exact EventShape_set _ _ _ h
    · injection hstep with h1 h2
      injection h1 with h1
      rw [← h1]
      exact EventShape_set _ _ _ h

theorem columnLoop_shape (pf : Str → Option F64) (values columns : List Str) (queryType : Str)
    (rowAge : Int) (l : List (Str × Str)) (bt : Mysqlbeat) (event : MapStr) (e1 : MapStr)
    (bt1 : Mysqlbeat)
    (hloop : columnLoop pf values columns queryType rowAge l bt event = (.ok e1, bt1))
    (h : EventShape event) : EventShape e1 := by
  induction l generalizing bt event with
  | nil =>
    simp only [columnLoop] at hloop
    injection hloop with h1 h2
    injection h1 with h1
    rw [← h1]
    exact h
  | cons a rest ih =>
    obtain ⟨c, v⟩ := a
    rw [columnLoop_cons] at hloop
    cases hs : columnStep pf values columns queryType rowAge bt event c v with
    | mk r b =>
      rw [hs] at hloop
      cases r with
      | error e => simp at hloop
      | ok e2 =>
        simp only [] at hloop
        exact ih b e2 hloop (columnStep_shape pf values columns queryType rowAge bt event c v
          e2 b hs h)

theorem fresh_shape (t : Int) (qt : Str) :
    EventShape [("@timestamp".toList, .time t), ("type".toList, .str qt)] :=
  ⟨_, _, [], rfl, by simp⟩

theorem appendRowToEvent_shape (pf : Str → Option F64) (bt : Mysqlbeat) (event : MapStr)
    (row : Except String (List Str)) (rowAge : Int) (e1 : MapStr) (bt1 : Mysqlbeat)
    (hstep : appendRowToEvent pf bt event row rowAge = some (.ok e1, bt1))
    (h : EventShape event) : EventShape e1 := by
  unfold appendRowToEvent at hstep
  split at hstep
  · simp at hstep
  · simp only [] at hstep
    split at hstep
    · injection hstep with h1
      injection h1 with h1 h2
      injection h1 with h1
      rw [← h1]
      rcases observeDelta_event bt event _
        (strings_Replace _ bt.deltaWildcard "_PERSECOND".toList) _ _ _ _ rowAge
        with ho | ⟨w, ho⟩
      · rw [ho]
        exact h
      · rw [ho]
        exact EventShape_set _ _ _ h
    · injection hstep with h1
      injection h1 with h1 h2
      injection h1 with h1
      rw [← h1]
      exact EventShape_set _ _ _ h
  · simp at hstep

theorem appendRows_shape (pf : Str → Option F64) (dtNow : Int)
    (rows : List (Except String (List Str))) (bt : Mysqlbeat) (event : MapStr) (e1 : MapStr)
    (bt1 : Mysqlbeat)
    (hloop : appendRows pf dtNow rows bt event = some (e1, bt1))
    (h : EventShape event) : EventShape e1 := by
  induction rows generalizing bt event with
  | nil =>
    simp only [appendRows] at hloop
    injection hloop with h1
    injection h1 with h1 h2
    rw [← h1]
    exact h
  | cons row rest ih =>
    unfold appendRows at hloop
    cases hs : appendRowToEvent pf bt event row dtNow with
    | none => rw [hs] at hloop; simp at hloop
    | some res =>
      obtain ⟨r, b⟩ := res
      rw [hs] at hloop
      cases r with
      | error e =>
        simp only [] at hloop
        injection hloop with h1
        injection h1 with h1 h2
        rw [← h1]
        exact h
      | ok e2 =>
        simp only [] at hloop
        exact ih b e2 hloop (appendRowToEvent_shape pf bt event row dtNow e2 b hs h)

theorem fresh_no_metric (a b : Value) :
    ¬ hasMetricField [("@timestamp".toList, a), ("type".toList, b)] :=
  (EventShape_len _ ⟨a, b, [], rfl, by simp⟩).mp rfl

/-- C12 (empty events).  `generateEventFromRow` returns a non-nil event only
when the event holds a field besides `@timestamp` and `type`, and returns nil
without error exactly when the scan succeeded, no column failed and the event
built by the column loop holds no other field.  In `beat` the shared
two-columns event that the rows have filled is published when it holds a
field besides those two, and is not published otherwise. -/
theorem C12_empty_events_suppressed (pf : Str → Option F64) (lib : GoLib) (bt : Mysqlbeat)
    (row : Except String (List Str)) (columns : List Str) (queryType uniKey column : Str)
    (rowAge : Int) (rows : List (Except String (List Str))) (p : Pass) :
    (∀ e, (generateEventFromRow pf bt row columns queryType rowAge).1 = .ok (some e) →
      hasMetricField e) ∧
    ((generateEventFromRow pf bt row columns queryType rowAge).1 = .ok none ↔
      ∃ values e bt1, row = .ok values ∧
        columnLoop pf values columns queryType rowAge (columns.zip values) bt
          [("@timestamp".toList, .time rowAge), ("type".toList, .str queryType)]
          = (.ok e, bt1) ∧
        ¬ hasMetricField e) ∧
    (∀ e bt1,
      appendRows pf rowAge rows p.bt
        [("@timestamp".toList, .time rowAge), ("type".toList, .str queryTypeTwoColumns)]
        = some (e, bt1) →
      (hasMetricField e →
        queryBody pf lib queryTypeTwoColumns uniKey column columns rows rowAge p
          = some ⟨bt1, none, p.published ++ [e], p.resumeFile⟩) ∧
      (¬ hasMetricField e →
        queryBody pf lib queryTypeTwoColumns uniKey column columns rows rowAge p
          = some ⟨bt1, some e, p.published, p.resumeFile⟩)) := by
  refine ⟨?_, ?_, ?_⟩
  · intro e he
    unfold generateEventFromRow at he
    cases row with
    | error err => simp at he
    | ok values =>
      simp only [] at he
      cases hl : columnLoop pf values columns queryType rowAge (columns.zip values) bt
          [("@timestamp".toList, .time rowAge), ("type".toList, .str queryType)] with
      | mk r b =>
        rw [hl] at he
        cases r with
        | error err => simp at he
        | ok e1 =>
          have hs := columnLoop_shape pf values columns queryType rowAge _ bt _ e1 b hl
            (fresh_shape rowAge queryType)
          simp only [] at he
          by_cases hlen : e1.len = 2
          · rw [if_pos hlen] at he
            simp at he
          · rw [if_neg hlen] at he
            injection he with he
            injection he with he
            rw [← he]
            by_contra hno
            exact hlen ((EventShape_len e1 hs).mpr hno)
  · unfold generateEventFromRow
    cases row with
    | error err =>
      constructor
      · intro h
        cases h
      · rintro ⟨values, e, bt1, hv, _⟩
        cases hv
    | ok values =>
      simp only []
      cases hl : columnLoop pf values columns queryType rowAge (columns.zip values) bt
          [("@timestamp".toList, .time rowAge), ("type".toList, .str queryType)] with
      | mk r b =>
        cases r with
        | error err =>
          constructor
          · intro h
            cases h
          · rintro ⟨values2, e2, b2, hv, hl2, _⟩
            injection hv with hv
            subst hv
            rw [hl] at hl2
            injection hl2 with h1 h2
            cases h1
        | ok e1 =>
          have hs := columnLoop_shape pf values columns queryType rowAge _ bt _ e1 b hl
            (fresh_shape rowAge queryType)
          constructor
          · intro h
            simp only [] at h
            by_cases hlen : e1.len = 2
            · exact ⟨values, e1, b, rfl, hl, (EventShape_len e1 hs).mp hlen⟩
            · rw [if_neg hlen] at h
              simp at h
          · rintro ⟨values2, e2, b2, hv, hl2, hno⟩
            injection hv with hv
            subst hv
            rw [hl] at hl2
            injection hl2 with h1 h2
            injection h1 with h1
            subst h1
            simp only []
            rw [if_pos ((EventShape_len e1 hs).mpr hno)]
  · intro e bt1 hrows
    have hs := appendRows_shape pf rowAge rows p.bt _ e bt1 hrows
      (fresh_shape rowAge queryTypeTwoColumns)
    have h1 : ¬ (queryTypeTwoColumns = queryTypeSingleRow ∨
        queryTypeTwoColumns = queryTypeSlaveDelay) := by decide
    have h2 : ¬ (queryTypeTwoColumns = queryTypeMultipleRows ∨
        queryTypeTwoColumns = queryTypeResumeMultipleRows) := by decide
    constructor
    · intro hm
      unfold queryBody
      simp only [if_neg h1, if_neg h2, if_true, hrows]
      rw [if_pos ⟨trivial, (EventShape_len_gt e hs).mpr hm⟩]
    · intro hno
      unfold queryBody
      simp only [if_neg h1, if_neg h2, if_true, hrows]
      rw [if_neg]
      intro hcon
      exact hno ((EventShape_len_gt e hs).mp hcon.2)

/-- Witness of C12: the second cycle of Scenario A returns an event with the
field `count`; a `show-slave-delay` row without the column
`Seconds_Behind_Master` returns nil; Scenario B publishes the shared event
with the field `metricA`; a two-columns query whose only row is a first
observation publishes nothing. -/
theorem C12_empty_events_suppressed_witness :
    hasMetricField [("@timestamp".toList, .time 0), ("type".toList, .str queryTypeSingleRow),
      ("count".toList, .int 120)] ∧
    (generateEventFromRow sampleParseFloat sampleBeat (.ok ["7".toList]) ["x".toList]
      queryTypeSlaveDelay 0).1 = .ok none ∧
    queryBody sampleParseFloat sampleLib queryTypeTwoColumns [] [] ["n".toList, "v".toList]
      scenarioBRows 0 ⟨sampleBeat, none, [], []⟩ =
      some ⟨(generateEventFromRow sampleParseFloat sampleBeat (.ok ["20".toList])
          ["metricB__DELTA".toList] queryTypeSingleRow 0).2, none,
        [[("@timestamp".toList, .time 0), ("type".toList, .str queryTypeTwoColumns),
          ("metricA".toList, .int 10)]], []⟩ ∧
    queryBody sampleParseFloat sampleLib queryTypeTwoColumns [] [] ["n".toList, "v".toList]
      [.ok ["metricB__DELTA".toList, "20".toList]] 0 ⟨sampleBeat, none, [], []⟩ =
      some ⟨(generateEventFromRow sampleParseFloat sampleBeat (.ok ["20".toList])
          ["metricB__DELTA".toList] queryTypeSingleRow 0).2, some freshTwoColumns, [], []⟩ := by
  have hA := (C12_empty_events_suppressed sampleParseFloat sampleLib sampleBeat
    (.ok ["120".toList, "120".toList]) scenarioAColumns queryTypeSingleRow [] [] 0 []
    ⟨sampleBeat, none, [], []⟩).1
    [("@timestamp".toList, .time 0), ("type".toList, .str queryTypeSingleRow),
      ("count".toList, .int 120)] (by decide)
  have hS := (C12_empty_events_suppressed sampleParseFloat sampleLib sampleBeat
    (.ok ["7".toList]) ["x".toList] queryTypeSlaveDelay [] [] 0 []
    ⟨sampleBeat, none, [], []⟩).2.1.mpr
    ⟨["7".toList], [("@timestamp".toList, .time 0), ("type".toList, .str queryTypeSlaveDelay)],
      sampleBeat, rfl, by decide, fresh_no_metric _ _⟩
  exact ⟨hA, hS, by decide, by decide⟩

theorem strings_Replace_absent (s old new : Str) (h : occursIn old s = false) :
    strings_Replace s old new = s := by
  induction s with
  | nil =>
    simp only [occursIn] at h
    unfold strings_Replace
    rw [if_neg (by rw [h]; exact Bool.false_ne_true)]
  | cons c cs ih =>
    simp only [occursIn, Bool.or_eq_false_iff] at h
    unfold strings_Replace
    rw [if_neg (by rw [h.1]; exact Bool.false_ne_true)]
    simp only []
    rw [ih h.2]

/-- A two-columns row whose name does not end with the delta marker: its
typed value is put in the shared event and the beater is left as it was. -/
theorem appendRowToEvent_plain (pf : Str → Option F64) (bt : Mysqlbeat) (event : MapStr)
    (strColName strColValue : Str) (rest : List Str) (rowAge : Int)
    (hsuf : strings_HasSuffix strColName bt.deltaWildcard = false) :
    appendRowToEvent pf bt event (.ok (strColName :: strColValue :: rest)) rowAge =
      some (.ok (event.set (strings_Replace strColName bt.deltaWildcard "_PERSECOND".toList)
        (inferredValue pf strColValue)), bt) := by
  unfold appendRowToEvent inferredValue
  simp [hsuf]

theorem appendRows_cons (pf : Str → Option F64) (dtNow : Int) (row : Except String (List Str))
    (rest : List (Except String (List Str))) (bt : Mysqlbeat) (event : MapStr) :
    appendRows pf dtNow (row :: rest) bt event =
      match appendRowToEvent pf bt event row dtNow with
      | none => none
      | some (.error _, bt1) => some (event, bt1)
      | some (.ok event1, bt1) => appendRows pf dtNow rest bt1 event1 := rfl

theorem appendRows_accumulate (pf : Str → Option F64) (dtNow : Int) (rows : List (Str × Str))
    (bt : Mysqlbeat) (event : MapStr)
    (hnodup : (rows.map Prod.fst).Nodup)
    (hfresh : ∀ p ∈ rows, bt.oldValues.get p.1 = none)
    (hplain : ∀ p ∈ rows, strings_HasSuffix p.1 bt.deltaWildcard = false →
      occursIn bt.deltaWildcard p.1 = false) :
    ∃ event1 bt1,
      appendRows pf dtNow (rows.map (fun p => Except.ok [p.1, p.2])) bt event
        = some (event1, bt1) ∧
      (∀ p ∈ rows, strings_HasSuffix p.1 bt.deltaWildcard = false →
        event1.get p.1 = some (inferredValue pf p.2)) ∧
      (∀ k, (∀ p ∈ rows, strings_HasSuffix p.1 bt.deltaWildcard = false → p.1 ≠ k) →
        event1.get k = event.get k) := by
  induction rows generalizing bt event with
  | nil => exact ⟨event, bt, rfl, by simp, fun _ _ => rfl⟩
  | cons a rest ih =>
    obtain ⟨n, v⟩ := a
    simp only [List.map_cons, List.nodup_cons, List.mem_map, not_exists, not_and] at hnodup
    obtain ⟨hn, hnd⟩ := hnodup
    have hne : ∀ p ∈ rest, p.1 ≠ n := fun p hp h => hn p hp h
    rw [List.map_cons, appendRows_cons]
    by_cases hsuf : strings_HasSuffix n bt.deltaWildcard = true
    · rw [appendRowToEvent_delta pf bt event n v [] dtNow hsuf,
        observeDelta_first bt event n _ v _ _ _ dtNow
          (hfresh (n, v) (List.mem_cons_self _ _))]
      simp only []
      obtain ⟨e1, b1, hrun, hval, hframe⟩ := ih
        { bt with
          oldValuesAge := bt.oldValuesAge.set n (.time dtNow)
          oldValues := bt.oldValues.set n (typedValue (parseColumn pf v).1 v
            (parseColumn pf v).2.1 (parseColumn pf v).2.2) }
        event hnd
        (fun p hp => by
          rw [MapStr.get_set_ne _ _ _ _ (hne p hp)]
          exact hfresh p (List.mem_cons_of_mem _ hp))
        (fun p hp => hplain p (List.mem_cons_of_mem _ hp))
      refine ⟨e1, b1, hrun, ?_, ?_⟩
      · intro p hp hps
        rcases List.mem_cons.mp hp with h | h
        · subst h
          rw [hsuf] at hps
          cases hps
        · exact hval p h hps
      · intro k hk
        exact hframe k (fun p hp hps => hk p (List.mem_cons_of_mem _ hp) hps)
    · have hsuf2 : strings_HasSuffix n bt.deltaWildcard = false := by
        simpa using hsuf
      rw [appendRowToEvent_plain pf bt event n v [] dtNow hsuf2,
        strings_Replace_absent _ _ _ (hplain (n, v) (List.mem_cons_self _ _) hsuf2)]
      simp only []
      obtain ⟨e1, b1, hrun, hval, hframe⟩ := ih bt (event.set n (inferredValue pf v)) hnd
        (fun p hp => hfresh p (List.mem_cons_of_mem _ hp))
        (fun p hp => hplain p (List.mem_cons_of_mem _ hp))
      refine ⟨e1, b1, hrun, ?_, ?_⟩
      · intro p hp hps
        rcases List.mem_cons.mp hp with h | h
        · subst h
          rw [hframe n (fun q hq _ => hne q hq), MapStr.get_set_same]
        · exact hval p h hps
      · intro k hk
        rw [hframe k (fun p hp hps => hk p (List.mem_cons_of_mem _ hp) hps)]
        exact MapStr.get_set_ne _ _ _ _ (fun h => hk (n, v) (List.mem_cons_self _ _) hsuf2 h.symm)

/-- C13 as amended.  The metric names of the rows are pairwise distinct, the
delta state has no record for any of them, and a name that does not end with
the delta marker does not hold the marker at all.  After `appendRowToEvent`
has processed the rows, from a fresh shared event, every name not ending with
the delta marker is a field of the shared event with its typed value, and
every other key holds what the fresh event held: the event has no other
field, in particular none for a delta-suffixed name. -/
theorem C13_two_columns_accumulation (pf : Str → Option F64) (bt : Mysqlbeat)
    (rows : List (Str × Str)) (dtNow : Int)
    (hnodup : (rows.map Prod.fst).Nodup)
    (hfresh : ∀ p ∈ rows, bt.oldValues.get p.1 = none)
    (hplain : ∀ p ∈ rows, strings_HasSuffix p.1 bt.deltaWildcard = false →
      occursIn bt.deltaWildcard p.1 = false) :
    ∃ event bt1,
      appendRows pf dtNow (rows.map (fun p => Except.ok [p.1, p.2])) bt
        [("@timestamp".toList, .time dtNow), ("type".toList, .str queryTypeTwoColumns)]
        = some (event, bt1) ∧
      (∀ p ∈ rows, strings_HasSuffix p.1 bt.deltaWildcard = false →
        event.get p.1 = some (inferredValue pf p.2)) ∧
      (∀ k, (∀ p ∈ rows, strings_HasSuffix p.1 bt.deltaWildcard = false → p.1 ≠ k) →
        event.get k = MapStr.get
          [("@timestamp".toList, .time dtNow), ("type".toList, .str queryTypeTwoColumns)] k) :=
  appendRows_accumulate pf dtNow rows bt _ hnodup hfresh hplain

/-- Witness of C13 as amended, Scenario B: the rows `("metricA","10")`,
`("metricB__DELTA","20")` give `metricA = 10`, an integer, and no field
`metricB_PERSECOND`. -/
theorem C13_two_columns_accumulation_witness :
    (([("metricA".toList, "10".toList), ("metricB__DELTA".toList, "20".toList)] :
      List (Str × Str)).map Prod.fst).Nodup ∧
    (∀ p ∈ ([("metricA".toList, "10".toList), ("metricB__DELTA".toList, "20".toList)] :
      List (Str × Str)), sampleBeat.oldValues.get p.1 = none) ∧
    (∀ p ∈ ([("metricA".toList, "10".toList), ("metricB__DELTA".toList, "20".toList)] :
      List (Str × Str)), strings_HasSuffix p.1 sampleBeat.deltaWildcard = false →
      occursIn sampleBeat.deltaWildcard p.1 = false) ∧
    ∃ event bt1,
      appendRows sampleParseFloat 0 scenarioBRows sampleBeat freshTwoColumns
        = some (event, bt1) ∧
      event.get "metricA".toList = some (.int 10) ∧
      event.get "metricB_PERSECOND".toList = none := by
  have h1 : (([("metricA".toList, "10".toList), ("metricB__DELTA".toList, "20".toList)] :
      List (Str × Str)).map Prod.fst).Nodup := by decide
  have h2 : ∀ p ∈ ([("metricA".toList, "10".toList), ("metricB__DELTA".toList, "20".toList)] :
      List (Str × Str)), sampleBeat.oldValues.get p.1 = none := by decide
  have h3 : ∀ p ∈ ([("metricA".toList, "10".toList), ("metricB__DELTA".toList, "20".toList)] :
      List (Str × Str)), strings_HasSuffix p.1 sampleBeat.deltaWildcard = false →
      occursIn sampleBeat.deltaWildcard p.1 = false := by decide
  obtain ⟨event, bt1, hrun, hval, hframe⟩ := C13_two_columns_accumulation sampleParseFloat
    sampleBeat [("metricA".toList, "10".toList), ("metricB__DELTA".toList, "20".toList)] 0
    h1 h2 h3
  refine ⟨h1, h2, h3, event, bt1, hrun, ?_, ?_⟩
  · have := hval ("metricA".toList, "10".toList) (by simp) (by decide)
    rw [this]
    decide
  · rw [hframe "metricB_PERSECOND".toList (by decide)]
    decide

theorem updateLoop_eq (lib : GoLib) (ri : ResumeIndex) (contents : List Str) (find : Bool) :
    updateLoop lib ri contents find =
      (contents.map (rewriteEntry lib ri), find || contents.any (hitEntry lib ri)) := by
  induction contents generalizing find with
  | nil => simp [updateLoop]
  | cons c rest ih =>
    unfold updateLoop
    cases h : lib.Unmarshal c with
    | none =>
      simp only [ih, List.map_cons, List.any_cons, rewriteEntry, hitEntry, h, Bool.false_or]
    | some m =>
      simp only [ih, List.map_cons, List.any_cons, rewriteEntry, hitEntry, h, updateRecord,
        Bool.or_assoc]
      by_cases hm : m.Index = ri.Index <;> simp [hm]

/-- The entries that `writeToResumeFile` writes: every entry of the prior
file rewritten in place, and the new record at the end when no record had
its index. -/
theorem rewrittenEntries_eq (lib : GoLib) (file : Option Str) (ri : ResumeIndex) :
    rewrittenEntries lib file ri =
      (readContents file).map (rewriteEntry lib ri) ++
        (if (readContents file).any (hitEntry lib ri) then [] else [lib.Marshal ri]) := by
  unfold rewrittenEntries
  simp only [updateLoop_eq, Bool.false_or]
  cases h : (readContents file).any (hitEntry lib ri) <;> simp

theorem splitLines_line (l rest : Str) (hl : chNewline ∉ l) :
    splitLines (l ++ chNewline :: rest) =
      ((l ++ [chNewline]) :: (splitLines rest).1, (splitLines rest).2) := by
  induction l with
  | nil =>
    simp only [List.nil_append]
    rw [splitLines]
    simp
  | cons c cs ih =>
    have hc : c ≠ chNewline := fun h => hl (by rw [h]; exact List.mem_cons_self _ _)
    have hcs : chNewline ∉ cs := fun h => hl (List.mem_cons_of_mem _ h)
    simp only [List.cons_append]
    rw [splitLines, ih hcs]
    simp [hc]

theorem splitLines_fileOf (lib : GoLib) (hnl : ∀ m, chNewline ∉ lib.Marshal m)
    (rs : List ResumeIndex) :
    splitLines (fileOf lib rs) = (rs.map (fun m => lib.Marshal m ++ [chNewline]), []) := by
  induction rs with
  | nil => rfl
  | cons m rest ih =>
    have h : fileOf lib (m :: rest) = lib.Marshal m ++ chNewline :: fileOf lib rest := by
      simp [fileOf]
    rw [h, splitLines_line _ _ (hnl m), ih]
    simp

theorem readContents_fileOf (lib : GoLib) (hnl : ∀ m, chNewline ∉ lib.Marshal m)
    (rs : List ResumeIndex) :
    readContents (some (fileOf lib rs)) = rs.map (fun m => lib.Marshal m ++ [chNewline]) := by
  unfold readContents
  simp [splitLines_fileOf lib hnl rs]

theorem recordsOf_fileOf (lib : GoLib)
    (hrt : ∀ m, lib.Unmarshal (lib.Marshal m ++ [chNewline]) = some m)
    (hnl : ∀ m, chNewline ∉ lib.Marshal m) (rs : List ResumeIndex) :
    recordsOf lib (some (fileOf lib rs)) = rs := by
  unfold recordsOf
  rw [readContents_fileOf lib hnl rs]
  induction rs with
  | nil => rfl
  | cons m rest ih => simp [List.filterMap_cons, hrt m, ih]

theorem readLoop_lines (lib : GoLib)
    (hrt : ∀ m, lib.Unmarshal (lib.Marshal m ++ [chNewline]) = some m) (k : Str)
    (rs : List ResumeIndex) :
    readLoop lib k (rs.map (fun m => lib.Marshal m ++ [chNewline])) = lookupRecord k rs := by
  induction rs with
  | nil => rfl
  | cons m rest ih =>
    simp only [List.map_cons, readLoop, hrt m, lookupRecord, ih]

theorem readResumeIndex_fileOf (lib : GoLib)
    (hrt : ∀ m, lib.Unmarshal (lib.Marshal m ++ [chNewline]) = some m)
    (hnl : ∀ m, chNewline ∉ lib.Marshal m) (k : Str) (rs : List ResumeIndex) :
    readResumeIndex lib (some (fileOf lib rs)) k = lookupRecord k rs := by
  unfold readResumeIndex
  simp only [splitLines_fileOf lib hnl rs]
  exact readLoop_lines lib hrt k rs

theorem map_rewriteEntry_wellFormed (lib : GoLib) (ri : ResumeIndex) (contents : List Str)
    (hwf : ∀ c ∈ contents, (lib.Unmarshal c).isSome = true) :
    contents.map (rewriteEntry lib ri) =
      ((contents.filterMap lib.Unmarshal).map (updateRecord ri)).map lib.Marshal ∧
    contents.any (hitEntry lib ri) =
      (contents.filterMap lib.Unmarshal).any (fun m => decide (m.Index = ri.Index)) := by
  induction contents with
  | nil => exact ⟨rfl, rfl⟩
  | cons c rest ih =>
    have hc := hwf c (List.mem_cons_self _ _)
    obtain ⟨ih1, ih2⟩ := ih (fun d hd => hwf d (List.mem_cons_of_mem _ hd))
    cases h : lib.Unmarshal c with
    | none => rw [h] at hc; cases hc
    | some m =>
      constructor
      · simp [List.filterMap_cons, h, rewriteEntry, ih1]
      · simp [List.filterMap_cons, h, hitEntry, ih2]

/-- On a file of well-formed records `writeToResumeFile` writes the file of
the updated records. -/
theorem writeToResumeFile_wellFormed (lib : GoLib) (file : Option Str) (ri : ResumeIndex)
    (hwf : ∀ c ∈ readContents file, (lib.Unmarshal c).isSome = true) :
    writeToResumeFile lib file ri = fileOf lib (updateRecords ri (recordsOf lib file)) := by
  unfold writeToResumeFile fileOf updateRecords recordsOf
  rw [rewrittenEntries_eq]
  obtain ⟨h1, h2⟩ := map_rewriteEntry_wellFormed lib ri (readContents file) hwf
  rw [h1, h2]
  cases h : ((readContents file).filterMap lib.Unmarshal).any
      (fun m => decide (m.Index = ri.Index)) <;> simp [Function.comp_def]

theorem wellFormed_fileOf (lib : GoLib)
    (hrt : ∀ m, lib.Unmarshal (lib.Marshal m ++ [chNewline]) = some m)
    (hnl : ∀ m, chNewline ∉ lib.Marshal m) (rs : List ResumeIndex) :
    ∀ c ∈ readContents (some (fileOf lib rs)), (lib.Unmarshal c).isSome = true := by
  rw [readContents_fileOf lib hnl rs]
  intro c hc
  obtain ⟨m, _, hm⟩ := List.mem_map.mp hc
  rw [← hm, hrt m]
  rfl

theorem updateRecord_Index (ri m : ResumeIndex) : (updateRecord ri m).Index = m.Index := by
  unfold updateRecord
  split <;> rfl

theorem lookupRecord_append (k : Str) (xs ys : List ResumeIndex) :
    lookupRecord k (xs ++ ys) =
      if xs.any (fun m => decide (m.Index = k)) then lookupRecord k xs
      else lookupRecord k ys := by
  induction xs with
  | nil => simp
  | cons m rest ih =>
    by_cases h : m.Index = k
    · simp [lookupRecord, h]
    · simp [lookupRecord, h, ih]

theorem any_map_updateRecord (ri : ResumeIndex) (k : Str) (xs : List ResumeIndex) :
    (xs.map (updateRecord ri)).any (fun m => decide (m.Index = k)) =
      xs.any (fun m => decide (m.Index = k)) := by
  induction xs with
  | nil => rfl
  | cons m rest ih => simp [updateRecord_Index, ih]

theorem lookupRecord_map_same (ri : ResumeIndex) (xs : List ResumeIndex)
    (h : xs.any (fun m => decide (m.Index = ri.Index)) = true) :
    lookupRecord ri.Index (xs.map (updateRecord ri)) = ri.Value := by
  induction xs with
  | nil => simp at h
  | cons m rest ih =>
    by_cases hm : m.Index = ri.Index
    · simp [lookupRecord, updateRecord, hm]
    · have hrest : rest.any (fun m => decide (m.Index = ri.Index)) = true := by
        simpa [hm] using h
      simp [lookupRecord, updateRecord, hm, ih hrest]

theorem lookupRecord_map_ne (ri : ResumeIndex) (k : Str) (hk : k ≠ ri.Index)
    (xs : List ResumeIndex) :
    lookupRecord k (xs.map (updateRecord ri)) = lookupRecord k xs := by
  induction xs with
  | nil => rfl
  | cons m rest ih =>
    by_cases hm : m.Index = ri.Index
    · have hmk : ¬ ri.Index = k := fun h => hk h.symm
      simp [lookupRecord, updateRecord, hm, ih, hmk]
    · simp [lookupRecord, updateRecord, hm, ih]

/-- After the update of the index of `ri` its value is the one found. -/
theorem lookupRecord_update_same (ri : ResumeIndex) (rs : List ResumeIndex) :
    lookupRecord ri.Index (updateRecords ri rs) = ri.Value := by
  unfold updateRecords
  rw [lookupRecord_append, any_map_updateRecord]
  cases h : rs.any (fun m => decide (m.Index = ri.Index)) with
  | true => simp [lookupRecord_map_same ri rs h]
  | false => simp [lookupRecord]

/-- The update of the index of `ri` leaves the value found for another
index as it was. -/
theorem lookupRecord_update_ne (ri : ResumeIndex) (k : Str) (hk : k ≠ ri.Index)
    (rs : List ResumeIndex) :
    lookupRecord k (updateRecords ri rs) = lookupRecord k rs := by
  unfold updateRecords
  rw [lookupRecord_append, any_map_updateRecord, lookupRecord_map_ne ri k hk]
  cases h : rs.any (fun m => decide (m.Index = k)) with
  | true => simp
  | false =>
    have hnone : lookupRecord k rs = [] := by
      clear hk
      induction rs with
      | nil => rfl
      | cons m rest ih =>
        simp only [List.any_cons, Bool.or_eq_false_iff, decide_eq_false_iff_not] at h
        simp [lookupRecord, h.1, ih h.2]
    rw [if_neg Bool.false_ne_true, hnone]
    split
    · rfl
    · simp [lookupRecord, Ne.symm hk]

/-- The update of the index of `ri` leaves the records of the other indices
as they were, in their order. -/
theorem filter_update_ne (ri : ResumeIndex) (q : Str → Bool) (hq : q ri.Index = false)
    (rs : List ResumeIndex) :
    (updateRecords ri rs).filter (fun m => q m.Index) = rs.filter (fun m => q m.Index) := by
  unfold updateRecords
  rw [List.filter_append]
  have h1 : (rs.map (updateRecord ri)).filter (fun m => q m.Index)
      = rs.filter (fun m => q m.Index) := by
    induction rs with
    | nil => rfl
    | cons m rest ih =>
      by_cases hm : m.Index = ri.Index
      · simp [List.filter_cons, updateRecord, hm, hq, ih]
      · simp [List.filter_cons, updateRecord, hm, ih]
  have h2 : (if rs.any (fun m => decide (m.Index = ri.Index)) then []
      else [ri]).filter (fun m => q m.Index) = [] := by
    split <;> simp [hq]
  rw [h1, h2, List.append_nil]

theorem sampleExpect_append (p r : Str) : sampleExpect p (p ++ r) = some r := by
  unfold sampleExpect
  have h : p.isPrefixOf (p ++ r) = true := by
    rw [List.isPrefixOf_iff_prefix]
    exact List.prefix_append p r
  rw [if_pos h]
  simp

theorem sampleString_quote (rest : Str) : sampleString (chQuote :: rest) = some ([], rest) := by
  unfold sampleString
  simp

theorem sampleString_backslash (d : Char) (ds : Str) :
    sampleString (chBackslash :: d :: ds) =
      match sampleString ds with
      | none => none
      | some (s, rest) =>
        if d = chQuote ∨ d = chBackslash then some (d :: s, rest)
        else if d = 'n' then some (chNewline :: s, rest)
        else none := by
  have hqb : chBackslash ≠ chQuote := by decide
  conv_lhs => unfold sampleString
  simp only [if_neg hqb, if_true]

theorem sampleString_other (c : Char) (cs : Str) (h1 : c ≠ chQuote) (h2 : c ≠ chBackslash) :
    sampleString (c :: cs) =
      match sampleString cs with
      | none => none
      | some (s, rest) => some (c :: s, rest) := by
  conv_lhs => unfold sampleString
  simp only [if_neg h1, if_neg h2]

theorem sampleString_escape (s rest : Str) :
    sampleString ((s.map sampleEscape).flatten ++ chQuote :: rest) = some (s, rest) := by
  induction s with
  | nil => exact sampleString_quote rest
  | cons c cs ih =>
    have hnq : ('n' : Char) ≠ chQuote := by decide
    have hnb : ('n' : Char) ≠ chBackslash := by decide
    simp only [List.map_cons, List.flatten_cons, List.append_assoc]
    by_cases h1 : c = chQuote
    · subst h1
      simp only [sampleEscape, if_true, List.cons_append, List.nil_append]
      rw [sampleString_backslash, ih]
      simp
    · by_cases h2 : c = chBackslash
      · subst h2
        simp only [sampleEscape, if_neg h1, if_true, List.cons_append, List.nil_append]
        rw [sampleString_backslash, ih]
        simp
      · by_cases h3 : c = chNewline
        · subst h3
          simp only [sampleEscape, if_neg h1, if_neg h2, if_true, List.cons_append,
            List.nil_append]
          rw [sampleString_backslash, ih]
          simp [hnq, hnb]
        · simp only [sampleEscape, if_neg h1, if_neg h2, if_neg h3, List.cons_append,
            List.nil_append]
          rw [sampleString_other c _ h1 h2, ih]

/-- The sample codec reads back what it writes. -/
theorem sample_round_trip (m : ResumeIndex) :
    sampleLib.Unmarshal (sampleLib.Marshal m ++ [chNewline]) = some m := by
  show sampleUnmarshal (sampleMarshal m ++ [chNewline]) = some m
  have h : sampleMarshal m ++ [chNewline] =
      sampleHead ++ ((m.Index.map sampleEscape).flatten ++ chQuote ::
        (sampleMiddle ++ ((m.Value.map sampleEscape).flatten ++ chQuote ::
          [chRBrace, chNewline]))) := by
    simp [sampleMarshal]
  rw [h]
  unfold sampleUnmarshal
  rw [sampleExpect_append]
  simp only []
  rw [sampleString_escape]
  simp only []
  rw [sampleExpect_append]
  simp only []
  rw [sampleString_escape]
  simp

theorem sampleEscape_no_newline (s : Str) : chNewline ∉ (s.map sampleEscape).flatten := by
  induction s with
  | nil => simp
  | cons c cs ih =>
    simp only [List.map_cons, List.flatten_cons, List.mem_append, not_or]
    refine ⟨?_, ih⟩
    unfold sampleEscape
    have h1 : chNewline ≠ chBackslash := by decide
    have h2 : chNewline ≠ chQuote := by decide
    have h3 : chNewline ≠ 'n' := by decide
    split
    · simp [h1, h2]
    · split
      · simp [h1]
      · split
        · simp [h1, h3]
        · rename_i hc
          simp [Ne.symm hc]

/-- The sample marshaller writes no line feed. -/
theorem sample_no_newline (m : ResumeIndex) : chNewline ∉ sampleLib.Marshal m := by
  show chNewline ∉ sampleMarshal m
  unfold sampleMarshal
  have h := sampleEscape_no_newline
  have h1 : chNewline ∉ sampleHead := by decide
  have h2 : chNewline ∉ sampleMiddle := by decide
  have h3 : chNewline ∉ [chQuote] := by decide
  have h4 : chNewline ∉ [chQuote, chRBrace] := by decide
  simp only [List.mem_append, not_or]
  exact ⟨⟨⟨⟨⟨h1, h _⟩, h3⟩, h2⟩, h _⟩, h4⟩

theorem two_writes (lib : GoLib) (file : Option Str) (a b : ResumeIndex)
    (hrt : ∀ m, lib.Unmarshal (lib.Marshal m ++ [chNewline]) = some m)
    (hnl : ∀ m, chNewline ∉ lib.Marshal m)
    (hwf : ∀ c ∈ readContents file, (lib.Unmarshal c).isSome = true)
    (hab : a.Index ≠ b.Index) (q : Str → Bool) (hqa : q a.Index = false)
    (hqb : q b.Index = false) :
    readResumeIndex lib
      (some (writeToResumeFile lib (some (writeToResumeFile lib file a)) b)) a.Index
      = a.Value ∧
    readResumeIndex lib
      (some (writeToResumeFile lib (some (writeToResumeFile lib file a)) b)) b.Index
      = b.Value ∧
    (recordsOf lib
      (some (writeToResumeFile lib (some (writeToResumeFile lib file a)) b))).filter
        (fun m => q m.Index) = (recordsOf lib file).filter (fun m => q m.Index) := by
  rw [writeToResumeFile_wellFormed lib file a hwf,
    writeToResumeFile_wellFormed lib _ b (wellFormed_fileOf lib hrt hnl _),
    recordsOf_fileOf lib hrt hnl, recordsOf_fileOf lib hrt hnl,
    readResumeIndex_fileOf lib hrt hnl, readResumeIndex_fileOf lib hrt hnl]
  refine ⟨?_, lookupRecord_update_same b _, ?_⟩
  · rw [lookupRecord_update_ne b a.Index hab, lookupRecord_update_same]
  · rw [filter_update_ne b q hqb, filter_update_ne a q hqa]

/-- C17 (distinct keys).  On a file of well-formed records, with a JSON
codec that reads back what it writes and writes no line feed: after
`writeToResumeFile` of `k1`, `v1` and of `k2`, `v2` with `k1 ≠ k2`, in either
order, `readResumeIndex` returns `v1` for `k1` and `v2` for `k2`, and the
records of all other keys are those of the prior file, with their values and
in their order. -/
theorem C17_distinct_keys_kept (lib : GoLib) (file : Option Str) (k1 v1 k2 v2 : Str)
    (hrt : ∀ m, lib.Unmarshal (lib.Marshal m ++ [chNewline]) = some m)
    (hnl : ∀ m, chNewline ∉ lib.Marshal m)
    (hwf : ∀ c ∈ readContents file, (lib.Unmarshal c).isSome = true)
    (hne : k1 ≠ k2) :
    (readResumeIndex lib (some (writeToResumeFile lib
        (some (writeToResumeFile lib file ⟨k1, v1⟩)) ⟨k2, v2⟩)) k1 = v1 ∧
      readResumeIndex lib (some (writeToResumeFile lib
        (some (writeToResumeFile lib file ⟨k1, v1⟩)) ⟨k2, v2⟩)) k2 = v2 ∧
      (recordsOf lib (some (writeToResumeFile lib
        (some (writeToResumeFile lib file ⟨k1, v1⟩)) ⟨k2, v2⟩))).filter
          (fun m => decide (m.Index ≠ k1 ∧ m.Index ≠ k2))
        = (recordsOf lib file).filter (fun m => decide (m.Index ≠ k1 ∧ m.Index ≠ k2))) ∧
    (readResumeIndex lib (some (writeToResumeFile lib
        (some (writeToResumeFile lib file ⟨k2, v2⟩)) ⟨k1, v1⟩)) k1 = v1 ∧
      readResumeIndex lib (some (writeToResumeFile lib
        (some (writeToResumeFile lib file ⟨k2, v2⟩)) ⟨k1, v1⟩)) k2 = v2 ∧
      (recordsOf lib (some (writeToResumeFile lib
        (some (writeToResumeFile lib file ⟨k2, v2⟩)) ⟨k1, v1⟩))).filter
          (fun m => decide (m.Index ≠ k1 ∧ m.Index ≠ k2))
        = (recordsOf lib file).filter (fun m => decide (m.Index ≠ k1 ∧ m.Index ≠ k2))) := by
  have h12 := two_writes lib file ⟨k1, v1⟩ ⟨k2, v2⟩ hrt hnl hwf hne
    (fun i => decide (i ≠ k1 ∧ i ≠ k2)) (by simp) (by simp)
  have h21 := two_writes lib file ⟨k2, v2⟩ ⟨k1, v1⟩ hrt hnl hwf (Ne.symm hne)
    (fun i => decide (i ≠ k1 ∧ i ≠ k2)) (by simp) (by simp)
  exact ⟨⟨h12.1, h12.2.1, h12.2.2⟩, ⟨h21.2.1, h21.1, h21.2.2⟩⟩

/-- Witness of C17: on the file with `a = 1`, `b = 2` the updates `cur = 42`
and `b = 3` give `cur = 42`, `b = 3` and leave `a = 1`. -/
theorem C17_distinct_keys_kept_witness :
    (∀ m, sampleLib.Unmarshal (sampleLib.Marshal m ++ [chNewline]) = some m) ∧
    (∀ m, chNewline ∉ sampleLib.Marshal m) ∧
    (∀ c ∈ readContents (some twoRecordFile), (sampleLib.Unmarshal c).isSome = true) ∧
    "cur".toList ≠ "b".toList ∧
    readResumeIndex sampleLib (some (writeToResumeFile sampleLib
      (some (writeToResumeFile sampleLib (some twoRecordFile) ⟨"cur".toList, "42".toList⟩))
      ⟨"b".toList, "3".toList⟩)) "cur".toList = "42".toList ∧
    readResumeIndex sampleLib (some (writeToResumeFile sampleLib
      (some (writeToResumeFile sampleLib (some twoRecordFile) ⟨"cur".toList, "42".toList⟩))
      ⟨"b".toList, "3".toList⟩)) "b".toList = "3".toList ∧
    writeToResumeFile sampleLib
      (some (writeToResumeFile sampleLib (some twoRecordFile) ⟨"cur".toList, "42".toList⟩))
      ⟨"b".toList, "3".toList⟩ =
      recordLine "a".toList "1".toList ++ recordLine "b".toList "3".toList ++
        recordLine "cur".toList "42".toList := by
  have hwf : ∀ c ∈ readContents (some twoRecordFile), (sampleLib.Unmarshal c).isSome = true := by
    decide
  have h := (C17_distinct_keys_kept sampleLib (some twoRecordFile) "cur".toList "42".toList
    "b".toList "3".toList sample_round_trip sample_no_newline hwf (by decide)).1
  exact ⟨sample_round_trip, sample_no_newline, hwf, by decide, h.1, h.2.1, by decide⟩

/-- C18 as amended.  With a JSON codec that reads back what it writes: the
entries that `writeToResumeFile` writes are the entries of the prior file,
each rewritten in place, then the new record when no record had its index.
An entry that does not parse as a resume record is kept as it is, it is not
dropped; an entry that parses is written as the marshalled record, which
parses as that record with the value replaced when its index is the updated
one. -/
theorem C18_rewrite_keeps_malformed (lib : GoLib) (file : Option Str) (ri : ResumeIndex)
    (hrt : ∀ m, lib.Unmarshal (lib.Marshal m ++ [chNewline]) = some m) :
    writeToResumeFile lib file ri =
      ((rewrittenEntries lib file ri).map (fun content => content ++ [chNewline])).flatten ∧
    rewrittenEntries lib file ri =
      (readContents file).map (rewriteEntry lib ri) ++
        (if (readContents file).any (hitEntry lib ri) then [] else [lib.Marshal ri]) ∧
    (∀ c ∈ readContents file, lib.Unmarshal c = none → rewriteEntry lib ri c = c) ∧
    (∀ c ∈ readContents file, ∀ m, lib.Unmarshal c = some m →
      rewriteEntry lib ri c = lib.Marshal (updateRecord ri m) ∧
      lib.Unmarshal (rewriteEntry lib ri c ++ [chNewline]) = some (updateRecord ri m)) := by
  refine ⟨rfl, rewrittenEntries_eq lib file ri, ?_, ?_⟩
  · intro c _ hc
    simp [rewriteEntry, hc]
  · intro c _ m hc
    have h : rewriteEntry lib ri c = lib.Marshal (updateRecord ri m) := by
      simp [rewriteEntry, hc]
    exact ⟨h, by rw [h, hrt]⟩

/-- Witness of C18 as amended: on the file with the line `garbage` and the
record `a = 1`, the update `a = 2` writes the line `garbage` as it was and
the record `a = 2`. -/
theorem C18_rewrite_keeps_malformed_witness :
    (∀ m, sampleLib.Unmarshal (sampleLib.Marshal m ++ [chNewline]) = some m) ∧
    readContents (some (garbageLine ++ recordLine "a".toList "1".toList))
      = [garbageLine, recordLine "a".toList "1".toList] ∧
    rewrittenEntries sampleLib (some (garbageLine ++ recordLine "a".toList "1".toList))
      ⟨"a".toList, "2".toList⟩ = [garbageLine, sampleMarshal ⟨"a".toList, "2".toList⟩] ∧
    rewriteEntry sampleLib ⟨"a".toList, "2".toList⟩ garbageLine = garbageLine ∧
    sampleLib.Unmarshal (rewriteEntry sampleLib ⟨"a".toList, "2".toList⟩
      (recordLine "a".toList "1".toList) ++ [chNewline]) = some ⟨"a".toList, "2".toList⟩ := by
  have h := C18_rewrite_keeps_malformed sampleLib
    (some (garbageLine ++ recordLine "a".toList "1".toList)) ⟨"a".toList, "2".toList⟩
    sample_round_trip
  have hc : readContents (some (garbageLine ++ recordLine "a".toList "1".toList))
      = [garbageLine, recordLine "a".toList "1".toList] := by decide
  have h3 := h.2.2.1 garbageLine (by rw [hc]; simp) (by decide)
  have h4 := (h.2.2.2 (recordLine "a".toList "1".toList) (by rw [hc]; simp)
    ⟨"a".toList, "1".toList⟩ (by decide)).2
  exact ⟨sample_round_trip, hc, by decide, h3, h4⟩

theorem updateRecords_value (ri : ResumeIndex) (rs : List ResumeIndex) :
    ∀ m ∈ updateRecords ri rs, m.Index = ri.Index → m.Value = ri.Value := by
  intro m hm hidx
  unfold updateRecords at hm
  rcases List.mem_append.mp hm with h | h
  · obtain ⟨m0, _, h0⟩ := List.mem_map.mp h
    rw [← h0] at hidx ⊢
    rw [updateRecord_Index] at hidx
    simp [updateRecord, hidx]
  · split at h
    · simp at h
    · simp only [List.mem_singleton] at h
      rw [h]

theorem updateRecords_count (ri : ResumeIndex) (rs : List ResumeIndex)
    (hany : rs.any (fun m => decide (m.Index = ri.Index)) = true) :
    ((updateRecords ri rs).filter (fun m => decide (m.Index = ri.Index))).length =
      (rs.filter (fun m => decide (m.Index = ri.Index))).length := by
  unfold updateRecords
  rw [if_pos hany, List.append_nil, List.filter_map, List.length_map]
  congr 1
  apply List.filter_congr
  intro m _
  simp [updateRecord_Index]

/-- C19 as amended.  `writeToResumeFile` does not resolve duplicate indices.
Every entry of the prior file that is a record with the updated index is
rewritten in place as the record with the new value, and no entry is
removed.  On a file of well-formed records, with a JSON codec that reads back
what it writes and writes no line feed: after the update every record with
that index carries the new value, and when the index occurred in the prior
file the rewritten file holds as many records with that index as the prior
file. -/
theorem C19_duplicates_kept (lib : GoLib) (file : Option Str) (k v : Str)
    (hrt : ∀ m, lib.Unmarshal (lib.Marshal m ++ [chNewline]) = some m)
    (hnl : ∀ m, chNewline ∉ lib.Marshal m) :
    (∀ c ∈ readContents file, ∀ m, lib.Unmarshal c = some m → m.Index = k →
      rewriteEntry lib ⟨k, v⟩ c = lib.Marshal ⟨k, v⟩) ∧
    (rewrittenEntries lib file ⟨k, v⟩).length ≥ (readContents file).length ∧
    ((∀ c ∈ readContents file, (lib.Unmarshal c).isSome = true) →
      (∀ m ∈ recordsOf lib (some (writeToResumeFile lib file ⟨k, v⟩)),
        m.Index = k → m.Value = v) ∧
      ((recordsOf lib file).any (fun m => decide (m.Index = k)) = true →
        ((recordsOf lib (some (writeToResumeFile lib file ⟨k, v⟩))).filter
          (fun m => decide (m.Index = k))).length =
        ((recordsOf lib file).filter (fun m => decide (m.Index = k))).length)) := by
  refine ⟨?_, ?_, ?_⟩
  · intro c _ m hc hidx
    simp [rewriteEntry, hc, updateRecord, hidx]
  · rw [rewrittenEntries_eq]
    simp
  · intro hwf
    rw [writeToResumeFile_wellFormed lib file ⟨k, v⟩ hwf, recordsOf_fileOf lib hrt hnl]
    exact ⟨updateRecords_value ⟨k, v⟩ _, updateRecords_count ⟨k, v⟩ _⟩

/-- Witness of C19 as amended: on a file with `cur = 1` and `cur = 2` the
update `cur = 42` gives a file with two records of `cur`. -/
theorem C19_duplicates_kept_witness :
    (∀ m, sampleLib.Unmarshal (sampleLib.Marshal m ++ [chNewline]) = some m) ∧
    (∀ m, chNewline ∉ sampleLib.Marshal m) ∧
    (∀ c ∈ readContents (some duplicateFile), (sampleLib.Unmarshal c).isSome = true) ∧
    (recordsOf sampleLib (some duplicateFile)).any
      (fun m => decide (m.Index = "cur".toList)) = true ∧
    ((recordsOf sampleLib (some duplicateFile)).filter
      (fun m => decide (m.Index = "cur".toList))).length = 2 ∧
    ((recordsOf sampleLib (some (writeToResumeFile sampleLib (some duplicateFile)
      ⟨"cur".toList, "42".toList⟩))).filter
        (fun m => decide (m.Index = "cur".toList))).length = 2 := by
  have hwf : ∀ c ∈ readContents (some duplicateFile), (sampleLib.Unmarshal c).isSome = true := by
    decide
  have hany : (recordsOf sampleLib (some duplicateFile)).any
      (fun m => decide (m.Index = "cur".toList)) = true := by decide
  have hbefore : ((recordsOf sampleLib (some duplicateFile)).filter
      (fun m => decide (m.Index = "cur".toList))).length = 2 := by decide
  have h := ((C19_duplicates_kept sampleLib (some duplicateFile) "cur".toList "42".toList
    sample_round_trip sample_no_newline).2.2 hwf).2 hany
  rw [hbefore] at h
  exact ⟨sample_round_trip, sample_no_newline, hwf, hany, hbefore, h⟩

/-- The output field name of a column that ends with the delta marker, not
with the row-identity marker, and holds the delta marker nowhere earlier: the
trailing marker is replaced by `_PERSECOND`. -/
theorem eventColName_delta_once (bt : Mysqlbeat) (base : Str)
    (hkey : strings_HasSuffix (base ++ bt.deltaWildcard) bt.deltaKeyWildcard = false)
    (hfirst : ∀ i, i < base.length →
      bt.deltaWildcard.isPrefixOf ((base ++ bt.deltaWildcard).drop i) = false) :
    eventColName bt (base ++ bt.deltaWildcard) = base ++ "_PERSECOND".toList ∧
    strings_Replace (base ++ bt.deltaWildcard) bt.deltaWildcard "_PERSECOND".toList
      = base ++ "_PERSECOND".toList := by
  have h := strings_Replace_first base bt.deltaWildcard "_PERSECOND".toList hfirst
  refine ⟨?_, h⟩
  unfold eventColName
  rw [hkey, if_neg Bool.false_ne_true, if_pos (strings_HasSuffix_append _ _), h]

theorem strings_Split_no_bar (s : Str) (h : '|' ∉ s) : strings_Split s = [s] := by
  induction s with
  | nil => rfl
  | cons c cs ih =>
    have hc : c ≠ '|' := fun hc => h (by rw [hc]; exact List.mem_cons_self _ _)
    have hcs : '|' ∉ cs := fun hm => h (List.mem_cons_of_mem _ hm)
    simp [strings_Split, hc, ih hcs]

theorem strings_Split_bar (s rest : Str) (h : '|' ∉ s) :
    strings_Split (s ++ '|' :: rest) = s :: strings_Split rest := by
  induction s with
  | nil => simp [strings_Split]
  | cons c cs ih =>
    have hc : c ≠ '|' := fun hc => h (by rw [hc]; exact List.mem_cons_self _ _)
    have hcs : '|' ∉ cs := fun hm => h (List.mem_cons_of_mem _ hm)
    simp [strings_Split, hc, ih hcs]

/-- The record that `listenResumeFile` takes from the message of `beat` when
neither the name nor the value holds a `|`. -/
theorem listenRecord_no_bar (uniKey value : Str) (h1 : '|' ∉ uniKey) (h2 : '|' ∉ value) :
    listenRecord (uniKey ++ ['|'] ++ value) = some ⟨uniKey, value⟩ := by
  unfold listenRecord
  have h : uniKey ++ ['|'] ++ value = uniKey ++ '|' :: value := by simp
  rw [h, strings_Split_bar uniKey value h1, strings_Split_no_bar value h2]

/-- What `readResumeIndex` computes: the value of the first record with the
index, among the lines before the first line that does not parse. -/
theorem readLoop_eq (lib : GoLib) (k : Str) (lines : List Str) :
    readLoop lib k lines =
      lookupRecord k ((lines.takeWhile (fun l => (lib.Unmarshal l).isSome)).filterMap
        lib.Unmarshal) := by
  induction lines with
  | nil => rfl
  | cons l rest ih =>
    cases h : lib.Unmarshal l with
    | none => simp [readLoop, h, List.takeWhile_cons, lookupRecord]
    | some m => simp [readLoop, h, List.takeWhile_cons, lookupRecord, ih]

/-- On a file of well-formed records, with a JSON codec that reads back what
it writes and writes no line feed, `readResumeIndex` returns the value that
`writeToResumeFile` has just written. -/
theorem round_trip_wellFormed (lib : GoLib) (file : Option Str) (k v : Str)
    (hrt : ∀ m, lib.Unmarshal (lib.Marshal m ++ [chNewline]) = some m)
    (hnl : ∀ m, chNewline ∉ lib.Marshal m)
    (hwf : ∀ c ∈ readContents file, (lib.Unmarshal c).isSome = true) :
    readResumeIndex lib (some (writeToResumeFile lib file ⟨k, v⟩)) k = v := by
  rw [writeToResumeFile_wellFormed lib file ⟨k, v⟩ hwf, readResumeIndex_fileOf lib hrt hnl]
  exact lookupRecord_update_same ⟨k, v⟩ _

/-- A key that no record of the lines carries is read as absent. -/
theorem readLoop_absent (lib : GoLib) (k : Str) (lines : List Str)
    (h : ∀ l ∈ lines, ∀ m, lib.Unmarshal l = some m → m.Index ≠ k) :
    readLoop lib k lines = [] := by
  induction lines with
  | nil => rfl
  | cons l rest ih =>
    cases hl : lib.Unmarshal l with
    | none => simp [readLoop, hl]
    | some m =>
      have hm := h l (List.mem_cons_self _ _) m hl
      simp [readLoop, hl, hm, ih (fun l2 h2 => h l2 (List.mem_cons_of_mem _ h2))]

theorem takeWord_append (a r : Str) (x : Char) (ha : allWord a) (hx : isWordChar x = false) :
    takeWord (a ++ x :: r) = a ∧ dropWord (a ++ x :: r) = x :: r := by
  induction a with
  | nil => simp [takeWord, dropWord, hx]
  | cons c cs ih =>
    have hc : isWordChar c = true := ha c (List.mem_cons_self _ _)
    obtain ⟨h1, h2⟩ := ih (fun y hy => ha y (List.mem_cons_of_mem _ hy))
    simp [takeWord, dropWord, hc, h1, h2]

theorem not_mem_of_allWord (a : Str) (x : Char) (ha : allWord a) (hx : isWordChar x = false) :
    x ∉ a := by
  intro h
  have := ha x h
  rw [hx] at this
  cases this

theorem placeholderText_append (a b d post : Str) :
    placeholderText a b d ++ post =
      chLBrace :: (a ++ '|' :: (b ++ '|' :: (d ++ chRBrace :: post))) := by
  simp [placeholderText]

theorem matchPlaceholder_text (a b d post : Str) (ha : allWord a) (hb : allWord b)
    (hd : allWord d) :
    matchPlaceholder (placeholderText a b d ++ post) = some (a, b, d, post) := by
  have hbar : isWordChar '|' = false := by decide
  have hbrace : isWordChar chRBrace = false := by decide
  obtain ⟨ta, da⟩ := takeWord_append a (b ++ '|' :: (d ++ chRBrace :: post)) '|' ha hbar
  obtain ⟨tb, db⟩ := takeWord_append b (d ++ chRBrace :: post) '|' hb hbar
  obtain ⟨td, dd⟩ := takeWord_append d post chRBrace hd hbrace
  rw [placeholderText_append]
  unfold matchPlaceholder
  simp [ta, da, tb, db, td, dd]

theorem re_FindString_cons (c : Char) (cs : Str) :
    re_FindString (c :: cs) =
      match matchPlaceholder (c :: cs) with
      | some (a, b, d, _) => placeholderText a b d
      | none => re_FindString cs := rfl

theorem replaceAux_zero_cons (lib : GoLib) (repl : Str) (c : Char) (cs : Str) :
    replaceAux lib repl 0 (c :: cs) =
      match matchPlaceholder (c :: cs) with
      | some (a, b, d, _) =>
        expandAux lib (placeholderText a b d) 0 repl ++
          replaceAux lib repl (a.length + b.length + d.length + 3) cs
      | none => c :: replaceAux lib repl 0 cs := rfl

theorem re_FindString_first (pre rest : Str) (a b d post : Str)
    (hm : matchPlaceholder rest = some (a, b, d, post)) (hne : rest ≠ [])
    (hpre : ∀ i, i < pre.length → matchPlaceholder ((pre ++ rest).drop i) = none) :
    re_FindString (pre ++ rest) = placeholderText a b d := by
  induction pre with
  | nil =>
    cases rest with
    | nil => exact absurd rfl hne
    | cons c cs =>
      rw [List.nil_append, re_FindString_cons, hm]
  | cons c p ih =>
    have h0 := hpre 0 (by simp)
    simp only [List.drop_zero, List.cons_append] at h0
    rw [List.cons_append, re_FindString_cons, h0]
    exact ih (fun i hi => by
      have := hpre (i + 1) (by simpa using hi)
      simpa using this)

theorem matchOne_text (a b d : Str) (ha : allWord a) (hb : allWord b) (hd : allWord d) :
    matchOne (a ++ '|' :: (b ++ '|' :: (d ++ [chRBrace]))) =
      some (a ++ ['|'] ++ b ++ ['|'] ++ d) := by
  have hbar : isWordChar '|' = false := by decide
  have hbrace : isWordChar chRBrace = false := by decide
  obtain ⟨ta, da⟩ := takeWord_append a (b ++ '|' :: (d ++ [chRBrace])) '|' ha hbar
  obtain ⟨tb, db⟩ := takeWord_append b (d ++ [chRBrace]) '|' hb hbar
  obtain ⟨td, _⟩ := takeWord_append d [] chRBrace hd hbrace
  unfold matchOne
  simp [ta, da, tb, db, td]

theorem reOne_FindString_text (a b d : Str) (ha : allWord a) (hb : allWord b)
    (hd : allWord d) :
    reOne_FindString (placeholderText a b d) = a ++ ['|'] ++ b ++ ['|'] ++ d := by
  have h : placeholderText a b d = chLBrace :: (a ++ '|' :: (b ++ '|' :: (d ++ [chRBrace]))) := by
    simp [placeholderText]
  have hbrace : isWordChar chLBrace = false := by decide
  have hne : chLBrace ≠ '|' := by decide
  have h1 : matchOne (chLBrace :: (a ++ '|' :: (b ++ '|' :: (d ++ [chRBrace])))) = none := by
    unfold matchOne
    simp [dropWord, hbrace, hne]
  rw [h]
  simp only [reOne_FindString, h1]
  have h2 := matchOne_text a b d ha hb hd
  cases hl : a ++ '|' :: (b ++ '|' :: (d ++ [chRBrace])) with
  | nil => simp at hl
  | cons c cs =>
    rw [hl] at h2
    simp only [reOne_FindString, h2]

theorem strings_Split_three (a b d : Str) (ha : '|' ∉ a) (hb : '|' ∉ b) (hd : '|' ∉ d) :
    strings_Split (a ++ ['|'] ++ b ++ ['|'] ++ d) = [a, b, d] := by
  have h : a ++ ['|'] ++ b ++ ['|'] ++ d = a ++ '|' :: (b ++ '|' :: d) := by simp
  rw [h, strings_Split_bar a _ ha, strings_Split_bar b _ hb, strings_Split_no_bar d hd]

theorem expandAux_plain (lib : GoLib) (matched repl : Str) (h : '$' ∉ repl) :
    expandAux lib matched 0 repl = repl := by
  induction repl with
  | nil => rfl
  | cons c cs ih =>
    have hc : c ≠ '$' := fun hc => h (by rw [hc]; exact List.mem_cons_self _ _)
    have hcs : '$' ∉ cs := fun hm => h (List.mem_cons_of_mem _ hm)
    simp [expandAux, hc, ih hcs]

theorem replaceAux_skip (lib : GoLib) (repl xs ys : Str) :
    replaceAux lib repl xs.length (xs ++ ys) = replaceAux lib repl 0 ys := by
  induction xs with
  | nil => rfl
  | cons c cs ih => simp [replaceAux, ih]

theorem replaceAux_none (lib : GoLib) (repl s : Str)
    (h : ∀ i, matchPlaceholder (s.drop i) = none) : replaceAux lib repl 0 s = s := by
  induction s with
  | nil => rfl
  | cons c cs ih =>
    have h0 := h 0
    simp only [List.drop_zero] at h0
    rw [replaceAux_zero_cons, h0]
    simp only []
    rw [ih (fun i => by
      have := h (i + 1)
      simpa using this)]

theorem replaceAux_before (lib : GoLib) (repl pre rest : Str)
    (hpre : ∀ i, i < pre.length → matchPlaceholder ((pre ++ rest).drop i) = none) :
    replaceAux lib repl 0 (pre ++ rest) = pre ++ replaceAux lib repl 0 rest := by
  induction pre with
  | nil => rfl
  | cons c p ih =>
    have h0 := hpre 0 (by simp)
    simp only [List.drop_zero, List.cons_append] at h0
    rw [List.cons_append, replaceAux_zero_cons, h0]
    simp only [List.cons_append]
    rw [ih (fun i hi => by
      have := hpre (i + 1) (by simpa using hi)
      simpa using this)]

/-- The text that `ReplaceAllString` gives for a query text with one
placeholder. -/
theorem re_ReplaceAllString_one (lib : GoLib) (pre post a b d repl : Str)
    (ha : allWord a) (hb : allWord b) (hd : allWord d)
    (hpre : ∀ i, i < pre.length →
      matchPlaceholder ((pre ++ (placeholderText a b d ++ post)).drop i) = none)
    (hpost : ∀ i, matchPlaceholder (post.drop i) = none) :
    re_ReplaceAllString lib (pre ++ (placeholderText a b d ++ post)) repl =
      pre ++ expandAux lib (placeholderText a b d) 0 repl ++ post := by
  unfold re_ReplaceAllString
  rw [replaceAux_before lib repl pre _ hpre]
  have hm := matchPlaceholder_text a b d post ha hb hd
  rw [placeholderText_append] at hm ⊢
  rw [replaceAux_zero_cons, hm]
  simp only []
  have hlen : (a ++ '|' :: (b ++ '|' :: (d ++ [chRBrace]))).length
      = a.length + b.length + d.length + 3 := by
    simp
    omega
  have hsplit : a ++ '|' :: (b ++ '|' :: (d ++ chRBrace :: post))
      = (a ++ '|' :: (b ++ '|' :: (d ++ [chRBrace]))) ++ post := by simp
  rw [hsplit, ← hlen, replaceAux_skip, replaceAux_none lib repl post hpost]
  simp [placeholderText]

/-- The result of `query` on a resume query whose text holds one placeholder,
when the stored cursor holds no `$`: the placeholder is replaced by the
cursor, or by the default when `readResumeIndex` returns the empty string,
and the rest of the text is unchanged. -/
theorem query_one_placeholder (lib : GoLib) (file : Option Str) (pre post a b d : Str)
    (ha : allWord a) (hb : allWord b) (hd : allWord d)
    (hpre : ∀ i, i < pre.length →
      matchPlaceholder ((pre ++ (placeholderText a b d ++ post)).drop i) = none)
    (hpost : ∀ i, matchPlaceholder (post.drop i) = none)
    (hdollar : '$' ∉ readResumeIndex lib file a) :
    query lib file queryTypeResumeMultipleRows (pre ++ (placeholderText a b d ++ post)) =
      some (pre ++ (if readResumeIndex lib file a = [] then b
        else readResumeIndex lib file a) ++ post, a, d) := by
  have hbar : isWordChar '|' = false := by decide
  have hdol : isWordChar '$' = false := by decide
  have hm := matchPlaceholder_text a b d post ha hb hd
  have hne : placeholderText a b d ++ post ≠ [] := by
    rw [placeholderText_append]
    simp
  unfold query
  rw [if_neg (by simp)]
  simp only []
  rw [re_FindString_first pre _ a b d post hm hne hpre, reOne_FindString_text a b d ha hb hd,
    strings_Split_three a b d (not_mem_of_allWord a _ ha hbar) (not_mem_of_allWord b _ hb hbar)
      (not_mem_of_allWord d _ hd hbar)]
  simp only []
  by_cases hr : readResumeIndex lib file a = []
  · rw [if_pos hr, if_pos hr, re_ReplaceAllString_one lib pre post a b d b ha hb hd hpre hpost,
      expandAux_plain lib _ b (not_mem_of_allWord b _ hb hdol)]
  · rw [if_neg hr, if_neg hr,
      re_ReplaceAllString_one lib pre post a b d _ ha hb hd hpre hpost,
      expandAux_plain lib _ _ hdollar]

theorem takeWord_dropWord (s : Str) : takeWord s ++ dropWord s = s := by
  induction s with
  | nil => rfl
  | cons c cs ih =>
    by_cases hc : isWordChar c = true
    · simp [takeWord, dropWord, hc, ih]
    · simp [takeWord, dropWord, hc]

theorem allWord_takeWord (s : Str) : allWord (takeWord s) := by
  induction s with
  | nil =>
    intro c hc
    simp [takeWord] at hc
  | cons c cs ih =>
    by_cases hc : isWordChar c = true
    · intro x hx
      simp only [takeWord, hc, if_true, List.mem_cons] at hx
      rcases hx with hx | hx
      · rw [hx]
        exact hc
      · exact ih x hx
    · intro x hx
      simp [takeWord, hc] at hx

theorem matchPlaceholder_some (s a b d post : Str)
    (h : matchPlaceholder s = some (a, b, d, post)) :
    s = placeholderText a b d ++ post ∧ allWord a ∧ allWord b ∧ allWord d := by
  cases s with
  | nil => simp [matchPlaceholder] at h
  | cons c s1 =>
    unfold matchPlaceholder at h
    simp only [] at h
    split at h
    · cases h
    · rename_i hc
      have hc1 : c = chLBrace := by simpa using hc
      split at h
      · cases h
      · rename_i b1 s2 h1
        split at h
        · cases h
        · rename_i hb1
          have hb1e : b1 = '|' := by simpa using hb1
          split at h
          · cases h
          · rename_i b2 s3 h2
            split at h
            · cases h
            · rename_i hb2
              have hb2e : b2 = '|' := by simpa using hb2
              split at h
              · cases h
              · rename_i e s4 h3
                split at h
                · cases h
                · rename_i he
                  have hee : e = chRBrace := by simpa using he
                  simp only [Option.some.injEq, Prod.mk.injEq] at h
                  obtain ⟨ha, hb, hd, hp⟩ := h
                  subst hc1 hb1e hb2e hee ha hb hd hp
                  have e1 := takeWord_dropWord s1
                  rw [h1] at e1
                  have e2 := takeWord_dropWord s2
                  rw [h2] at e2
                  have e3 := takeWord_dropWord s3
                  rw [h3] at e3
                  refine ⟨?_, allWord_takeWord _, allWord_takeWord _, allWord_takeWord _⟩
                  rw [placeholderText_append, e3, e2, e1]

theorem containsPlaceholder_cons (c : Char) (cs : Str) (h : containsPlaceholder cs) :
    containsPlaceholder (c :: cs) := by
  obtain ⟨pre, a, b, d, post, hs, ha, hb, hd⟩ := h
  exact ⟨c :: pre, a, b, d, post, by rw [hs]; rfl, ha, hb, hd⟩

theorem re_FindString_of_contains (s : Str) (h : containsPlaceholder s) :
    ∃ a b d, allWord a ∧ allWord b ∧ allWord d ∧ re_FindString s = placeholderText a b d := by
  induction s with
  | nil =>
    obtain ⟨pre, a, b, d, post, hs, _, _, _⟩ := h
    rw [placeholderText_append] at hs
    cases pre <;> simp at hs
  | cons c cs ih =>
    cases hm : matchPlaceholder (c :: cs) with
    | some r =>
      obtain ⟨a, b, d, post⟩ := r
      obtain ⟨_, ha, hb, hd⟩ := matchPlaceholder_some _ a b d post hm
      exact ⟨a, b, d, ha, hb, hd, by rw [re_FindString_cons, hm]⟩
    | none =>
      obtain ⟨pre, a, b, d, post, hs, ha, hb, hd⟩ := h
      cases pre with
      | nil =>
        rw [hs, List.nil_append, matchPlaceholder_text a b d post ha hb hd] at hm
        cases hm
      | cons x pre1 =>
        have hcs : cs = pre1 ++ (placeholderText a b d ++ post) := by
          simp only [List.cons_append, List.cons.injEq] at hs
          exact hs.2
        obtain ⟨a1, b1, d1, h1, h2, h3, h4⟩ := ih ⟨pre1, a, b, d, post, hcs, ha, hb, hd⟩
        exact ⟨a1, b1, d1, h1, h2, h3, by rw [re_FindString_cons, hm]; exact h4⟩

theorem re_FindString_of_not_contains (s : Str) (h : ¬ containsPlaceholder s) :
    re_FindString s = [] := by
  induction s with
  | nil => rfl
  | cons c cs ih =>
    cases hm : matchPlaceholder (c :: cs) with
    | some r =>
      obtain ⟨a, b, d, post⟩ := r
      obtain ⟨hs, ha, hb, hd⟩ := matchPlaceholder_some _ a b d post hm
      exact absurd ⟨[], a, b, d, post, hs, ha, hb, hd⟩ h
    | none =>
      rw [re_FindString_cons, hm]
      exact ih (fun hc => h (containsPlaceholder_cons c cs hc))

theorem values_of_contains (s : Str) (h : containsPlaceholder s) :
    ∃ a b d, strings_Split (reOne_FindString (re_FindString s)) = [a, b, d] := by
  have hbar : isWordChar '|' = false := by decide
  obtain ⟨a, b, d, ha, hb, hd, hf⟩ := re_FindString_of_contains s h
  exact ⟨a, b, d, by
    rw [hf, reOne_FindString_text a b d ha hb hd,
      strings_Split_three a b d (not_mem_of_allWord a _ ha hbar) (not_mem_of_allWord b _ hb hbar)
        (not_mem_of_allWord d _ hd hbar)]⟩

theorem values_of_not_contains (s : Str) (h : ¬ containsPlaceholder s) :
    strings_Split (reOne_FindString (re_FindString s)) = [[]] := by
  rw [re_FindString_of_not_contains s h]
  rfl

/-- C23 (index safety of the placeholder parsing).  For a
`resume-multiple-rows` query, `values` being the split of source `query`:
the indices 1 and 2 are in range of `values` exactly when the query text
holds a match of the placeholder pattern, and then `query` returns.  For a
text with no match `values` is the single empty text, the access is out of
range and `query` panics: it does not return the text unchanged. -/
theorem C23_placeholder_index_safety (lib : GoLib) (file : Option Str) (queryStr : Str) :
    (containsPlaceholder queryStr ↔
      1 < (strings_Split (reOne_FindString (re_FindString queryStr))).length ∧
      2 < (strings_Split (reOne_FindString (re_FindString queryStr))).length) ∧
    (containsPlaceholder queryStr →
      (query lib file queryTypeResumeMultipleRows queryStr).isSome = true) ∧
    (¬ containsPlaceholder queryStr →
      strings_Split (reOne_FindString (re_FindString queryStr)) = [[]] ∧
      query lib file queryTypeResumeMultipleRows queryStr = none ∧
      query lib file queryTypeResumeMultipleRows queryStr ≠ some (queryStr, [], [])) := by
  refine ⟨⟨?_, ?_⟩, ?_, ?_⟩
  · intro h
    obtain ⟨a, b, d, hv⟩ := values_of_contains queryStr h
    rw [hv]
    simp
  · intro h
    by_contra hc
    rw [values_of_not_contains queryStr hc] at h
    simp at h
  · intro h
    obtain ⟨a, b, d, hv⟩ := values_of_contains queryStr h
    unfold query
    rw [if_neg (by simp)]
    simp only [hv]
    split <;> rfl
  · intro h
    have hv := values_of_not_contains queryStr h
    have hq : query lib file queryTypeResumeMultipleRows queryStr = none := by
      unfold query
      rw [if_neg (by simp)]
      simp only [hv]
    exact ⟨hv, hq, by rw [hq]; simp⟩

/-- Witness of C23: the query of Scenario C holds the placeholder `cur|0|id`
and `query` returns; the text `SELECT 1` holds none, `values` is the single
empty text and `query` panics. -/
theorem C23_placeholder_index_safety_witness :
    containsPlaceholder scenarioCQuery ∧
    (query sampleLib none queryTypeResumeMultipleRows scenarioCQuery).isSome = true ∧
    ¬ containsPlaceholder "SELECT 1".toList ∧
    strings_Split (reOne_FindString (re_FindString "SELECT 1".toList)) = [[]] ∧
    query sampleLib none queryTypeResumeMultipleRows "SELECT 1".toList = none := by
  have hc : containsPlaceholder scenarioCQuery :=
    ⟨"SELECT id FROM t WHERE id > ".toList, "cur".toList, "0".toList, "id".toList, [],
      by decide, by unfold allWord; decide, by unfold allWord; decide,
      by unfold allWord; decide⟩
  have h := C23_placeholder_index_safety sampleLib none "SELECT 1".toList
  have hn : ¬ containsPlaceholder "SELECT 1".toList := fun hx => by
    have := (h.1.mp hx).2
    revert this
    decide
  exact ⟨hc, (C23_placeholder_index_safety sampleLib none scenarioCQuery).2.1 hc, hn,
    (h.2.2 hn).1, (h.2.2 hn).2.1⟩

theorem translateRows_last (pf : Str → Option F64) (columns : List Str) (queryType : Str)
    (dtNow : Int) (n : Nat) (rows : List (Except String (List Str))) (bt : Mysqlbeat)
    (published : List MapStr) (last : Option MapStr)
    (h : last = none ∨ n < published.length) (hn : n ≤ published.length) :
    ((translateRows pf columns queryType dtNow rows bt published last).2.2 = none ∨
      n < (translateRows pf columns queryType dtNow rows bt published last).2.1.length) ∧
    n ≤ (translateRows pf columns queryType dtNow rows bt published last).2.1.length := by
  induction rows generalizing bt published last with
  | nil => exact ⟨h, hn⟩
  | cons row rest ih =>
    unfold translateRows
    simp only []
    cases hr : (generateEventFromRow pf bt row columns queryType dtNow).1 with
    | error e => exact ⟨h, hn⟩
    | ok event =>
      simp only []
      cases event with
      | none =>
        apply ih
        · by_cases hq : queryType = queryTypeResumeMultipleRows
          · left
            simp [hq]
          · simp only [if_neg hq]
            exact h
        · exact hn
      | some e =>
        apply ih
        · right
          simp only [List.length_append, List.length_singleton]
          omega
        · simp only [List.length_append, List.length_singleton]
          omega

theorem translateRows_not_resume (pf : Str → Option F64) (columns : List Str) (queryType : Str)
    (dtNow : Int) (hq : queryType ≠ queryTypeResumeMultipleRows)
    (rows : List (Except String (List Str))) (bt : Mysqlbeat)
    (published : List MapStr) (last : Option MapStr) :
    (translateRows pf columns queryType dtNow rows bt published last).2.2 = last := by
  induction rows generalizing bt published last with
  | nil => rfl
  | cons row rest ih =>
    unfold translateRows
    simp only []
    cases hr : (generateEventFromRow pf bt row columns queryType dtNow).1 with
    | error e => rfl
    | ok event =>
      simp only [if_neg hq]
      exact ih _ _ _

/-- The messages of one query of a pass: none, unless the query type is
`resume-multiple-rows` and the row loop has published an event, when there is
at most one. -/
theorem queryBody_resumeFile (pf : Str → Option F64) (lib : GoLib) (queryType uniKey column : Str)
    (columns : List Str) (rows : List (Except String (List Str))) (dtNow : Int) (p p1 : Pass)
    (h : queryBody pf lib queryType uniKey column columns rows dtNow p = some p1) :
    p1.resumeFile = p.resumeFile ∨
    (queryType = queryTypeResumeMultipleRows ∧ rows ≠ [] ∧
      p.published.length < p1.published.length ∧
      ∃ e, p1.resumeFile = p.resumeFile ++ [resumeValue lib uniKey column e]) := by
  unfold queryBody at h
  simp only [] at h
  by_cases h1 : queryType = queryTypeSingleRow ∨ queryType = queryTypeSlaveDelay
  · left
    rw [if_pos h1] at h
    generalize (if queryType = queryTypeTwoColumns then
      some [("@timestamp".toList, Value.time dtNow), ("type".toList, Value.str queryTypeTwoColumns)]
      else p.twoColumnEvent) = tce at h
    cases rows with
    | nil =>
      simp only [] at h
      cases tce with
      | none =>
        simp only [] at h
        injection h with h
        rw [← h]
      | some e =>
        simp only [] at h
        split at h <;> (injection h with h; rw [← h])
    | cons row rest =>
      simp only [] at h
      rcases hg : (generateEventFromRow pf p.bt row columns queryType dtNow).1 with e | (_ | ev) <;>
        rw [hg] at h <;> simp only [] at h <;>
        (cases tce with
          | none =>
            simp only [] at h
            injection h with h
            rw [← h]
          | some e =>
            simp only [] at h
            split at h <;> (injection h with h; rw [← h]))
  · rw [if_neg h1] at h
    by_cases h2 : queryType = queryTypeMultipleRows ∨ queryType = queryTypeResumeMultipleRows
    · rw [if_pos h2] at h
      simp only [] at h
      have hnt : queryType ≠ queryTypeTwoColumns := by
        rcases h2 with h2 | h2 <;> rw [h2] <;> decide
      simp only [if_neg hnt, hnt, false_and, if_false] at h
      have hp1 : p1.resumeFile =
          (match (translateRows pf columns queryType dtNow rows p.bt p.published none).2.2 with
            | some e =>
              if uniKey ≠ [] ∧ column ≠ [] then p.resumeFile ++ [resumeValue lib uniKey column e]
              else p.resumeFile
            | none => p.resumeFile) ∧
          p1.published = (translateRows pf columns queryType dtNow rows p.bt p.published none).2.1 := by
        cases htc : p.twoColumnEvent <;> rw [htc] at h <;> simp only [] at h <;>
          (injection h with h; rw [← h]; exact ⟨rfl, rfl⟩)
      have hinv := translateRows_last pf columns queryType dtNow p.published.length rows p.bt
        p.published none (Or.inl rfl) (Nat.le_refl _)
      rw [hp1.1, hp1.2]
      cases hl : (translateRows pf columns queryType dtNow rows p.bt p.published none).2.2 with
      | none => exact Or.inl rfl
      | some e =>
        simp only []
        by_cases hk : uniKey ≠ [] ∧ column ≠ []
        · right
          rw [if_pos hk]
          refine ⟨?_, ?_, ?_, e, rfl⟩
          · by_contra hq
            rw [translateRows_not_resume pf columns queryType dtNow hq] at hl
            cases hl
          · intro hr
            rw [hr] at hl
            cases hl
          · rcases hinv.1 with hn | hn
            · rw [hl] at hn
              cases hn
            · exact hn
        · left
          rw [if_neg hk]
    · rw [if_neg h2] at h
      left
      by_cases h3 : queryType = queryTypeTwoColumns
      · simp only [if_pos h3] at h
        cases ha : appendRows pf dtNow rows p.bt
            [("@timestamp".toList, Value.time dtNow), ("type".toList, Value.str queryTypeTwoColumns)] with
        | none =>
          rw [ha] at h
          cases h
        | some r =>
          obtain ⟨event, bt1⟩ := r
          rw [ha] at h
          simp only [] at h
          split at h <;> (injection h with h; rw [← h])
      · simp only [if_neg h3] at h
        cases htc : p.twoColumnEvent <;> rw [htc] at h <;> simp only [] at h
        · injection h with h
          rw [← h]
        · split at h <;> (injection h with h; rw [← h])

theorem beatStep_resumeFile (pf : Str → Option F64) (lib : GoLib) (queryTypes : List Str)
    (env : Tick) (index : Nat) (queryStr : Str) (p p1 : Pass) (err : Option String)
    (hstep : beatStep pf lib queryTypes env index queryStr p = some (err, p1)) :
    p1.resumeFile = p.resumeFile ∨
    (queryTypes[index]? = some queryTypeResumeMultipleRows ∧
      p.published.length < p1.published.length ∧
      (∃ text uniKey column c rows,
        query lib (env.fileAt index) queryTypeResumeMultipleRows queryStr
          = some (text, uniKey, column) ∧
        env.db_Query text = .ok (c, rows) ∧ rows ≠ []) ∧
      ∃ msg, p1.resumeFile = p.resumeFile ++ [msg]) := by
  unfold beatStep at hstep
  cases ht : queryTypes[index]? with
  | none =>
    rw [ht] at hstep
    cases hstep
  | some queryType =>
    rw [ht] at hstep
    simp only [] at hstep
    cases hq : query lib (env.fileAt index) queryType queryStr with
    | none =>
      rw [hq] at hstep
      cases hstep
    | some r =>
      obtain ⟨text, uniKey, column⟩ := r
      rw [hq] at hstep
      simp only [] at hstep
      cases hd : env.db_Query text with
      | error e =>
        rw [hd] at hstep
        simp only [Option.some.injEq, Prod.mk.injEq] at hstep
        exact Or.inl (by rw [← hstep.2])
      | ok ans =>
        obtain ⟨c, rows⟩ := ans
        cases c with
        | error e =>
          rw [hd] at hstep
          simp only [Option.some.injEq, Prod.mk.injEq] at hstep
          exact Or.inl (by rw [← hstep.2])
        | ok columns =>
          rw [hd] at hstep
          simp only [] at hstep
          cases hb : queryBody pf lib queryType uniKey column columns rows (env.now index) p with
          | none =>
            rw [hb] at hstep
            cases hstep
          | some p2 =>
            rw [hb] at hstep
            simp only [Option.some.injEq, Prod.mk.injEq] at hstep
            rw [← hstep.2]
            rcases queryBody_resumeFile pf lib queryType uniKey column columns rows
              (env.now index) p p2 hb with h | ⟨h1, h2, h3, e, h4⟩
            · exact Or.inl h
            · right
              rw [h1] at hq
              exact ⟨by rw [h1], h3, ⟨text, uniKey, column, _, rows, hq, hd, h2⟩, _, h4⟩

/-- A pass none of whose queries has the type `resume-multiple-rows` sends
nothing on the resume channel. -/
theorem beatLoop_not_resume (pf : Str → Option F64) (lib : GoLib) (queryTypes : List Str)
    (env : Tick) (hnone : ∀ t ∈ queryTypes, t ≠ queryTypeResumeMultipleRows)
    (queries : List Str) (index : Nat) (p p1 : Pass) (err : Option String)
    (h : beatLoop pf lib queryTypes env index queries p = some (err, p1)) :
    p1.resumeFile = p.resumeFile := by
  induction queries generalizing index p with
  | nil =>
    simp only [beatLoop, Option.some.injEq, Prod.mk.injEq] at h
    rw [← h.2]
  | cons q rest ih =>
    unfold beatLoop at h
    cases hs : beatStep pf lib queryTypes env index q p with
    | none =>
      rw [hs] at h
      cases h
    | some r =>
      obtain ⟨e, p2⟩ := r
      have h2 : p2.resumeFile = p.resumeFile := by
        rcases beatStep_resumeFile pf lib queryTypes env index q p p2 e hs with h2 | ⟨h2, _⟩
        · exact h2
        · exact absurd rfl (hnone _ (List.getElem?_mem h2))
      rw [hs] at h
      cases e with
      | some e1 =>
        simp only [Option.some.injEq, Prod.mk.injEq] at h
        rw [← h.2, h2]
      | none =>
        simp only [] at h
        rw [ih (index + 1) p2 h, h2]

theorem queryBody_no_rows (pf : Str → Option F64) (lib : GoLib) (queryType uniKey column : Str)
    (columns : List Str) (dtNow : Int) (p : Pass) :
    (queryBody pf lib queryType uniKey column columns [] dtNow p).isSome = true := by
  unfold queryBody
  simp only [translateRows, appendRows]
  split_ifs <;> simp only [] <;> (repeat' split) <;> rfl

/-- C21 (no progress, no cursor update).  For the query number `index` of a
pass: when its type is not `resume-multiple-rows`, or the database answers
it with no row, or its row loop publishes no event, `beat` sends nothing on
the resume channel for it, and `listenResumeFile`, which receives nothing,
leaves the resume file as it is. -/
theorem C21_no_progress_no_cursor_update (pf : Str → Option F64) (lib : GoLib)
    (queryTypes : List Str) (env : Tick) (index : Nat) (queryStr : Str) (p p1 : Pass)
    (err : Option String)
    (hstep : beatStep pf lib queryTypes env index queryStr p = some (err, p1))
    (hno : queryTypes[index]? ≠ some queryTypeResumeMultipleRows ∨
      (∀ text uniKey column c rows,
        query lib (env.fileAt index) queryTypeResumeMultipleRows queryStr
          = some (text, uniKey, column) →
        env.db_Query text = .ok (c, rows) → rows = []) ∨
      p1.published = p.published) :
    p1.resumeFile = p.resumeFile ∧
    ∀ file, listenResumeFile lib (p1.resumeFile.drop p.resumeFile.length) file = some file := by
  have h : p1.resumeFile = p.resumeFile := by
    rcases beatStep_resumeFile pf lib queryTypes env index queryStr p p1 err hstep with
      h | ⟨h1, h2, ⟨text, uniKey, column, c, rows, hq, hd, hr⟩, _⟩
    · exact h
    · rcases hno with hno | hno | hno
      · exact absurd h1 hno
      · exact absurd (hno text uniKey column c rows hq hd) hr
      · rw [hno] at h2
        exact absurd h2 (Nat.lt_irrefl _)
  refine ⟨h, fun file => ?_⟩
  rw [h, List.drop_length]
  rfl

/-- Witness of C21: the query of Scenario C with the stored cursor 42, which
the database answers with no row, sends nothing; a `single-row` query that
publishes an event sends nothing either. -/
theorem C21_no_progress_no_cursor_update_witness :
    beatStep sampleParseFloat sampleLib [queryTypeResumeMultipleRows] emptyTick 0 scenarioCQuery
      startPass = some (none, startPass) ∧
    startPass.resumeFile = [] ∧
    beatStep sampleParseFloat sampleLib [queryTypeSingleRow] secondFailsTick 0 "SELECT a".toList
      startPass = some (none, ⟨sampleBeat, none,
        [[("@timestamp".toList, .time 0), ("type".toList, .str queryTypeSingleRow),
          ("a".toList, .int 1)]], []⟩) ∧
    (∀ file, listenResumeFile sampleLib
      ((⟨sampleBeat, none,
        [[("@timestamp".toList, .time 0), ("type".toList, .str queryTypeSingleRow),
          ("a".toList, .int 1)]], []⟩ : Pass).resumeFile.drop startPass.resumeFile.length) file
      = some file) := by
  have h1 : beatStep sampleParseFloat sampleLib [queryTypeResumeMultipleRows] emptyTick 0
      scenarioCQuery startPass = some (none, startPass) := by decide
  have h2 : beatStep sampleParseFloat sampleLib [queryTypeSingleRow] secondFailsTick 0
      "SELECT a".toList startPass = some (none, ⟨sampleBeat, none,
        [[("@timestamp".toList, .time 0), ("type".toList, .str queryTypeSingleRow),
          ("a".toList, .int 1)]], []⟩) := by decide
  have w1 := C21_no_progress_no_cursor_update sampleParseFloat sampleLib
    [queryTypeResumeMultipleRows] emptyTick 0 scenarioCQuery startPass startPass none h1
    (Or.inr (Or.inl (fun text uniKey column c rows _ hd => by
      simp only [emptyTick, Except.ok.injEq, Prod.mk.injEq] at hd
      exact hd.2.symm)))
  have w2 := C21_no_progress_no_cursor_update sampleParseFloat sampleLib
    [queryTypeSingleRow] secondFailsTick 0 "SELECT a".toList startPass _ none h2
    (Or.inl (by decide))
  exact ⟨h1, w1.1, h2, w2.2⟩

theorem beatLoop_cons (pf : Str → Option F64) (lib : GoLib) (queryTypes : List Str)
    (env : Tick) (index : Nat) (queryStr : Str) (rest : List Str) (p : Pass) :
    beatLoop pf lib queryTypes env index (queryStr :: rest) p =
      match beatStep pf lib queryTypes env index queryStr p with
      | none => none
      | some (some err, p1) => some (some err, p1)
      | some (none, p1) => beatLoop pf lib queryTypes env (index + 1) rest p1 := rfl

theorem beatLoop_append (pf : Str → Option F64) (lib : GoLib) (queryTypes : List Str)
    (env : Tick) (pre post : List Str) (index : Nat) (p p1 : Pass)
    (h : beatLoop pf lib queryTypes env index pre p = some (none, p1)) :
    beatLoop pf lib queryTypes env index (pre ++ post) p =
      beatLoop pf lib queryTypes env (index + pre.length) post p1 := by
  induction pre generalizing index p with
  | nil =>
    simp only [beatLoop, Option.some.injEq, Prod.mk.injEq, true_and] at h
    rw [h]
    rfl
  | cons q rest ih =>
    rw [beatLoop_cons] at h
    rw [List.cons_append, beatLoop_cons]
    cases hs : beatStep pf lib queryTypes env index q p with
    | none =>
      rw [hs] at h
      cases h
    | some r =>
      obtain ⟨e, p2⟩ := r
      rw [hs] at h
      cases e with
      | some e1 => cases h
      | none =>
        simp only [] at h ⊢
        rw [ih (index + 1) p2 h, List.length_cons]
        have hi : index + 1 + rest.length = index + (rest.length + 1) := by omega
        rw [hi]

/-- C22 as amended.  The queries before `queryStr` run without error and
leave the pass in the state `p1`; executing `queryStr` fails with `err`.
Then `beat` returns `err` with the state `p1`, whatever the remaining queries
`rest` are: they are skipped.  `Run` returns `err` on that tick, whatever
wake-ups `later` would follow: no later tick starts a pass. -/
theorem C22_query_failure_ends_run (pf : Str → Option F64) (lib : GoLib)
    (queryTypes : List Str) (env : Tick) (later : List Wakeup) (p p1 : Pass)
    (pre rest : List Str) (queryStr queryType text uniKey column : Str) (err : String)
    (hopen : env.sql_Open = none)
    (hpre : beatLoop pf lib queryTypes env 0 pre { p with twoColumnEvent := none }
      = some (none, p1))
    (htype : queryTypes[pre.length]? = some queryType)
    (hquery : query lib (env.fileAt pre.length) queryType queryStr
      = some (text, uniKey, column))
    (hfail : env.db_Query text = .error err) :
    beat pf lib (pre ++ queryStr :: rest) queryTypes env p = some (some err, p1) ∧
    Run pf lib (pre ++ queryStr :: rest) queryTypes (.tick env :: later) p
      = some (.returned (some err), p1) := by
  have hstep : beatStep pf lib queryTypes env pre.length queryStr p1 = some (some err, p1) := by
    unfold beatStep
    rw [htype]
    simp only [hquery, hfail]
  have hb : beat pf lib (pre ++ queryStr :: rest) queryTypes env p = some (some err, p1) := by
    unfold beat
    rw [hopen]
    simp only []
    rw [beatLoop_append pf lib queryTypes env pre _ 0 _ p1 hpre, Nat.zero_add]
    unfold beatLoop
    rw [hstep]
  refine ⟨hb, ?_⟩
  unfold Run
  rw [hb]

/-- Witness of C22 as amended: of the queries `SELECT a`, `SELECT b`,
`SELECT a` the second fails; `beat` returns the error with the one event of
the first query, and `Run` returns the error although a tick follows. -/
theorem C22_query_failure_ends_run_witness :
    Run sampleParseFloat sampleLib
      (["SELECT a".toList] ++ "SELECT b".toList :: ["SELECT a".toList])
      [queryTypeSingleRow, queryTypeSingleRow, queryTypeSingleRow]
      [.tick secondFailsTick, .tick answeringTick] startPass
      = some (.returned (some "table missing"), ⟨sampleBeat, none,
        [[("@timestamp".toList, .time 0), ("type".toList, .str queryTypeSingleRow),
          ("a".toList, .int 1)]], []⟩) :=
  (C22_query_failure_ends_run sampleParseFloat sampleLib
    [queryTypeSingleRow, queryTypeSingleRow, queryTypeSingleRow] secondFailsTick
    [.tick answeringTick] startPass _ ["SELECT a".toList] ["SELECT a".toList]
    "SELECT b".toList queryTypeSingleRow "SELECT b".toList [] [] "table missing"
    (by decide) (by decide) (by decide) (by decide) (by decide)).2

/-- Counterexample to C22 as stated.  The one query of the first pass
fails: `Run` returns the error and the second tick starts no pass, although
the database would answer it (run alone, the second tick publishes an event
and `Run` stays in its loop). -/
theorem C22_counterexample :
    Run sampleParseFloat sampleLib [scenarioCQuery] [queryTypeResumeMultipleRows]
      [.tick failingTick, .tick answeringTick] startPass
      = some (.returned (some "connection refused"), startPass) ∧
    Run sampleParseFloat sampleLib [scenarioCQuery] [queryTypeResumeMultipleRows]
      [.tick answeringTick] startPass
      = some (.running, ⟨sampleBeat, none,
        [[("@timestamp".toList, .time 0), ("type".toList, .str queryTypeResumeMultipleRows),
          ("id".toList, .int 42)]], ["cur|42".toList]⟩) := by
  refine ⟨by decide, by decide⟩

end MysqlBeat
